import Mathlib

/-!
SpineCreator: the generic input edge object (`NL_genericinput.cpp`)

A shallow embedding of `genericInput`: the connect / disconnect protocol on the
`inputs` list of the destination component and the `outputs` list of the source
component, the metadata writer and the two metadata readers, `newFromExisting`,
`animate`, `moveSelectedControlPoint`, `add_curves` and `draw`.

Objects that the C++ code refers to through (shared) pointers are identified by
their address, a natural number.  Screen coordinates (`qreal`) are rational
numbers, and arithmetic on them is exact, except in the section on the
arithmetic of `qreal`: there `animate` and `moveSelectedControlPoint`, whose
results depend on how sums and differences are rounded, are given with the
rounding after every operation.
-/

namespace SpineCreator

/-! ## Connection lists -/

/-- The part of the object graph that `genericInput::connect` and
`genericInput::disconnect` read and write: `dstCmpt->inputs`,
`srcCmpt->outputs`, the two positions kept by the input itself, and the port
assignment of the destination component (type `P`), which only
`ComponentInstance::matchPorts` touches. -/
structure ConnState (P : Type) where
  inputs : List Nat
  outputs : List Nat
  srcPos : Int
  dstPos : Int
  ports : P
deriving DecidableEq, Repr

/-- The search loops at the head of `connect`:
`for (i = 0; i < v.size(); ++i) if (v[i] == this) return;`
answers whether the loop hits the early return. -/
def alreadyThere (this : Nat) : List Nat → Bool
  | [] => false
  | x :: rest => if x = this then true else alreadyThere this rest

/-- Model of `genericInput::connect(in)` executed on the object at address `this`.
`matchPorts` stands for `ComponentInstance::matchPorts` of the destination
component, which is defined outside `NL_genericinput.cpp`; it is given the
inputs list and the port assignment and returns the new port assignment. -/
def connect {P : Type} (matchPorts : List Nat → P → P) (this inp : Nat)
    (s : ConnState P) : ConnState P :=
  if alreadyThere this s.inputs then s
  else if alreadyThere this s.outputs then s
  else
    let inputs := s.inputs ++ [inp]
    let outputs := s.outputs ++ [inp]
    { s with inputs := inputs, outputs := outputs, ports := matchPorts inputs s.ports }

/-- One erase loop of `disconnect`:
`for (i = 0; i < v.size(); ++i) if (v[i].data() == this) { v.erase(v.begin()+i); pos = i; }`
as a function of the loop counter `i`, the vector `v` and the recorded position
`pos`.  The size is read again at every test, and the counter is incremented
after an erase as well.  `fuel` bounds the number of iterations. -/
def eraseLoop (this : Nat) : Nat → Nat → List Nat → Int → List Nat × Int
  | 0, _, v, pos => (v, pos)
  | fuel + 1, i, v, pos =>
    if h : i < v.length then
      if v[i] = this then eraseLoop this fuel (i + 1) (v.eraseIdx i) (i : Int)
      else eraseLoop this fuel (i + 1) v pos
    else (v, pos)

/-- Model of `genericInput::disconnect()` executed on the object at address `this`.
Each loop runs at most once per element of the list it starts with, which is
the fuel given to it. -/
def disconnect {P : Type} (this : Nat) (s : ConnState P) : ConnState P :=
  let r₁ := eraseLoop this s.inputs.length 0 s.inputs s.dstPos
  let r₂ := eraseLoop this s.outputs.length 0 s.outputs s.srcPos
  { s with inputs := r₁.1, dstPos := r₁.2, outputs := r₂.1, srcPos := r₂.2 }

/-- Model of `genericInput::delAll`: removes the references by calling `disconnect`. -/
def delAll {P : Type} (this : Nat) (s : ConnState P) : ConnState P :=
  disconnect this s

/-- What an erase loop leaves of the part of the vector it has not yet visited:
after an erase the element that moves into the freed slot is stepped over. -/
def skipErase (this : Nat) : List Nat → List Nat
  | [] => []
  | [x] => if x = this then [] else [x]
  | x :: y :: rest =>
    if x = this then y :: skipErase this rest else x :: skipErase this (y :: rest)

/-! ## Geometry of an edge -/

/-- Model of `QPointF`. A coordinate is a rational number; the operations `+`,
`-`, `*` and `/` declared for points are exact, the rounded operations of
`qreal` are `QPointF.plus`, `QPointF.minus` and `QPointF.over`. -/
structure QPointF where
  x : ℚ
  y : ℚ
deriving DecidableEq, Repr

instance : Add QPointF := ⟨fun p q => ⟨p.x + q.x, p.y + q.y⟩⟩

instance : HDiv QPointF ℚ QPointF := ⟨fun p d => ⟨p.x / d, p.y / d⟩⟩

/-- Model of `cursorType`: the offset added to every coordinate that is loaded. -/
structure cursorType where
  x : ℚ
  y : ℚ
deriving DecidableEq, Repr

/-- Model of `bezierCurve`: the two handles and the end point of one segment. A curve
declared without initialiser holds three default points `(0,0)`. -/
structure bezierCurve where
  C1 : QPointF := ⟨0, 0⟩
  C2 : QPointF := ⟨0, 0⟩
  end_ : QPointF := ⟨0, 0⟩
deriving DecidableEq, Repr

/-- Model of `controlPointType`. -/
inductive controlPointType where
  | C1
  | C2
  | p_end
deriving DecidableEq, Repr

/-- Model of `selectedControlPoint`. -/
structure controlPoint where
  ind : Int := -1
  start : Bool := false
  type : controlPointType := controlPointType.C1
deriving DecidableEq, Repr

/-- The data members of a `genericInput` that the translated methods use.
Pointers (`source`, `destination`, `srcCmpt`, `dstCmpt`) are addresses, `0` is
the null pointer; `conn` is the connection object owned by the input, of a type
`C` that this file does not look into. -/
structure genericInput (C : Type) where
  start : QPointF
  curves : List bezierCurve
  isVisualised : Bool
  projInput : Bool
  source : Nat
  destination : Nat
  srcCmpt : Nat
  dstCmpt : Nat
  srcPort : String
  dstPort : String
  annotation : String
  conn : C
  srcPos : Int
  dstPos : Int
  selectedControlPoint : controlPoint

/-! ## The scene around an edge -/

instance : Sub QPointF := ⟨fun p q => ⟨p.x - q.x, p.y - q.y⟩⟩

instance : HMul ℚ QPointF QPointF := ⟨fun k p => ⟨k * p.x, k * p.y⟩⟩

/-- Model of `QLineF`: a line from `p1` to `p2`. -/
structure QLineF where
  p1 : QPointF
  p2 : QPointF
deriving DecidableEq, Repr

/-- The values of `systemObject::type` that `genericInput` tests. -/
inductive systemObjectType where
  | populationObject
  | projectionObject
  | inputObject
deriving DecidableEq, Repr

/-- How a call ends: it returns, with the state it leaves; or `CHECK_CAST`
finds a null pointer after a dynamic cast; or a curve is accessed at an index
outside the curve list. -/
inductive Outcome (α : Type) where
  | done (a : α)
  | badCast
  | outOfRange

/-- What follows a part of a call: `next` on the state the part leaves when it
returns, and the end of the part when it ends the run. -/
def Outcome.andThen {α β : Type} (o : Outcome α) (next : α → Outcome β) : Outcome β :=
  match o with
  | .done a => next a
  | .badCast => .badCast
  | .outOfRange => .outOfRange

/-- The objects an input is attached to, and the functions of Qt and of other
files of the repository that lay out and draw an edge. Objects are given by
their address. A dynamic cast to `population` succeeds for the objects whose
`type` is `populationObject`, one to `projection` for those whose `type` is
`projectionObject`. -/
structure Scene where
  /-- The member `type` of the object at an address. -/
  type : Nat → systemObjectType
  /-- Model of `systemObject::currentLocation()`. -/
  currentLocation : Nat → QPointF
  /-- The point `QPointF(pop->x, pop->y)` of the population at an address. -/
  centre : Nat → QPointF
  /-- The member `destination` of the projection at an address, null being 0. -/
  projDestination : Nat → Nat
  /-- The member `curves` of the projection at an address. -/
  projCurves : Nat → List bezierCurve
  /-- The member `owner` of the component at an address, null being 0. -/
  owner : Nat → Nat
  /-- Model of `findBoxEdge(pop, x, y)` for the population at an address. -/
  findBoxEdge : Nat → ℚ → ℚ → QPointF
  /-- Model of `QLineF::unitVector`. -/
  unitVector : QLineF → QLineF
  /-- The line after `QLineF::setLength`. -/
  setLength : QLineF → ℚ → QLineF
  /-- Model of `QLineF::length`. -/
  length : QLineF → ℚ
  /-- Model of `QLineF::angle`. -/
  angle : QLineF → ℚ
  /-- The line after `QLineF::setAngle`. -/
  setAngle : QLineF → ℚ → QLineF
  /-- Model of `QLineF::normalVector`. -/
  normalVector : QLineF → QLineF

/-! ## XML -/

/-- A node of a `QDomDocument`: an element with its tag name, attributes and
children, or a node of another kind (text, comment), for which `toElement()`
is the null element. -/
inductive QDomNode where
  | element (tagName : String) (attributes : List (String × String))
      (childNodes : List QDomNode)
  | text (data : String)
deriving Repr

/-- Model of `n.toElement().tagName()`; empty for a node that is not an element. -/
def QDomNode.tag : QDomNode → String
  | .element t _ _ => t
  | .text _ => ""

/-- The children of `n.toElement()`, as `firstChild()` / `nextSibling()` walk
them; none for a node that is not an element. -/
def QDomNode.children : QDomNode → List QDomNode
  | .element _ _ cs => cs
  | .text _ => []

/-- Look-up in an attribute list. -/
def lookupAttr (name defValue : String) : List (String × String) → String
  | [] => defValue
  | (k, v) :: rest => if k = name then v else lookupAttr name defValue rest

/-- Model of `n.toElement().attribute(name, defValue)`. -/
def QDomNode.attribute (n : QDomNode) (name defValue : String) : String :=
  match n with
  | .element _ as _ => lookupAttr name defValue as
  | .text _ => defValue

/-- Model of `n.toElement().removeAttribute(name)`; nothing happens on a node that is
not an element. -/
def QDomNode.removeAttribute (n : QDomNode) (name : String) : QDomNode :=
  match n with
  | .element t as cs => .element t (as.filter (fun kv => !decide (kv.1 = name))) cs
  | .text d => .text d

mutual
/-- Model of `n.toElement().elementsByTagName(tag)`: the elements below `n` with that
tag name, in document order. -/
def elementsByTagName (tag : String) : QDomNode → List QDomNode
  | .element _ _ cs => elementsIn tag cs
  | .text _ => []
/-- The elements with tag name `tag` in a list of sibling subtrees, in
document order. -/
def elementsIn (tag : String) : List QDomNode → List QDomNode
  | [] => []
  | n :: rest =>
    (if n.tag = tag then [n] else []) ++ (elementsByTagName tag n ++ elementsIn tag rest)
end

/-- Model of `!n.firstChildElement().isNull()`. -/
def hasChildElement (n : QDomNode) : Bool :=
  n.children.any (fun c => match c with
    | .element _ _ _ => true
    | .text _ => false)

/-- Model of `meta.removeChild(child)` where `child` is the only element below `meta`
with tag name `tag`: the node is taken out when it is one of the children of
`meta`; for a node further down `removeChild` does nothing. -/
def removeChildTagged (tag : String) : List QDomNode → List QDomNode
  | [] => []
  | n :: rest =>
    match n with
    | .element t as cs => if t = tag then rest else .element t as cs :: removeChildTagged tag rest
    | .text d => .text d :: removeChildTagged tag rest

/-- A token of an XML stream, as written by `QXmlStreamWriter` and reported by
`QXmlStreamReader`. An empty element with its attributes is a start token
followed by an end token. -/
inductive XmlToken where
  | startElement (name : String) (attributes : List (String × String))
  | endElement
  | characters (text : String)
deriving DecidableEq, Repr

/-- Functions of Qt and of other files of the repository that the translated
methods call. -/
structure Env (C : Type) where
  /-- Model of `QString::toFloat`. -/
  toFloat : String → ℚ
  /-- Model of `QString::number(double)`. -/
  number : ℚ → String
  /-- Model of `ComponentInstance::getXMLName` of the component at an address. -/
  getXMLName : Nat → String
  /-- Model of `systemObject::getName` of the object at an address. -/
  getName : Nat → String
  /-- The tokens that `QXmlStreamReader` reports for a text, start and end of
  document left out. -/
  xmlTokens : String → List XmlToken
  /-- The text `QDomNode::save` produces for a node. -/
  save : QDomNode → String
  /-- Model of `connection::write_metadata_xml`: the tokens it writes. -/
  connMetadata : C → List XmlToken
  /-- The `conn->type == CSV` block of the new-format reader, given `source`
  and `destination`; it does not check its casts to `population`. -/
  csvGenerator : Nat → Nat → C → C
  /-- Whether `conn->type == CSV` holds for a connection. -/
  connIsCSV : C → Bool
  /-- What the `conn->type == CSV` block of the old-format reader does to the
  connection for a `connection` node, given `source` and `destination`, once
  its casts to `population` have passed `CHECK_CAST`: the generator is created
  and reads its data from the node. -/
  legacyGenerator : QDomNode → Nat → Nat → C → C
  /-- Model of `connection::newFromExisting` followed by `setParent` with the address
  of the new owner. -/
  connNewFromExisting : C → Nat → C
  /-- The connection a freshly constructed input gets: `new alltoAll_connection`. -/
  alltoAll : C

/-! ### Writing -/

/-- Model of `QString::replace(before, "")` on the characters of a string, for a
non-empty `before`: the occurrences are found from left to right without
overlap and taken out. `skip` counts the characters of a found occurrence that
are still to be dropped. -/
def removeAll (before : List Char) : Nat → List Char → List Char
  | _, [] => []
  | skip + 1, _ :: cs => removeAll before skip cs
  | 0, c :: cs =>
    if before.isPrefixOf (c :: cs) then removeAll before (before.length - 1) cs
    else c :: removeAll before 0 cs

/-- The three `replace` calls on `this->annotation` in `write_model_meta_xml`. -/
def stripWrapper (a : String) : String :=
  String.mk (removeAll "</LL:Annotation>".toList 0
    (removeAll "<LL:Annotation>".toList 0 (removeAll "\n".toList 0 a.toList)))

/-- The tokens written for one curve in the loop of `write_model_meta_xml`. -/
def curveTokens {C : Type} (E : Env C) (c : bezierCurve) : List XmlToken :=
  [ .startElement "curve" [],
    .startElement "C1" [("xpos", E.number c.C1.x), ("ypos", E.number c.C1.y)], .endElement,
    .startElement "C2" [("xpos", E.number c.C2.x), ("ypos", E.number c.C2.y)], .endElement,
    .startElement "end" [("xpos", E.number c.end_.x), ("ypos", E.number c.end_.y)], .endElement,
    .endElement ]

/-- The loop over `this->curves` in `write_model_meta_xml`. -/
def curvesTokens {C : Type} (E : Env C) : List bezierCurve → List XmlToken
  | [] => []
  | c :: rest => curveTokens E c ++ curvesTokens E rest

/-- Model of `genericInput::write_model_meta_xml`: the input afterwards (its stored
annotation is rewritten) and the tokens written to `xmlOut`. -/
def write_model_meta_xml {C : Type} (E : Env C) (g : genericInput C) :
    genericInput C × List XmlToken :=
  if g.projInput then (g, [])
  else
    let a := stripWrapper (genericInput.annotation g)
    ({ g with annotation := a },
      [.startElement "LL:Annotation" []]
      ++ E.xmlTokens a
      ++ [.startElement "SpineCreator" [],
          .startElement "start" [("x", E.number g.start.x), ("y", E.number g.start.y)],
          .endElement,
          .startElement "curves" []]
      ++ curvesTokens E g.curves
      ++ [.endElement]
      ++ E.connMetadata g.conn
      ++ [.endElement, .endElement])

/-! ### Reading, new format -/

/-- The `while (!vals.isNull())` loop of `read_meta_data(QDomNode, cursorType)`
over the children of one `curve` element. -/
def readVals {C : Type} (E : Env C) (cursorPos : cursorType) :
    List QDomNode → bezierCurve → bezierCurve
  | [], newCurve => newCurve
  | vals :: rest, newCurve =>
    let c1 := if vals.tag = "C1" then
        { newCurve with C1 := ⟨E.toFloat (vals.attribute "xpos" "") + cursorPos.x,
                               E.toFloat (vals.attribute "ypos" "") + cursorPos.y⟩ }
      else newCurve
    let c2 := if vals.tag = "C2" then
        { c1 with C2 := ⟨E.toFloat (vals.attribute "xpos" "") + cursorPos.x,
                         E.toFloat (vals.attribute "ypos" "") + cursorPos.y⟩ }
      else c1
    let c3 := if vals.tag = "end" then
        { c2 with end_ := ⟨E.toFloat (vals.attribute "xpos" "") + cursorPos.x,
                           E.toFloat (vals.attribute "ypos" "") + cursorPos.y⟩ }
      else c2
    readVals E cursorPos rest c3

/-- The `for` loop over `edgeNodeList` of `read_meta_data(QDomNode, cursorType)`:
one curve is pushed for every `curve` element. -/
def readEdges {C : Type} (E : Env C) (cursorPos : cursorType) :
    List QDomNode → List bezierCurve → List bezierCurve
  | [], curves => curves
  | edge :: rest, curves =>
    readEdges E cursorPos rest (curves ++ [readVals E cursorPos edge.children {}])

/-- The `while (!metaData.isNull())` loop of `read_meta_data(QDomNode, cursorType)`. -/
def readMetaData {C : Type} (E : Env C) (cursorPos : cursorType) :
    List QDomNode → genericInput C → genericInput C
  | [], g => g
  | metaData :: rest, g =>
    let g1 := if metaData.tag = "start" then
        { g with start := ⟨E.toFloat (metaData.attribute "x" "") + cursorPos.x,
                           E.toFloat (metaData.attribute "y" "") + cursorPos.y⟩ }
      else g
    let g2 := if metaData.tag = "curves" then
        { g1 with curves := readEdges E cursorPos (elementsByTagName "curve" metaData) g1.curves }
      else g1
    let g3 := { g2 with conn := E.csvGenerator g2.source g2.destination g2.conn }
    readMetaData E cursorPos rest g3

/-- Model of `genericInput::read_meta_data(QDomNode meta, cursorType cursorPos)`: the
input afterwards and the node `meta` afterwards. -/
def read_meta_data {C : Type} (E : Env C) (domMeta : QDomNode) (cursorPos : cursorType)
    (g : genericInput C) : genericInput C × QDomNode :=
  if g.projInput then (g, domMeta)
  else
    let scAnns := elementsByTagName "SpineCreator" domMeta
    let metaNode : List QDomNode := if scAnns.length = 1 then scAnns.head?.toList else []
    let meta' : QDomNode :=
      if scAnns.length = 1 then
        match domMeta with
        | .element t as cs => .element t as (removeChildTagged "SpineCreator" cs)
        | .text d => .text d
      else domMeta
    let g1 := { g with annotation := genericInput.annotation g ++ E.save meta' }
    let metaData := match metaNode with
      | [] => []
      | n :: _ => n.children
    (readMetaData E cursorPos metaData g1, meta')

/-! ### Reading, old format -/

/-- The `while (!vals.isNull())` loop of `read_meta_data(QDomDocument *, cursorType)`. -/
def legacyVals {C : Type} (E : Env C) (cursorPos : cursorType) :
    List QDomNode → bezierCurve → bezierCurve
  | [], newCurve => newCurve
  | vals :: rest, newCurve =>
    let c1 := if vals.tag = "C1" then
        { newCurve with C1 := ⟨E.toFloat (vals.attribute "xpos" "") + cursorPos.x,
                               E.toFloat (vals.attribute "ypos" "") + cursorPos.y⟩ }
      else newCurve
    let c2 := if vals.tag = "C2" then
        { c1 with C2 := ⟨E.toFloat (vals.attribute "xpos" "") + cursorPos.x,
                         E.toFloat (vals.attribute "ypos" "") + cursorPos.y⟩ }
      else c1
    let c3 := if vals.tag = "end" then
        { c2 with end_ := ⟨E.toFloat (vals.attribute "xpos" "") + cursorPos.x,
                           E.toFloat (vals.attribute "ypos" "") + cursorPos.y⟩ }
      else c2
    legacyVals E cursorPos rest c3

/-- The `for` loop over `edgeNodeList` of `read_meta_data(QDomDocument *, cursorType)`. -/
def legacyEdges {C : Type} (E : Env C) (cursorPos : cursorType) :
    List QDomNode → List bezierCurve → List bezierCurve
  | [], curves => curves
  | edge :: rest, curves =>
    legacyEdges E cursorPos rest (curves ++ [legacyVals E cursorPos edge.children {}])

/-- Whether the pointer that `qSharedPointerDynamicCast <population>` gives for
the object at an address passes `CHECK_CAST`: the address is not null and the
object is a population. -/
def castsToPopulation (S : Scene) (a : Nat) : Bool :=
  decide (a ≠ 0) && decide (S.type a = .populationObject)

/-- The first two blocks of a round of the `while (!metaData.isNull())` loop of
`read_meta_data(QDomDocument *, cursorType)`: a `start` element sets the start
point, a `curves` element appends its curves. -/
def legacyGeometry {C : Type} (E : Env C) (cursorPos : cursorType) (metaData : QDomNode)
    (g : genericInput C) : genericInput C :=
  let g1 := if metaData.tag = "start" then
      { g with start := ⟨E.toFloat (metaData.attribute "x" "") + cursorPos.x,
                         E.toFloat (metaData.attribute "y" "") + cursorPos.y⟩ }
    else g
  if metaData.tag = "curves" then
    { g1 with curves := legacyEdges E cursorPos (elementsByTagName "curve" metaData) g1.curves }
  else g1

/-- The `while (!metaData.isNull())` loop of `read_meta_data(QDomDocument *, cursorType)`
over the children of the matching node. After the two blocks that load
geometry comes the block for connection generators: for a `connection` child
that has a child element, on an input whose connection is of type `CSV`,
`source` and `destination` are cast to `population` and each cast is checked
with `CHECK_CAST`, which ends the run when it finds a null pointer. The casts
of the connection and of the generator in the same block follow a test of the
type or the creation of the object and are taken to succeed. -/
def legacyMetaData {C : Type} (S : Scene) (E : Env C) (cursorPos : cursorType) :
    List QDomNode → genericInput C → Outcome (genericInput C)
  | [], g => .done g
  | metaData :: rest, g =>
    let g2 := legacyGeometry E cursorPos metaData g
    if metaData.tag = "connection" then
      if hasChildElement metaData then
        if E.connIsCSV g2.conn then
          if castsToPopulation S g2.source then
            if castsToPopulation S g2.destination then
              legacyMetaData S E cursorPos rest
                { g2 with conn := E.legacyGenerator metaData g2.source g2.destination g2.conn }
            else .badCast
          else .badCast
        else legacyMetaData S E cursorPos rest g2
      else legacyMetaData S E cursorPos rest g2
    else legacyMetaData S E cursorPos rest g2

/-- The test of the old-format reader whether a node is the metadata of this
input. -/
def legacyMatch {C : Type} (E : Env C) (g : genericInput C) (metaNode : QDomNode) : Bool :=
  decide (metaNode.attribute "source" "" = E.getXMLName g.srcCmpt)
  && decide (metaNode.attribute "destination" "" = E.getXMLName g.dstCmpt)
  && decide (metaNode.attribute "srcPort" "" = g.srcPort)
  && decide (metaNode.attribute "dstPort" "" = g.dstPort)

/-- The `while (!metaNode.isNull())` loop of `read_meta_data(QDomDocument *, cursorType)`
over the children of the document element: the input afterwards and the
children afterwards, when the run is not ended by a failed cast. -/
def legacyNodes {C : Type} (S : Scene) (E : Env C) (cursorPos : cursorType) :
    List QDomNode → genericInput C → Outcome (genericInput C × List QDomNode)
  | [], g => .done (g, [])
  | metaNode :: rest, g =>
    if legacyMatch E g metaNode then
      (legacyMetaData S E cursorPos metaNode.children g).andThen
        (fun g' => .done (g', metaNode.removeAttribute "source" :: rest))
    else
      (legacyNodes S E cursorPos rest g).andThen (fun r => .done (r.1, metaNode :: r.2))

/-- Model of `genericInput::read_meta_data(QDomDocument * meta, cursorType cursorPos)`;
the document is given by its document element. The input afterwards and the
document element afterwards, when the run is not ended by a failed cast. -/
def read_meta_data_legacy {C : Type} (S : Scene) (E : Env C) (documentElement : QDomNode)
    (cursorPos : cursorType) (g : genericInput C) : Outcome (genericInput C × QDomNode) :=
  if g.projInput then .done (g, documentElement)
  else
    match documentElement with
    | .element t as cs =>
      (legacyNodes S E cursorPos cs g).andThen (fun r => .done (r.1, .element t as r.2))
    | .text d => .done (g, .text d)

/-! ## Copying and moving -/

/-- Model of `genericInput::genericInput()`, as far as it and the default constructors
of the members set the members; `b` is the value of the flag `projInput`, which
the constructor does not assign. -/
def genericInput.default {C : Type} (E : Env C) (b : Bool) : genericInput C :=
  { start := ⟨0, 0⟩, curves := [], isVisualised := false, projInput := b,
    source := 0, destination := 0, srcCmpt := 0, dstCmpt := 0,
    srcPort := "", dstPort := "", annotation := "", conn := E.alltoAll,
    srcPos := -1, dstPos := -1, selectedControlPoint := {} }

/-- Model of `genericInput::newFromExisting(objectMap)` on the input at address `this`;
`newAddr` is the address of the object that `new genericInput()` returns and
`b` the value its unassigned flag starts with. The new object and the map
afterwards; a `QMap` from addresses to addresses is a function to
`Option Nat`, and `insert` replaces the value of its key. -/
def newFromExisting {C : Type} (E : Env C) (this newAddr : Nat) (b : Bool)
    (objectMap : Nat → Option Nat) (g : genericInput C) :
    genericInput C × (Nat → Option Nat) :=
  let newIn₀ : genericInput C := genericInput.default E b
  let newIn : genericInput C :=
    { newIn₀ with
      curves := g.curves, start := g.start, isVisualised := g.isVisualised,
      conn := E.connNewFromExisting g.conn newAddr,
      source := g.source, destination := g.destination, projInput := g.projInput,
      srcPort := g.srcPort, dstPort := g.dstPort,
      srcCmpt := g.srcCmpt, dstCmpt := g.dstCmpt }
  (newIn, fun k => if k = this then some newAddr else objectMap k)

/-- Model of `curves.front()` replaced by `f` of it. -/
def modifyFront (f : bezierCurve → bezierCurve) : List bezierCurve → List bezierCurve
  | [] => []
  | c :: rest => f c :: rest

/-- Model of `curves.back()` replaced by `f` of it. -/
def modifyBack (f : bezierCurve → bezierCurve) : List bezierCurve → List bezierCurve
  | [] => []
  | [c] => [f c]
  | c :: d :: rest => c :: modifyBack f (d :: rest)

/-- Model of `genericInput::animate(movingObj, delta)`. `source` is dereferenced
without a test, `destination` after a test against null. -/
def animate {C : Type} (E : Env C) (movingObj : Nat) (delta : QPointF) (g : genericInput C) :
    genericInput C :=
  if g.curves.length > 0 then
    let delta₁ : QPointF :=
      if g.destination ≠ 0 then
        if E.getName g.source = E.getName g.destination then delta / (2 : ℚ) else delta
      else delta
    let g₁ : genericInput C :=
      if E.getName movingObj = E.getName g.source then
        { g with start := g.start + delta₁,
                 curves := modifyFront (fun c => { c with C1 := c.C1 + delta₁ }) g.curves }
      else g
    if g₁.destination ≠ 0 then
      if E.getName movingObj = E.getName g₁.destination then
        let moved := modifyBack (fun c => { c with end_ := c.end_ + delta₁ }) g₁.curves
        { g₁ with curves := modifyBack (fun c => { c with C2 := c.C2 + delta₁ }) moved }
      else g₁
    else g₁
  else g

/-! ### From a token stream to a document -/

/-- An element that is open while a token stream is turned into a document:
its tag name, its attributes and the children it has so far. The outermost
frame stands for the document itself. -/
structure Frame where
  tag : String
  attributes : List (String × String)
  childNodes : List QDomNode

/-- The frame with one more child. -/
def Frame.push (f : Frame) (n : QDomNode) : Frame :=
  { f with childNodes := f.childNodes ++ [n] }

/-- The document tree of a token stream, as `QDomDocument::setContent` builds
it from the text of the stream: `cur` is the innermost open element and
`outer` the elements around it. A stream that closes an element it has not
opened, or ends inside an element, has no document. -/
def buildDom : List XmlToken → Frame → List Frame → Option (List QDomNode)
  | [], cur, [] => some cur.childNodes
  | [], _, _ :: _ => none
  | .startElement t as :: ts, cur, outer => buildDom ts ⟨t, as, []⟩ (cur :: outer)
  | .characters d :: ts, cur, outer => buildDom ts (cur.push (.text d)) outer
  | .endElement :: _, _, [] => none
  | .endElement :: ts, cur, p :: outer =>
    buildDom ts (p.push (.element cur.tag cur.attributes cur.childNodes)) outer

/-- The top-level nodes of the document of a token stream. -/
def domOfTokens (ts : List XmlToken) : Option (List QDomNode) :=
  buildDom ts ⟨"", [], []⟩ []

mutual
/-- The token stream of a node. -/
def flatten : QDomNode → List XmlToken
  | .element t as cs => .startElement t as :: (flattenAll cs ++ [.endElement])
  | .text d => [.characters d]
/-- The token stream of a list of sibling nodes. -/
def flattenAll : List QDomNode → List XmlToken
  | [] => []
  | n :: rest => flatten n ++ flattenAll rest
end

/-- The `curve` element that `write_model_meta_xml` writes for a curve. -/
def curveNode {C : Type} (E : Env C) (c : bezierCurve) : QDomNode :=
  .element "curve" []
    [ .element "C1" [("xpos", E.number c.C1.x), ("ypos", E.number c.C1.y)] [],
      .element "C2" [("xpos", E.number c.C2.x), ("ypos", E.number c.C2.y)] [],
      .element "end" [("xpos", E.number c.end_.x), ("ypos", E.number c.end_.y)] [] ]

/-- The coordinates of a curve. -/
def bezierCurve.coordinates (c : bezierCurve) : List ℚ :=
  [c.C1.x, c.C1.y, c.C2.x, c.C2.y, c.end_.x, c.end_.y]

/-- The numbers written for each of the curves. -/
def curvesCoordinates : List bezierCurve → List ℚ
  | [] => []
  | c :: rest => c.coordinates ++ curvesCoordinates rest

/-- The numbers that `write_model_meta_xml` writes for an input. -/
def genericInput.coordinates {C : Type} (g : genericInput C) : List ℚ :=
  [g.start.x, g.start.y] ++ curvesCoordinates g.curves

/-- The `SpineCreator` element that `write_model_meta_xml` writes for an input
whose connection writes the nodes `connNodes`. -/
def spineCreatorNode {C : Type} (E : Env C) (g : genericInput C) (connNodes : List QDomNode) :
    QDomNode :=
  .element "SpineCreator" []
    ([ .element "start" [("x", E.number g.start.x), ("y", E.number g.start.y)] [],
       .element "curves" [] (g.curves.map (curveNode E)) ] ++ connNodes)

/-- The `LL:Annotation` element that `write_model_meta_xml` writes for an input
whose preserved annotation holds the nodes `annNodes` and whose connection
writes the nodes `connNodes`. -/
def annotationNode {C : Type} (E : Env C) (g : genericInput C)
    (annNodes connNodes : List QDomNode) : QDomNode :=
  .element "LL:Annotation" [] (annNodes ++ [spineCreatorNode E g connNodes])

/-- A sequence of later calls of `read_meta_data(QDomDocument *, cursorType)`,
each with its own input, on the same document: the document element after the
last of them, when no run is ended by a failed cast. -/
def legacyReadAll {C : Type} (S : Scene) (E : Env C) :
    List (cursorType × genericInput C) → QDomNode → Outcome QDomNode
  | [], doc => .done doc
  | (cursorPos, h) :: rest, doc =>
    (read_meta_data_legacy S E doc cursorPos h).andThen (fun r => legacyReadAll S E rest r.2)

/-- Whether one of the children of a metadata node is a `connection` element
with a child element: the children at which the old-format loop looks at the
type of the connection. -/
def hasGeneratorNode : List QDomNode → Bool
  | [] => false
  | n :: rest => (decide (n.tag = "connection") && hasChildElement n) || hasGeneratorNode rest

/-- Whether the old-format loop over `children` comes to a `CHECK_CAST` that
fails: the connection is of type `CSV`, a child is a `connection` element with
a child element, and `source` or `destination` is null or not a population. -/
def legacyCastFails {C : Type} (S : Scene) (E : Env C) (g : genericInput C)
    (children : List QDomNode) : Bool :=
  hasGeneratorNode children && E.connIsCSV g.conn
    && !(castsToPopulation S g.source && castsToPopulation S g.destination)

/-- The children of a metadata node that carry geometry: the `start` and the
`curves` elements. -/
def isGeometry (n : QDomNode) : Bool :=
  decide (n.tag = "start") || decide (n.tag = "curves")

/-! ## What a reader loads -/

/-- Whether one of the nodes has the tag name `tag`. -/
def hasChild (tag : String) : List QDomNode → Bool
  | [] => false
  | n :: rest => decide (n.tag = tag) || hasChild tag rest

/-- A point moved by the cursor offset if `loaded` holds, and left alone if
not. -/
def translateIf (loaded : Bool) (cursorPos : cursorType) (p : QPointF) : QPointF :=
  if loaded then ⟨p.x + cursorPos.x, p.y + cursorPos.y⟩ else p

/-- A curve read from the `curve` element `edge`, with each of its points moved
by the cursor offset if the element has the child that sets the point. -/
def translateCurve (cursorPos : cursorType) (edge : QDomNode) (k : bezierCurve) : bezierCurve :=
  { C1 := translateIf (hasChild "C1" edge.children) cursorPos k.C1,
    C2 := translateIf (hasChild "C2" edge.children) cursorPos k.C2,
    end_ := translateIf (hasChild "end" edge.children) cursorPos k.end_ }

/-- The `curve` elements that a reader turns into curves, in the order in
which it does: those below the `curves` children of the metadata node. -/
def loadedEdges : List QDomNode → List QDomNode
  | [] => []
  | n :: rest =>
    (if n.tag = "curves" then elementsByTagName "curve" n else []) ++ loadedEdges rest

/-- The children that `read_meta_data(QDomNode, cursorType)` walks: those of
the `SpineCreator` element below `meta` if there is exactly one, else none. -/
def loadedChildren (domMeta : QDomNode) : List QDomNode :=
  match elementsByTagName "SpineCreator" domMeta with
  | [sc] => sc.children
  | _ => []

/-- The children that `read_meta_data(QDomDocument *, cursorType)` walks: those
of the first node among `nodes` that matches the input, none if no node
matches. -/
def legacyLoadedChildren {C : Type} (E : Env C) (g : genericInput C) :
    List QDomNode → List QDomNode
  | [] => []
  | n :: rest => if legacyMatch E g n then n.children else legacyLoadedChildren E g rest

/-! ## Dragging a control point -/

/-- The curve at `curves[i]`, if the index is inside the list. -/
def curveAt (curves : List bezierCurve) (i : Int) : Option bezierCurve :=
  if 0 ≤ i ∧ i < (curves.length : Int) then curves[i.toNat]? else none

/-- The list after an assignment to a member of `curves[i]`, if the index is
inside the list. -/
def assignAt (curves : List bezierCurve) (i : Int) (f : bezierCurve → bezierCurve) :
    Option (List bezierCurve) :=
  match curveAt curves i with
  | some c => some (curves.set i.toNat (f c))
  | none => none

/-- The `case p_end` of the switch in `moveSelectedControlPoint`: the three
assignments in their order. -/
def moveJoin (cursor : QPointF) (ind : Int) (curves : List bezierCurve) :
    Option (List bezierCurve) := do
  let a ← curveAt curves ind
  let b ← curveAt curves (ind + 1)
  let curves₁ ← assignAt curves (ind + 1) (fun c => { c with C1 := cursor - (a.end_ - b.C1) })
  let a₁ ← curveAt curves₁ ind
  let curves₂ ← assignAt curves₁ ind (fun c => { c with C2 := cursor - (a₁.end_ - a₁.C2) })
  assignAt curves₂ ind (fun c => { c with end_ := cursor })

/-- The switch on `selectedControlPoint.type` in `moveSelectedControlPoint`. -/
def moveOther (cursor : QPointF) (sel : controlPoint) (curves : List bezierCurve) :
    Option (List bezierCurve) :=
  match sel.type with
  | .C1 => assignAt curves sel.ind (fun c => { c with C1 := cursor })
  | .C2 => assignAt curves sel.ind (fun c => { c with C2 := cursor })
  | .p_end => moveJoin cursor sel.ind curves

/-- Model of `genericInput::moveSelectedControlPoint(xGL, yGL)`. -/
def moveSelectedControlPoint {C : Type} (S : Scene) (xGL yGL : ℚ) (g : genericInput C) :
    Outcome (genericInput C) :=
  let cursor : QPointF := ⟨xGL, yGL⟩
  if g.selectedControlPoint.start then
    if S.type g.source = .projectionObject then .done g
    else if S.type g.source = .populationObject then
      let line : QLineF := ⟨S.centre g.source, cursor⟩
      let nextLine := S.setLength (S.unitVector line) 1000
      let point := nextLine.p2
      let boxEdge := S.findBoxEdge g.source point.x point.y
      match g.curves with
      | [] => .outOfRange
      | c :: rest =>
        let handle := S.setAngle ⟨S.centre g.source, c.C1⟩ (S.angle nextLine)
        .done { g with curves := { c with C1 := handle.p2 } :: rest, start := boxEdge }
    else .done g
  else if g.selectedControlPoint.ind ≠ -1 then
    if g.selectedControlPoint.ind = (g.curves.length : Int) - 1
        ∧ g.selectedControlPoint.type = .p_end then
      if S.type g.destination = .projectionObject then .done g
      else if S.type g.source = .populationObject then
        if S.type g.destination = .populationObject then
          let line : QLineF := ⟨S.centre g.destination, cursor⟩
          let nextLine := S.setLength (S.unitVector line) 1000
          let point := nextLine.p2
          let boxEdge := S.findBoxEdge g.destination point.x point.y
          match g.curves.getLast? with
          | none => .outOfRange
          | some c =>
            let handle := S.setAngle ⟨S.centre g.destination, c.C2⟩ (S.angle nextLine)
            let curves₁ := modifyBack (fun c => { c with C2 := handle.p2 }) g.curves
            .done { g with curves := modifyBack (fun c => { c with end_ := boxEdge }) curves₁ }
        else .badCast
      else .done g
    else
      match moveOther cursor g.selectedControlPoint g.curves with
      | some curves => .done { g with curves := curves }
      | none => .outOfRange
  else .done g

/-! ## The arithmetic of `qreal`

`qreal` is `double`: the result of an operation on two coordinates is the
exact result rounded. The two methods whose claims depend on the rounding,
`animate` and `moveSelectedControlPoint`, are given here with the rounding
`fl` after every operation on coordinates. With the identity for `fl` they are
the definitions above; with `roundDouble` they compute what the machine
computes. -/

/-- The integer nearest to `q`, and of two nearest integers the even one. -/
def roundHalfEven (q : ℚ) : ℤ :=
  let n := ⌊q⌋
  if q - n < 1 / 2 then n
  else if 1 / 2 < q - n then n + 1
  else if n % 2 = 0 then n else n + 1

/-- The `double` nearest to `q`, as IEEE 754 arithmetic rounds (binary64, to
nearest, ties to even): `q` is rounded to a multiple of `2 ^ (e - 52)`, where
`2 ^ e ≤ |q| < 2 ^ (e + 1)`, and to a multiple of `2 ^ (-1074)` where `|q|` is
below `2 ^ (-1022)`. A result of magnitude `2 ^ 1024` or more, for which the
machine gives an infinity, is outside this model. -/
def roundDouble (q : ℚ) : ℚ :=
  let e : ℤ := max (Int.log 2 |q|) (-1022)
  roundHalfEven (q / 2 ^ (e - 52)) * 2 ^ (e - 52)

/-- Model of `operator+` on `QPointF`, each coordinate rounded. -/
def QPointF.plus (fl : ℚ → ℚ) (p q : QPointF) : QPointF :=
  ⟨fl (p.x + q.x), fl (p.y + q.y)⟩

/-- Model of `operator-` on `QPointF`, each coordinate rounded. -/
def QPointF.minus (fl : ℚ → ℚ) (p q : QPointF) : QPointF :=
  ⟨fl (p.x - q.x), fl (p.y - q.y)⟩

/-- Model of `operator/` of a `QPointF` by a `qreal`, each coordinate rounded. -/
def QPointF.over (fl : ℚ → ℚ) (p : QPointF) (d : ℚ) : QPointF :=
  ⟨fl (p.x / d), fl (p.y / d)⟩

/-- Model of `genericInput::animate(movingObj, delta)` in the arithmetic of
`qreal`: `animate` with the rounding `fl` after the division and after every
addition. -/
def animateRounded {C : Type} (fl : ℚ → ℚ) (E : Env C) (movingObj : Nat) (delta : QPointF)
    (g : genericInput C) : genericInput C :=
  if g.curves.length > 0 then
    let delta₁ : QPointF :=
      if g.destination ≠ 0 then
        if E.getName g.source = E.getName g.destination then QPointF.over fl delta 2 else delta
      else delta
    let g₁ : genericInput C :=
      if E.getName movingObj = E.getName g.source then
        { g with start := QPointF.plus fl g.start delta₁,
                 curves := modifyFront (fun c => { c with C1 := QPointF.plus fl c.C1 delta₁ })
                   g.curves }
      else g
    if g₁.destination ≠ 0 then
      if E.getName movingObj = E.getName g₁.destination then
        let moved :=
          modifyBack (fun c => { c with end_ := QPointF.plus fl c.end_ delta₁ }) g₁.curves
        { g₁ with curves :=
            modifyBack (fun c => { c with C2 := QPointF.plus fl c.C2 delta₁ }) moved }
      else g₁
    else g₁
  else g

/-- The `case p_end` of the switch in `moveSelectedControlPoint` in the
arithmetic of `qreal`: `moveJoin` with the rounding `fl` after every
subtraction. -/
def moveJoinRounded (fl : ℚ → ℚ) (cursor : QPointF) (ind : Int) (curves : List bezierCurve) :
    Option (List bezierCurve) := do
  let a ← curveAt curves ind
  let b ← curveAt curves (ind + 1)
  let curves₁ ← assignAt curves (ind + 1)
    (fun c => { c with C1 := QPointF.minus fl cursor (QPointF.minus fl a.end_ b.C1) })
  let a₁ ← curveAt curves₁ ind
  let curves₂ ← assignAt curves₁ ind
    (fun c => { c with C2 := QPointF.minus fl cursor (QPointF.minus fl a₁.end_ a₁.C2) })
  assignAt curves₂ ind (fun c => { c with end_ := cursor })

/-- The switch on `selectedControlPoint.type` in `moveSelectedControlPoint`, in
the arithmetic of `qreal`. -/
def moveOtherRounded (fl : ℚ → ℚ) (cursor : QPointF) (sel : controlPoint)
    (curves : List bezierCurve) : Option (List bezierCurve) :=
  match sel.type with
  | .C1 => assignAt curves sel.ind (fun c => { c with C1 := cursor })
  | .C2 => assignAt curves sel.ind (fun c => { c with C2 := cursor })
  | .p_end => moveJoinRounded fl cursor sel.ind curves

/-- Model of `genericInput::moveSelectedControlPoint(xGL, yGL)` in the
arithmetic of `qreal`: `moveSelectedControlPoint` with the rounding `fl` after
every subtraction. -/
def moveSelectedControlPointRounded {C : Type} (fl : ℚ → ℚ) (S : Scene) (xGL yGL : ℚ)
    (g : genericInput C) : Outcome (genericInput C) :=
  let cursor : QPointF := ⟨xGL, yGL⟩
  if g.selectedControlPoint.start then
    if S.type g.source = .projectionObject then .done g
    else if S.type g.source = .populationObject then
      let line : QLineF := ⟨S.centre g.source, cursor⟩
      let nextLine := S.setLength (S.unitVector line) 1000
      let point := nextLine.p2
      let boxEdge := S.findBoxEdge g.source point.x point.y
      match g.curves with
      | [] => .outOfRange
      | c :: rest =>
        let handle := S.setAngle ⟨S.centre g.source, c.C1⟩ (S.angle nextLine)
        .done { g with curves := { c with C1 := handle.p2 } :: rest, start := boxEdge }
    else .done g
  else if g.selectedControlPoint.ind ≠ -1 then
    if g.selectedControlPoint.ind = (g.curves.length : Int) - 1
        ∧ g.selectedControlPoint.type = .p_end then
      if S.type g.destination = .projectionObject then .done g
      else if S.type g.source = .populationObject then
        if S.type g.destination = .populationObject then
          let line : QLineF := ⟨S.centre g.destination, cursor⟩
          let nextLine := S.setLength (S.unitVector line) 1000
          let point := nextLine.p2
          let boxEdge := S.findBoxEdge g.destination point.x point.y
          match g.curves.getLast? with
          | none => .outOfRange
          | some c =>
            let handle := S.setAngle ⟨S.centre g.destination, c.C2⟩ (S.angle nextLine)
            let curves₁ := modifyBack (fun c => { c with C2 := handle.p2 }) g.curves
            .done { g with curves := modifyBack (fun c => { c with end_ := boxEdge }) curves₁ }
        else .badCast
      else .done g
    else
      match moveOtherRounded fl cursor g.selectedControlPoint g.curves with
      | some curves => .done { g with curves := curves }
      | none => .outOfRange
  else .done g

/-! ## Laying out a new edge -/

/-- The point `proj->curves.back().C2` of another object. Where the list is
empty the C++ expression reads past the vector; `(0,0)` stands for the value
it finds there. -/
def backC2 (curves : List bezierCurve) : QPointF :=
  match curves.getLast? with
  | some c => c.C2
  | none => ⟨0, 0⟩

/-- Model of `genericInput::add_curves()`, first part: the new curve is pushed
and `start` is set. -/
def pushNewCurve {C : Type} (S : Scene) (g : genericInput C) : genericInput C :=
  let dstLoc := S.currentLocation (S.owner g.dstCmpt)
  let srcLoc := S.currentLocation (S.owner g.srcCmpt)
  let newCurve : bezierCurve :=
    { end_ := dstLoc,
      C1 := (1 / 2 : ℚ) * (dstLoc + srcLoc),
      C2 := (1 / 2 : ℚ) * (dstLoc + srcLoc) }
  { g with start := srcLoc, curves := g.curves ++ [newCurve] }

/-- The block `if (this->source->type == populationObject)` of `add_curves`. -/
def layoutFromPopulation {C : Type} (S : Scene) (g : genericInput C) : genericInput C :=
  if S.type g.source = .populationObject then
    if S.type g.destination = .projectionObject ∧ S.projDestination g.destination = g.source then
      let line₁ := S.setLength
        (S.unitVector ⟨S.currentLocation g.source, S.currentLocation g.destination⟩) (8 / 5)
      let curves₁ := modifyBack (fun c => { c with C2 := line₁.p2 }) g.curves
      let line₂ := S.setAngle line₁ (S.angle line₁ + 30)
      let boxEdge := S.findBoxEdge g.source line₂.p2.x line₂.p2.y
      { g with start := boxEdge,
               curves := modifyBack (fun c => { c with C1 := line₂.p2 }) curves₁ }
    else
      let dstLoc := S.currentLocation (S.owner g.dstCmpt)
      { g with start := S.findBoxEdge g.source dstLoc.x dstLoc.y }
  else g

/-- The block `if (this->destination->type == populationObject)` of `add_curves`. -/
def layoutToPopulation {C : Type} (S : Scene) (g : genericInput C) : genericInput C :=
  if S.type g.destination = .populationObject then
    let srcLoc := S.currentLocation (S.owner g.srcCmpt)
    let boxEdge := S.findBoxEdge g.destination srcLoc.x srcLoc.y
    { g with curves := modifyBack (fun c => { c with end_ := boxEdge }) g.curves }
  else g

/-- The block "self connection population aesthetics" of `add_curves`. -/
def layoutSelfPopulation {C : Type} (S : Scene) (g : genericInput C) : genericInput C :=
  if g.destination = g.source ∧ S.type g.destination = .populationObject then
    let loc := S.currentLocation g.destination
    let curves₁ := modifyBack
      (fun c => { c with end_ := S.findBoxEdge g.destination loc.x 1000000 }) g.curves
    let curves₂ := modifyBack (fun c => { c with C1 := ⟨loc.x + 1, loc.y + 1⟩ }) curves₁
    { g with start := S.findBoxEdge g.source 1000000 1000000,
             curves := modifyBack (fun c => { c with C2 := ⟨loc.x, loc.y + 7 / 5⟩ }) curves₂ }
  else g

/-- The block "self projection connection aesthetics" of `add_curves`. -/
def layoutSelfProjection {C : Type} (S : Scene) (g : genericInput C) : genericInput C :=
  if S.type g.destination = .projectionObject ∧ S.type g.source = .projectionObject
      ∧ g.destination = g.source then
    let line₁ := S.setLength
      (S.unitVector ⟨S.currentLocation g.source, backC2 (S.projCurves g.destination)⟩) (8 / 5)
    let line₂ := S.setAngle line₁ (S.angle line₁ + 20)
    let curves₁ := modifyBack (fun c => { c with C2 := line₂.p2 }) g.curves
    let line₃ := S.setAngle line₂ (S.angle line₂ + 70)
    { g with curves := modifyBack (fun c => { c with C1 := line₃.p2 }) curves₁ }
  else g

/-- Model of `genericInput::add_curves()`: nothing happens when an owner is
null; otherwise the new curve is pushed and the four blocks that adjust it run
in their order. -/
def add_curves {C : Type} (S : Scene) (g : genericInput C) : genericInput C :=
  if S.owner g.dstCmpt = 0 ∨ S.owner g.srcCmpt = 0 then g
  else
    layoutSelfProjection S
      (layoutSelfPopulation S (layoutToPopulation S (layoutFromPopulation S (pushNewCurve S g))))

/-! ## Drawing -/

/-- The values of `drawStyle` that `genericInput::draw` distinguishes. -/
inductive drawStyle where
  | spikeSourceDrawStyle
  | microcircuitDrawStyle
  | layersDrawStyle
  | standardDrawStyle
  | standardDrawStyleExcitatory
  | saveNetworkImageDrawStyle
deriving DecidableEq, Repr

/-- Model of `QPen`: the width and the colour, which `draw` sets, and whatever
else a pen holds. -/
structure QPen (Col : Type) where
  widthF : ℚ
  color : Col
  others : Nat

/-- An element of a `QPainterPath`. -/
inductive PathElement where
  | moveTo (p : QPointF)
  | cubicTo (c1 c2 endPoint : QPointF)
  | polygon (points : List QPointF)
  | ellipse (center : QPointF) (rx ry : ℚ)
deriving DecidableEq, Repr

/-- A path or fill operation issued to a painter; a path is drawn with the pen
the painter has at that time. -/
inductive PaintOp (Col : Type) where
  | fillPath (path : List PathElement) (colour : Col)
  | drawPath (path : List PathElement) (pen : QPen Col)

/-- Model of `QPainter`: its pen and the path and fill operations issued to it so
far. -/
structure QPainter (Col : Type) where
  pen : QPen Col
  ops : List (PaintOp Col)

/-- The painter after `setPen`. -/
def QPainter.setPen {Col : Type} (p : QPainter Col) (pen : QPen Col) : QPainter Col :=
  { p with pen := pen }

/-- The painter after `drawPath`. -/
def QPainter.drawPath {Col : Type} (p : QPainter Col) (path : List PathElement) :
    QPainter Col :=
  { p with ops := p.ops ++ [.drawPath path p.pen] }

/-- The painter after `fillPath`. -/
def QPainter.fillPath {Col : Type} (p : QPainter Col) (path : List PathElement) (colour : Col) :
    QPainter Col :=
  { p with ops := p.ops ++ [.fillPath path colour] }

/-- What `draw` takes from outside `NL_genericinput.cpp` besides the scene. -/
structure Canvas (C Col : Type) where
  /-- The colour that the switch on `conn->type` at the head of `draw` picks. -/
  colourOf : genericInput C → Col
  /-- The colour `QCOL_GREEN2`. -/
  green2 : Col
  /-- Model of `transformPoint` after `setupTrans(GLscale, viewX, viewY, width, height)`. -/
  transformPoint : ℚ → ℚ → ℚ → Int → Int → QPointF → QPointF
  /-- Model of `QPainterPath::pointAtPercent`. -/
  pointAtPercent : List PathElement → ℚ → QPointF
  /-- The value `settings.value("dpi", 1.0).toFloat()`. -/
  dpi : ℚ

/-- The point `curves.front().C1` of a list that is not empty. -/
def frontC1 (curves : List bezierCurve) : QPointF :=
  match curves.head? with
  | some c => c.C1
  | none => ⟨0, 0⟩

/-- The point `curves.back().end` of a list that is not empty. -/
def backEnd (curves : List bezierCurve) : QPointF :=
  match curves.getLast? with
  | some c => c.end_
  | none => ⟨0, 0⟩

/-- The `cubicTo` loop of `draw`: every curve ends in its own `end`, the last
one in the point `endPoint`. -/
def cubicPath (T : QPointF → QPointF) (endPoint : QPointF) : List bezierCurve → List PathElement
  | [] => []
  | [c] => [.cubicTo (T c.C1) (T c.C2) (T endPoint)]
  | c :: d :: rest => .cubicTo (T c.C1) (T c.C2) (T c.end_) :: cubicPath T endPoint (d :: rest)

/-- The block `if (source != NULL)` of the spike-source and microcircuit
styles: the local `start` after it. The local is a default point before. -/
def spikeStart {C : Type} (S : Scene) (g : genericInput C) : QPointF :=
  if g.source ≠ 0 then
    if S.type g.source = .projectionObject then
      if (S.projCurves g.source).length > 0 ∧ S.projDestination g.source ≠ 0 then
        (S.setLength ⟨S.centre (S.projDestination g.source), backC2 (S.projCurves g.source)⟩
          (3 / 5)).p2
      else ⟨0, 0⟩
    else if S.type g.source = .populationObject then
      (S.setLength ⟨S.centre g.source, frontC1 g.curves⟩ (3 / 5)).p2
    else ⟨0, 0⟩
  else g.start

/-- The block `if (destination != NULL)` of the spike-source and microcircuit
styles: the locals `start` and `end` after it, given `start` before it. The
local `end` is a default point before. -/
def spikeEnds {C : Type} (S : Scene) (g : genericInput C) (start : QPointF) :
    QPointF × QPointF :=
  if g.destination ≠ 0 then
    if S.type g.destination = .projectionObject then
      if (S.projCurves g.destination).length > 0 ∧ S.projDestination g.destination ≠ 0 then
        (start,
          (S.setLength
            ⟨S.centre (S.projDestination g.destination), backC2 (S.projCurves g.destination)⟩
            (11 / 20)).p2)
      else (⟨0, 0⟩, ⟨0, 0⟩)
    else if S.type g.destination = .populationObject then
      (start, (S.setLength ⟨S.centre g.destination, backC2 g.curves⟩ (11 / 20)).p2)
    else (start, ⟨0, 0⟩)
  else (start, backEnd g.curves)

/-- The arrow head of the spike-source and microcircuit styles, from the path
and `GLscale`. -/
def arrowHead {C Col : Type} (S : Scene) (K : Canvas C Col) (path : List PathElement)
    (GLscale : ℚ) : List QPointF :=
  let end_point := K.pointAtPercent path 1
  let temp_end_point := K.pointAtPercent path (199 / 200)
  let line := S.unitVector ⟨end_point, temp_end_point⟩
  let line2 := S.setLength ⟨line.p2, line.p1⟩ (S.length ⟨line.p2, line.p1⟩ + 1 / 20 * GLscale / 2)
  let end_point₁ := line2.p2
  let line₁ := S.setLength line (1 / 10 * GLscale / 2)
  let t := line₁.p2 - line₁.p1
  let normal := S.normalVector line₁
  let normal₁ := S.setLength normal (S.length normal * (4 / 5))
  let a1 := normal₁.p2 + t
  let normal₂ := S.setLength normal₁ (-S.length normal₁)
  let a2 := normal₂.p2 + t
  [end_point₁, a1, a2, end_point₁]

/-- Model of `genericInput::draw(painter, GLscale, viewX, viewY, width, height, image, style)`:
the painter afterwards. -/
def draw {C Col : Type} (S : Scene) (K : Canvas C Col) (painter : QPainter Col)
    (GLscale viewX viewY : ℚ) (width height : Int) (style : drawStyle) (g : genericInput C) :
    QPainter Col :=
  let scale : ℚ := if GLscale / 200 < 2 / 5 then 2 / 5 else GLscale / 200
  let T := K.transformPoint GLscale viewX viewY width height
  if g.curves.length > 0 then
    let colour := K.colourOf g
    let oldPen := painter.pen
    match style with
    | .spikeSourceDrawStyle | .microcircuitDrawStyle =>
      let ends := spikeEnds S g (spikeStart S g)
      let pen2 : QPen Col :=
        { painter.pen with widthF := (painter.pen.widthF + 1) * GLscale / 100, color := colour }
      let painter₁ := painter.setPen pen2
      let path := PathElement.moveTo (T ends.1) :: cubicPath T ends.2 g.curves
      let endPoint := [PathElement.polygon (arrowHead S K path GLscale)]
      let painter₂ := painter₁.fillPath endPoint colour
      let painter₃ := painter₂.drawPath path
      painter₃.setPen oldPen
    | .layersDrawStyle => painter
    | .standardDrawStyle | .standardDrawStyleExcitatory | .saveNetworkImageDrawStyle =>
      let start := g.start
      let endP := backEnd g.curves
      let dpi_ratio : ℚ := if style = .saveNetworkImageDrawStyle then 1 else K.dpi
      let width₁ : ℚ := scale * painter.pen.widthF * dpi_ratio
      let width₂ : ℚ := if style = .saveNetworkImageDrawStyle then width₁ * 2 else width₁
      let linePen : QPen Col := { painter.pen with widthF := width₂, color := colour }
      let painter₁ := painter.setPen linePen
      let path := PathElement.moveTo (T start) :: cubicPath T endP g.curves
      let painter₂ := painter₁.drawPath path
      let endPoint :=
        [PathElement.ellipse (T (backEnd g.curves)) (3 / 200 * dpi_ratio * GLscale)
          (3 / 200 * dpi_ratio * GLscale)]
      let painter₃ := painter₂.drawPath endPoint
      let painter₄ := painter₃.fillPath endPoint K.green2
      painter₄.setPen oldPen
  else painter

/-- The point at which the path drawn last starts: the point of the `moveTo`
at the head of the last path among the operations that begins with one. -/
def drawnPathStart {Col : Type} : List (PaintOp Col) → Option QPointF
  | [] => none
  | op :: rest =>
    match drawnPathStart rest with
    | some p => some p
    | none =>
      match op with
      | .drawPath (.moveTo p :: _) _ => some p
      | _ => none

/-! ## The connection-list invariant -/

/-- The connection-list invariant of the input at address `g`: it occurs at
most once in `inputs`, at most once in `outputs`, and in one of them exactly
when in the other. -/
def connInvariant {P : Type} (g : Nat) (s : ConnState P) : Prop :=
  s.inputs.count g ≤ 1 ∧ s.outputs.count g ≤ 1 ∧ (g ∈ s.inputs ↔ g ∈ s.outputs)

instance {P : Type} (g : Nat) (s : ConnState P) : Decidable (connInvariant g s) := by
  unfold connInvariant
  infer_instance

/-- The states of the two lists that the input at address `g` can bring about:
it starts constructed and unconnected, in neither list, and from then on
`g.connect(p)` with `p` pointing to `g` and `g.disconnect()` are called in any
order. -/
inductive Reachable {P : Type} (matchPorts : List Nat → P → P) (g : Nat) :
    ConnState P → Prop where
  | constructed (s : ConnState P) : g ∉ s.inputs → g ∉ s.outputs → Reachable matchPorts g s
  | connect (s : ConnState P) :
      Reachable matchPorts g s → Reachable matchPorts g (connect matchPorts g g s)
  | disconnect (s : ConnState P) :
      Reachable matchPorts g s → Reachable matchPorts g (disconnect g s)

/-- Whether the address `this` stands at two neighbouring places of a list. -/
def twiceInARow (this : Nat) : List Nat → Bool
  | [] => false
  | [_] => false
  | x :: y :: rest =>
    (decide (x = this) && decide (y = this)) || twiceInARow this (y :: rest)

/-! ## Occurrences of a tag in a text -/

/-- A stretch of a text in which angle brackets are paired: text without angle
brackets, or a tag, an opening bracket, a body and a closing bracket. -/
inductive Piece where
  | text (chars : List Char)
  | tag (body : List Char)
deriving DecidableEq, Repr

/-- The characters of a stretch. -/
def Piece.render : Piece → List Char
  | .text cs => cs
  | .tag body => '<' :: (body ++ ['>'])

/-- The text or body of a stretch. -/
def Piece.chars : Piece → List Char
  | .text cs => cs
  | .tag body => body

/-- The text made up of a list of stretches. -/
def renderAll : List Piece → List Char
  | [] => []
  | p :: ps => p.render ++ renderAll ps

/-- No angle bracket occurs in the text of a text stretch or in the body of a
tag. -/
def Piece.plain (p : Piece) : Prop :=
  '<' ∉ p.chars ∧ '>' ∉ p.chars

instance (p : Piece) : Decidable p.plain := by
  unfold Piece.plain
  infer_instance

/-- A stretch with the newline characters taken out of its text or body. -/
def Piece.withoutNewlines : Piece → Piece
  | .text cs => .text (cs.filter (fun x => !decide (x = '\n')))
  | .tag body => .tag (body.filter (fun x => !decide (x = '\n')))

/-- An environment for closed examples: the numbers 0 to 3 are written as one
digit and read back, the component and the object at address 1 are called
`popA` and all others `popB`, except that the component at address 3 has the
empty XML name; two one-element texts are tokenised, and the connection
carries no data. -/
def sampleEnv : Env Unit :=
  { toFloat := fun s => if s = "1" then 1 else if s = "2" then 2 else if s = "3" then 3 else 0
    number := fun q => if q = 1 then "1" else if q = 2 then "2" else if q = 3 then "3" else "0"
    getXMLName := fun a => if a = 1 then "popA" else if a = 3 then "" else "popB"
    getName := fun a => if a = 1 then "popA" else "popB"
    xmlTokens := fun s =>
      if s = "<SpineCreator/>" then [.startElement "SpineCreator" [], .endElement]
      else if s = "<note/>" then [.startElement "note" [], .endElement]
      else []
    save := fun _ => ""
    connMetadata := fun _ => []
    csvGenerator := fun _ _ c => c
    connIsCSV := fun _ => false
    legacyGenerator := fun _ _ _ c => c
    connNewFromExisting := fun c _ => c
    alltoAll := () }

/-- An input from the object at address 1 to the object at address 2 with one
curve. -/
def sampleInput (projInput : Bool) : genericInput Unit :=
  { start := ⟨1, 1⟩, curves := [{ C1 := ⟨1, 2⟩, C2 := ⟨2, 1⟩, end_ := ⟨2, 2⟩ }],
    isVisualised := false, projInput := projInput,
    source := 1, destination := 2, srcCmpt := 1, dstCmpt := 2,
    srcPort := "out", dstPort := "in", annotation := "", conn := (),
    srcPos := -1, dstPos := -1, selectedControlPoint := {} }

/-- A self-connection of the object at address 1 with two curves. -/
def sampleSelfInput : genericInput Unit :=
  { start := ⟨1, 1⟩,
    curves := [{ C1 := ⟨1, 2⟩, C2 := ⟨2, 1⟩, end_ := ⟨2, 2⟩ },
               { C1 := ⟨2, 3⟩, C2 := ⟨3, 2⟩, end_ := ⟨1, 3⟩ }],
    isVisualised := false, projInput := false,
    source := 1, destination := 1, srcCmpt := 1, dstCmpt := 1,
    srcPort := "out", dstPort := "in", annotation := "", conn := (),
    srcPos := -1, dstPos := -1, selectedControlPoint := {} }

/-- The self-connection `sampleSelfInput` far out: the x coordinate of its
start point is `2 ^ 53`. -/
def sampleFarSelfInput : genericInput Unit :=
  { sampleSelfInput with start := ⟨9007199254740992, 0⟩ }

/-- The geometry children of a metadata node: a start point and one curve. -/
def sampleGeometry : List QDomNode :=
  [ .element "start" [("x", "1"), ("y", "2")] [],
    .element "curves" []
      [ .element "curve" []
          [ .element "C1" [("xpos", "1"), ("ypos", "3")] [],
            .element "C2" [("xpos", "2"), ("ypos", "3")] [],
            .element "end" [("xpos", "3"), ("ypos", "3")] [] ] ] ]

/-- An old-format metadata node for `sampleInput`. -/
def sampleLegacyNode : QDomNode :=
  .element "genericInput"
    [("source", "popA"), ("destination", "popB"), ("srcPort", "out"), ("dstPort", "in")]
    (sampleGeometry ++ [.element "connection" [] []])

/-- An old-format metadata node for another input. -/
def sampleOtherNode : QDomNode :=
  .element "genericInput"
    [("source", "popB"), ("destination", "popB"), ("srcPort", "out"), ("dstPort", "in")]
    [.element "start" [("x", "3"), ("y", "3")] []]

/-- The environment `sampleEnv` with connections of type `CSV`. -/
def sampleCsvEnv : Env Unit :=
  { sampleEnv with connIsCSV := fun _ => true }

/-- An old-format metadata node for `sampleInput` that carries the data of a
connection generator. -/
def sampleGeneratorNode : QDomNode :=
  .element "genericInput"
    [("source", "popA"), ("destination", "popB"), ("srcPort", "out"), ("dstPort", "in")]
    (sampleGeometry ++ [.element "connection" [] [.element "script" [] []]])

/-- A new-format annotation with one `SpineCreator` element. -/
def sampleAnnotationNode : QDomNode :=
  .element "LL:Annotation" [] [.text "note", .element "SpineCreator" [] sampleGeometry]

/-- An input whose source component, at address 3, has the empty XML name. -/
def sampleUnnamedInput : genericInput Unit :=
  { start := ⟨0, 0⟩, curves := [], isVisualised := false, projInput := false,
    source := 3, destination := 2, srcCmpt := 3, dstCmpt := 2,
    srcPort := "out", dstPort := "in", annotation := "", conn := (),
    srcPos := -1, dstPos := -1, selectedControlPoint := {} }

/-- An old-format document with the metadata node of `sampleUnnamedInput`. -/
def sampleUnnamedDocument : QDomNode :=
  .element "inputs" []
    [ .element "genericInput"
        [("source", ""), ("destination", "popB"), ("srcPort", "out"), ("dstPort", "in")]
        sampleGeometry ]

/-- An input that preserves the annotation `<note/>`, stored with its wrapper. -/
def sampleAnnotatedInput : genericInput Unit :=
  { sampleInput false with annotation := "<LL:Annotation><note/></LL:Annotation>" }

/-- An input whose preserved annotation is itself a `SpineCreator` element. -/
def sampleDoubleInput : genericInput Unit :=
  { sampleInput false with annotation := "<SpineCreator/>" }

/-- A scene for closed examples. The objects at addresses 1 and 2 are
populations centred at `(1,1)` and `(3,1)`, those at addresses 4 and 5 are
projections; the projection at 5 ends in the population at 2 and has one
curve, the projection at 4 has no destination and no curve. A component has
the address of its owner. The operations on lines are exact for horizontal and
vertical lines and leave other lines as they are; `findBoxEdge` is replaced by
the point a quarter of the way from the centre to the target. -/
def sampleScene : Scene :=
  { type := fun a =>
      if a = 1 ∨ a = 2 then .populationObject
      else if a = 4 ∨ a = 5 then .projectionObject
      else .inputObject
    currentLocation := fun a =>
      if a = 1 then ⟨1, 1⟩ else if a = 2 then ⟨3, 1⟩ else if a = 5 then ⟨2, 2⟩ else ⟨0, 0⟩
    centre := fun a =>
      if a = 1 then ⟨1, 1⟩ else if a = 2 then ⟨3, 1⟩ else if a = 5 then ⟨2, 2⟩ else ⟨0, 0⟩
    projDestination := fun a => if a = 5 then 2 else 0
    projCurves := fun a =>
      if a = 5 then [{ C1 := ⟨1, 2⟩, C2 := ⟨3, 2⟩, end_ := ⟨3, 1⟩ }] else []
    owner := fun a => a
    findBoxEdge := fun a x y =>
      let c : QPointF :=
        if a = 1 then ⟨1, 1⟩ else if a = 2 then ⟨3, 1⟩ else ⟨0, 0⟩
      ⟨c.x + (x - c.x) / 4, c.y + (y - c.y) / 4⟩
    unitVector := fun l =>
      if l.p1.y = l.p2.y then
        if l.p1.x < l.p2.x then ⟨l.p1, ⟨l.p1.x + 1, l.p1.y⟩⟩
        else if l.p2.x < l.p1.x then ⟨l.p1, ⟨l.p1.x - 1, l.p1.y⟩⟩
        else l
      else if l.p1.x = l.p2.x then
        if l.p1.y < l.p2.y then ⟨l.p1, ⟨l.p1.x, l.p1.y + 1⟩⟩
        else ⟨l.p1, ⟨l.p1.x, l.p1.y - 1⟩⟩
      else l
    setLength := fun l len =>
      if l.p1.y = l.p2.y then
        if l.p1.x < l.p2.x then ⟨l.p1, ⟨l.p1.x + len, l.p1.y⟩⟩
        else if l.p2.x < l.p1.x then ⟨l.p1, ⟨l.p1.x - len, l.p1.y⟩⟩
        else l
      else if l.p1.x = l.p2.x then
        if l.p1.y < l.p2.y then ⟨l.p1, ⟨l.p1.x, l.p1.y + len⟩⟩
        else ⟨l.p1, ⟨l.p1.x, l.p1.y - len⟩⟩
      else l
    length := fun l => |l.p2.x - l.p1.x| + |l.p2.y - l.p1.y|
    angle := fun l =>
      if l.p1.y = l.p2.y then (if l.p2.x < l.p1.x then 180 else 0)
      else if l.p1.y < l.p2.y then 270 else 90
    setAngle := fun l _ => l
    normalVector := fun l =>
      ⟨l.p1, ⟨l.p1.x + (l.p2.y - l.p1.y), l.p1.y - (l.p2.x - l.p1.x)⟩⟩ }

/-- An input with two curves between two objects of `sampleScene`, with a
control point selected. -/
def sampleDragInput (source destination : Nat) (sel : controlPoint) : genericInput Unit :=
  { start := ⟨1, 1⟩,
    curves := [{ C1 := ⟨1, 2⟩, C2 := ⟨2, 3⟩, end_ := ⟨2, 2⟩ },
               { C1 := ⟨2, 1⟩, C2 := ⟨3, 2⟩, end_ := ⟨3, 1⟩ }],
    isVisualised := false, projInput := false,
    source := source, destination := destination, srcCmpt := source, dstCmpt := destination,
    srcPort := "out", dstPort := "in", annotation := "", conn := (),
    srcPos := -1, dstPos := -1, selectedControlPoint := sel }

/-- An input with two curves that join at `(0,0)`, the handle `C2` of the first
one unit to the right of the join and the handle `C1` of the second one unit
to the left, with the join selected. -/
def sampleJoinInput : genericInput Unit :=
  { sampleDragInput 1 2 { ind := 0, start := false, type := .p_end } with
    curves := [{ C1 := ⟨1, 2⟩, C2 := ⟨1, 0⟩, end_ := ⟨0, 0⟩ },
               { C1 := ⟨-1, 0⟩, C2 := ⟨3, 2⟩, end_ := ⟨3, 1⟩ }] }

/-- A new-format annotation whose only curve has a `C1` child and nothing
else, and which has no `start` element. -/
def samplePartialNode : QDomNode :=
  .element "LL:Annotation" []
    [ .element "SpineCreator" []
        [ .element "curves" []
            [ .element "curve" [] [ .element "C1" [("xpos", "1"), ("ypos", "2")] [] ] ] ] ]

/-- The scene `sampleScene` with one change: the object at address 2 is a
projection, which has no curve and no destination. -/
def sampleSceneProjection : Scene :=
  { sampleScene with
    type := fun a => if a = 2 then .projectionObject else sampleScene.type a }

/-- A canvas for closed examples: colours are numbers, a point is shifted by the
view offset and scaled by `GLscale`, and the end point of the last element
stands for every point along a path. -/
def sampleCanvas : Canvas Unit Nat :=
  { colourOf := fun _ => 1
    green2 := 2
    transformPoint := fun GLscale viewX viewY _ _ p =>
      ⟨GLscale * (p.x + viewX), GLscale * (p.y + viewY)⟩
    pointAtPercent := fun path _ =>
      match path.getLast? with
      | some (.cubicTo _ _ e) => e
      | some (.moveTo p) => p
      | _ => ⟨0, 0⟩
    dpi := 1 }

/-- A painter with a pen of width 1 that has drawn nothing yet. -/
def samplePainter : QPainter Nat :=
  { pen := { widthF := 1, color := 0, others := 0 }, ops := [] }

theorem alreadyThere_iff (this : Nat) (l : List Nat) :
    alreadyThere this l = true ↔ this ∈ l := by
  induction l with
  | nil => simp [alreadyThere]
  | cons x rest ih =>
    by_cases hx : x = this
    · simp [alreadyThere, hx]
    · have hx' : ¬ this = x := fun h => hx h.symm
      simp [alreadyThere, hx, hx', ih]

theorem alreadyThere_append_self (this : Nat) (l : List Nat) :
    alreadyThere this (l ++ [this]) = true := by
  rw [alreadyThere_iff]; simp

theorem eraseLoop_done (this : Nat) (fuel i : Nat) (v : List Nat) (pos : Int)
    (h : v.length ≤ i) : eraseLoop this fuel i v pos = (v, pos) := by
  cases fuel with
  | zero => rfl
  | succ f =>
    have h' : ¬ i < v.length := by omega
    simp [eraseLoop, h']

theorem eraseLoop_hit (this : Nat) (fuel : Nat) (pre suf : List Nat) (pos : Int) :
    eraseLoop this (fuel + 1) pre.length (pre ++ this :: suf) pos
      = eraseLoop this fuel (pre.length + 1) (pre ++ suf) (pre.length : Int) := by
  have hlt : pre.length < (pre ++ this :: suf).length := by simp
  have hget : (pre ++ this :: suf)[pre.length] = this := by
    rw [List.getElem_append_right (le_refl _)]; simp
  have herase : (pre ++ this :: suf).eraseIdx pre.length = pre ++ suf := by
    rw [List.eraseIdx_append_of_length_le (le_refl _)]; simp
  rw [eraseLoop, dif_pos hlt, if_pos hget, herase]

theorem eraseLoop_miss (this : Nat) (fuel : Nat) (pre suf : List Nat) (x : Nat) (pos : Int)
    (hx : x ≠ this) :
    eraseLoop this (fuel + 1) pre.length (pre ++ x :: suf) pos
      = eraseLoop this fuel (pre.length + 1) (pre ++ x :: suf) pos := by
  have hlt : pre.length < (pre ++ x :: suf).length := by simp
  have hget : ¬ (pre ++ x :: suf)[pre.length] = this := by
    rw [List.getElem_append_right (le_refl _)]; simpa using hx
  rw [eraseLoop, dif_pos hlt, if_neg hget]

/-- With fuel for every element still to visit, the loop returns the visited
prefix followed by `skipErase` of the rest. -/
theorem eraseLoop_fst (this : Nat) :
    ∀ (fuel : Nat) (pre suf : List Nat) (pos : Int), suf.length ≤ fuel →
      (eraseLoop this fuel pre.length (pre ++ suf) pos).1 = pre ++ skipErase this suf := by
  intro fuel
  induction fuel using Nat.strong_induction_on with
  | _ fuel ih =>
    intro pre suf pos hf
    match suf, hf with
    | [], _ =>
      rw [List.append_nil, eraseLoop_done this fuel _ _ _ (le_refl _)]
      simp [skipErase]
    | [x], hf =>
      obtain ⟨f, rfl⟩ : ∃ f, fuel = f + 1 := ⟨fuel - 1, by simp at hf; omega⟩
      by_cases hx : x = this
      · subst hx
        rw [eraseLoop_hit, eraseLoop_done _ _ _ _ _ (by simp)]
        simp [skipErase]
      · rw [eraseLoop_miss _ _ _ _ _ _ hx, eraseLoop_done _ _ _ _ _ (by simp)]
        simp [skipErase, hx]
    | x :: y :: rest, hf =>
      obtain ⟨f, rfl⟩ : ∃ f, fuel = f + 1 := ⟨fuel - 1, by simp at hf; omega⟩
      by_cases hx : x = this
      · subst hx
        have h2 := ih f (Nat.lt_succ_self _) (pre ++ [y]) rest (pre.length : Int)
          (by simp at hf; omega)
        simp only [List.length_append, List.length_singleton, List.append_assoc,
          List.singleton_append] at h2
        rw [eraseLoop_hit, h2]
        simp [skipErase]
      · have h2 := ih f (Nat.lt_succ_self _) (pre ++ [x]) (y :: rest) pos
          (by simp at hf ⊢; omega)
        simp only [List.length_append, List.length_singleton, List.append_assoc,
          List.singleton_append] at h2
        rw [eraseLoop_miss _ _ _ _ _ _ hx, h2]
        simp [skipErase, hx]

/-- More fuel than elements to visit does not change the result of the loop. -/
theorem eraseLoop_fuel (this : Nat) :
    ∀ (fuel : Nat) (pre suf : List Nat) (pos : Int) (k : Nat), suf.length ≤ fuel →
      eraseLoop this (fuel + k) pre.length (pre ++ suf) pos
        = eraseLoop this fuel pre.length (pre ++ suf) pos := by
  intro fuel
  induction fuel using Nat.strong_induction_on with
  | _ fuel ih =>
    intro pre suf pos k hf
    match suf, hf with
    | [], _ =>
      rw [List.append_nil, eraseLoop_done this fuel _ _ _ (le_refl _),
        eraseLoop_done this _ _ _ _ (le_refl _)]
    | x :: rest, hf =>
      obtain ⟨f, rfl⟩ : ∃ f, fuel = f + 1 := ⟨fuel - 1, by simp at hf; omega⟩
      have hk : f + 1 + k = (f + k) + 1 := by omega
      rw [hk]
      by_cases hx : x = this
      · subst hx
        rw [eraseLoop_hit, eraseLoop_hit]
        match rest, hf with
        | [], _ =>
          rw [List.append_nil, eraseLoop_done _ _ _ _ _ (by simp),
            eraseLoop_done _ _ _ _ _ (by simp)]
        | y :: rest', hf =>
          obtain ⟨f', rfl⟩ : ∃ f', f = f' + 1 := ⟨f - 1, by simp at hf; omega⟩
          have h2 := ih f' (by omega) (pre ++ [y]) rest' (pre.length : Int) (k + 1)
            (by simp at hf; omega)
          have h3 := ih f' (by omega) (pre ++ [y]) rest' (pre.length : Int) 1
            (by simp at hf; omega)
          simp only [List.length_append, List.length_singleton, List.append_assoc,
            List.singleton_append] at h2 h3
          have hk' : f' + 1 + k = f' + (k + 1) := by omega
          rw [hk', h2, h3]
      · rw [eraseLoop_miss _ _ _ _ _ _ hx, eraseLoop_miss _ _ _ _ _ _ hx]
        have h2 := ih f (Nat.lt_succ_self _) (pre ++ [x]) rest pos k (by simp at hf; omega)
        simp only [List.length_append, List.length_singleton, List.append_assoc,
          List.singleton_append] at h2
        exact h2

/-- The loop keeps every element that is not `this`, in its original order. -/
theorem skipErase_filter (this : Nat) :
    ∀ (n : Nat) (l : List Nat), l.length ≤ n →
      (skipErase this l).filter (fun x => !decide (x = this))
        = l.filter (fun x => !decide (x = this))
  | _, [], _ => by simp [skipErase]
  | _, [x], _ => by
    by_cases hx : x = this <;> simp [skipErase, hx]
  | 0, _ :: _ :: _, h => by simp at h
  | n + 1, x :: y :: rest, h => by
    by_cases hx : x = this
    · have ih := skipErase_filter this n rest (by simp at h; omega)
      subst hx
      simp [skipErase, List.filter_cons, ih]
    · have ih := skipErase_filter this n (y :: rest) (by simp at h ⊢; omega)
      simp only [skipErase, hx, if_false, List.filter_cons, ih]

/-- A single occurrence of `this` is removed by the loop. -/
theorem skipErase_of_not_mem (this : Nat) :
    ∀ (l : List Nat), this ∉ l → skipErase this l = l
  | [], _ => by simp [skipErase]
  | [x], h => by
    have hx : ¬ x = this := fun e => h (by simp [e])
    simp [skipErase, hx]
  | x :: y :: rest, h => by
    have hx : ¬ x = this := fun e => h (by simp [e])
    have ih := skipErase_of_not_mem this (y :: rest) (fun hm => h (List.mem_cons_of_mem _ hm))
    simp [skipErase, hx, ih]

/-- The first loop of `disconnect` on a list that ends in its only occurrence of
`this`: the occurrence is erased and its index recorded. -/
theorem eraseLoop_append_self (this : Nat) :
    ∀ (suf pre : List Nat) (fuel : Nat) (pos : Int), this ∉ suf → suf.length + 1 ≤ fuel →
      eraseLoop this fuel pre.length (pre ++ (suf ++ [this])) pos
        = (pre ++ suf, ((pre ++ suf).length : Int))
  | [], pre, fuel, pos, _, hf => by
    obtain ⟨f, rfl⟩ : ∃ f, fuel = f + 1 := ⟨fuel - 1, by simp at hf; omega⟩
    rw [List.nil_append, eraseLoop_hit, eraseLoop_done _ _ _ _ _ (by simp)]
    simp
  | x :: suf, pre, fuel, pos, hm, hf => by
    obtain ⟨f, rfl⟩ : ∃ f, fuel = f + 1 := ⟨fuel - 1, by simp at hf; omega⟩
    have hx : x ≠ this := fun e => hm (by simp [e])
    have hm' : this ∉ suf := fun h => hm (List.mem_cons_of_mem _ h)
    have ih := eraseLoop_append_self this suf (pre ++ [x]) f pos hm' (by simp at hf; omega)
    simp only [List.length_append, List.length_singleton, List.append_assoc,
      List.singleton_append] at ih
    rw [List.cons_append, eraseLoop_miss _ _ _ _ _ _ hx, ih]
    simp

/-- The lists after `disconnect`, in terms of `skipErase`. -/
theorem disconnect_lists {P : Type} (this : Nat) (s : ConnState P) :
    (disconnect this s).inputs = skipErase this s.inputs
    ∧ (disconnect this s).outputs = skipErase this s.outputs := by
  have h1 := eraseLoop_fst this s.inputs.length [] s.inputs s.dstPos (le_refl _)
  have h2 := eraseLoop_fst this s.outputs.length [] s.outputs s.srcPos (le_refl _)
  simp only [List.nil_append, List.length_nil] at h1 h2
  exact ⟨h1, h2⟩

/-- An element that occurs at most once is gone after the loop. -/
theorem skipErase_not_mem (this : Nat) :
    ∀ (l : List Nat), l.count this ≤ 1 → this ∉ skipErase this l
  | [], _ => by simp [skipErase]
  | [x], _ => by
    by_cases hx : x = this
    · simp [skipErase, hx]
    · have hx' : ¬ this = x := fun e => hx e.symm
      simp [skipErase, hx, hx']
  | x :: y :: rest, h => by
    by_cases hx : x = this
    · subst hx
      have hc : (y :: rest).count x = 0 := by
        simp only [List.count_cons_self] at h
        omega
      have hnm : x ∉ y :: rest := List.count_eq_zero.mp hc
      have hy : ¬ x = y := fun e => hnm (by simp [e])
      have hr : x ∉ rest := fun hm => hnm (List.mem_cons_of_mem _ hm)
      simp [skipErase, hy, skipErase_of_not_mem x rest hr, hr]
    · have hx' : ¬ this = x := fun e => hx e.symm
      have hc : (y :: rest).count this ≤ 1 := by
        have e : (x :: y :: rest).count this = (y :: rest).count this := by
          simp [List.count_cons, hx]
        omega
      have ih := skipErase_not_mem this (y :: rest) hc
      simp only [skipErase, hx, if_false, List.mem_cons, not_or]
      exact ⟨hx', by simpa using ih⟩

/-! ## Theorems on connect and disconnect -/

/-- C1: `connect` is idempotent.  Whatever the two lists hold, a second call
`g.connect(p)` with `p` pointing to `g` returns the state reached by the first
call, so `g` occurs in neither list more often than after the first call. -/
theorem connect_idempotent {P : Type} (matchPorts : List Nat → P → P) (g : Nat)
    (s : ConnState P) :
    connect matchPorts g g (connect matchPorts g g s) = connect matchPorts g g s
    ∧ (connect matchPorts g g (connect matchPorts g g s)).inputs.count g
        = (connect matchPorts g g s).inputs.count g
    ∧ (connect matchPorts g g (connect matchPorts g g s)).outputs.count g
        = (connect matchPorts g g s).outputs.count g := by
  have key : connect matchPorts g g (connect matchPorts g g s) = connect matchPorts g g s := by
    by_cases h1 : alreadyThere g s.inputs = true
    · simp [connect, h1]
    · by_cases h2 : alreadyThere g s.outputs = true
      · simp [connect, h1, h2]
      · simp [connect, h1, h2, alreadyThere_append_self]
  exact ⟨key, by rw [key], by rw [key]⟩

/-- C2: `disconnect` undoes `connect`.  When `g` is in neither list,
`g.connect(p)` appends `g` to both, and a following `g.disconnect()` gives back
the original lists and records the original lengths in `dstPos` and `srcPos`. -/
theorem disconnect_undoes_connect {P : Type} (matchPorts : List Nat → P → P) (g : Nat)
    (s : ConnState P) (hi : g ∉ s.inputs) (ho : g ∉ s.outputs) :
    (connect matchPorts g g s).inputs = s.inputs ++ [g]
    ∧ (connect matchPorts g g s).outputs = s.outputs ++ [g]
    ∧ (disconnect g (connect matchPorts g g s)).inputs = s.inputs
    ∧ (disconnect g (connect matchPorts g g s)).outputs = s.outputs
    ∧ (disconnect g (connect matchPorts g g s)).dstPos = (s.inputs.length : Int)
    ∧ (disconnect g (connect matchPorts g g s)).srcPos = (s.outputs.length : Int) := by
  have h1 : ¬ alreadyThere g s.inputs = true := by rw [alreadyThere_iff]; exact hi
  have h2 : ¬ alreadyThere g s.outputs = true := by rw [alreadyThere_iff]; exact ho
  have hc : connect matchPorts g g s
      = { s with inputs := s.inputs ++ [g], outputs := s.outputs ++ [g],
                 ports := matchPorts (s.inputs ++ [g]) s.ports } := by
    simp [connect, h1, h2]
  have e1 := eraseLoop_append_self g s.inputs [] (s.inputs ++ [g]).length s.dstPos hi (by simp)
  have e2 := eraseLoop_append_self g s.outputs [] (s.outputs ++ [g]).length s.srcPos ho (by simp)
  simp only [List.nil_append, List.length_nil, List.length_append, List.length_singleton]
    at e1 e2
  rw [hc]
  simp [disconnect, e1, e2]

theorem disconnect_undoes_connect_witness :
    (2 : Nat) ∉ (ConnState.mk [5, 3] [4] (-1) (-1) ()).inputs
    ∧ (disconnect 2 (connect (fun _ p => p) 2 2 (ConnState.mk [5, 3] [4] (-1) (-1) ()))).inputs
        = [5, 3]
    ∧ (disconnect 2 (connect (fun _ p => p) 2 2 (ConnState.mk [5, 3] [4] (-1) (-1) ()))).dstPos
        = 2 :=
  have h := disconnect_undoes_connect (fun _ p => p) 2 (ConnState.mk [5, 3] [4] (-1) (-1) ())
    (by decide) (by decide)
  ⟨by decide, h.2.2.1, h.2.2.2.2.1⟩

/-- C3: evaluation of `disconnect` followed by `connect` where `g` (address 7) is
the first of two inputs: `g` comes back as the last element, not at the
position recorded in `dstPos`, so the order of the list is not restored. -/
theorem connect_after_disconnect_appends :
    (disconnect 7 (ConnState.mk [7, 9] [7] (-1) (-1) ())).dstPos = 0
    ∧ (connect (fun _ p => p) 7 7 (disconnect 7 (ConnState.mk [7, 9] [7] (-1) (-1) ()))).inputs
        = [9, 7]
    ∧ (connect (fun _ p => p) 7 7 (disconnect 7 (ConnState.mk [7, 9] [7] (-1) (-1) ()))).inputs
        ≠ (ConnState.mk [7, 9] [7] (-1) (-1) ()).inputs := by
  decide

/-- C4 as stated fails where `g` (address 5) occurs twice in a row in `inputs`:
the occurrence that moves into the erased slot is stepped over and stays in
the list, after `disconnect` and after `delAll` alike. -/
theorem disconnect_leaves_adjacent_duplicate :
    (disconnect 5 (ConnState.mk [5, 5, 8] [5] (-1) (-1) ())).inputs = [5, 8]
    ∧ 5 ∈ (disconnect 5 (ConnState.mk [5, 5, 8] [5] (-1) (-1) ())).inputs
    ∧ (delAll 5 (ConnState.mk [5, 5, 8] [5] (-1) (-1) ())).inputs = [5, 8] := by
  decide

/-! ## Projection-specific inputs -/

/-- C8: an input with `projInput` set takes no part in metadata persistence.
`write_model_meta_xml` writes no token and returns the input as it was, stored
annotation included; both readers return the input (start, curves, annotation,
connection) and the DOM they were given unchanged. -/
theorem projInput_skips_metadata {C : Type} (E : Env C) (g : genericInput C)
    (h : g.projInput = true) :
    write_model_meta_xml E g = (g, [])
    ∧ (∀ (domMeta : QDomNode) (cursorPos : cursorType),
        read_meta_data E domMeta cursorPos g = (g, domMeta))
    ∧ (∀ (S : Scene) (doc : QDomNode) (cursorPos : cursorType),
        read_meta_data_legacy S E doc cursorPos g = .done (g, doc)) := by
  refine ⟨?_, ?_, ?_⟩
  · simp [write_model_meta_xml, h]
  · intro domMeta cursorPos
    simp [read_meta_data, h]
  · intro S doc cursorPos
    simp [read_meta_data_legacy, h]

theorem projInput_skips_metadata_witness :
    (sampleInput true).projInput = true
    ∧ write_model_meta_xml sampleEnv (sampleInput true) = (sampleInput true, [])
    ∧ read_meta_data sampleEnv (.element "LL:Annotation" [] [.element "SpineCreator" [] []])
        ⟨0, 0⟩ (sampleInput true)
        = (sampleInput true, .element "LL:Annotation" [] [.element "SpineCreator" [] []]) :=
  ⟨rfl, (projInput_skips_metadata sampleEnv (sampleInput true) rfl).1,
    (projInput_skips_metadata sampleEnv (sampleInput true) rfl).2.1 _ _⟩

/-! ## Copying -/

/-- What `newFromExisting` does copy: the new object has the geometry, the
flags, the end points, the components and the ports of the original, and the
map sends the address of the original to the address of the copy, other keys
as before. -/
theorem newFromExisting_copies {C : Type} (E : Env C) (this newAddr : Nat) (b : Bool)
    (objectMap : Nat → Option Nat) (g : genericInput C) :
    let r := newFromExisting E this newAddr b objectMap g
    r.1.start = g.start ∧ r.1.curves = g.curves ∧ r.1.isVisualised = g.isVisualised
    ∧ r.1.projInput = g.projInput ∧ r.1.source = g.source ∧ r.1.destination = g.destination
    ∧ r.1.srcCmpt = g.srcCmpt ∧ r.1.dstCmpt = g.dstCmpt
    ∧ r.1.srcPort = g.srcPort ∧ r.1.dstPort = g.dstPort
    ∧ r.2 this = some newAddr ∧ ∀ k, k ≠ this → r.2 k = objectMap k := by
  refine ⟨rfl, rfl, rfl, rfl, rfl, rfl, rfl, rfl, rfl, rfl, ?_, ?_⟩
  · simp [newFromExisting]
  · intro k hk
    simp [newFromExisting, hk]

/-- C9: evaluation of `newFromExisting` on an input whose stored annotation is
`<note/>`: the stored annotation of the copy is empty, whatever the
environment, so the copy differs from the original in it. -/
theorem newFromExisting_drops_annotation {C : Type} (E : Env C) (c : C) (b : Bool) :
    genericInput.annotation
        (newFromExisting E 10 11 b (fun _ => none)
          ({ start := ⟨1, 1⟩, curves := [], isVisualised := false, projInput := false,
             source := 1, destination := 2, srcCmpt := 1, dstCmpt := 2,
             srcPort := "out", dstPort := "in", annotation := "<note/>", conn := c,
             srcPos := -1, dstPos := -1, selectedControlPoint := {} } : genericInput C)).1
      = ""
    ∧ genericInput.annotation
        (newFromExisting E 10 11 b (fun _ => none)
          ({ start := ⟨1, 1⟩, curves := [], isVisualised := false, projInput := false,
             source := 1, destination := 2, srcCmpt := 1, dstCmpt := 2,
             srcPort := "out", dstPort := "in", annotation := "<note/>", conn := c,
             srcPos := -1, dstPos := -1, selectedControlPoint := {} } : genericInput C)).1
      ≠ "<note/>" := by
  refine ⟨rfl, ?_⟩
  show ("" : String) ≠ "<note/>"
  decide

/-! ## Moving an edge with its end points -/

theorem QPointF.ext_iff' (p q : QPointF) : p = q ↔ p.x = q.x ∧ p.y = q.y := by
  cases p; cases q; simp

theorem QPointF.add_half_half (p d : QPointF) : p + d / (2 : ℚ) + d / (2 : ℚ) = p + d := by
  rw [QPointF.ext_iff']
  constructor
  · show p.x + d.x / 2 + d.x / 2 = p.x + d.x
    ring
  · show p.y + d.y / 2 + d.y / 2 = p.y + d.y
    ring

theorem modifyFront_length (f : bezierCurve → bezierCurve) (l : List bezierCurve) :
    (modifyFront f l).length = l.length := by
  cases l <;> rfl

theorem modifyBack_length (f : bezierCurve → bezierCurve) :
    ∀ l : List bezierCurve, (modifyBack f l).length = l.length
  | [] => rfl
  | [_] => rfl
  | c :: d :: rest => by
    have ih := modifyBack_length f (d :: rest)
    simp only [modifyBack, List.length_cons] at ih ⊢
    omega

theorem modifyFront_getElem? (f : bezierCurve → bezierCurve) (l : List bezierCurve) (i : Nat) :
    (modifyFront f l)[i]? = if i = 0 then l[i]?.map f else l[i]? := by
  cases l with
  | nil => simp [modifyFront]
  | cons c rest =>
    cases i with
    | zero => simp [modifyFront]
    | succ j => simp [modifyFront]

theorem modifyBack_getElem? (f : bezierCurve → bezierCurve) :
    ∀ (l : List bezierCurve) (i : Nat),
      (modifyBack f l)[i]? = if i + 1 = l.length then l[i]?.map f else l[i]?
  | [], i => by simp [modifyBack]
  | [c], i => by
    cases i with
    | zero => simp [modifyBack]
    | succ j => simp [modifyBack]
  | c :: d :: rest, i => by
    cases i with
    | zero => simp [modifyBack]
    | succ j =>
      have ih := modifyBack_getElem? f (d :: rest) j
      simp only [modifyBack, List.getElem?_cons_succ, List.length_cons] at ih ⊢
      rw [ih]
      simp

/-- One call of `animate` on a self-connection with the object itself as the
moving object: both ends move by half of `delta`. -/
theorem animate_self {C : Type} (E : Env C) (g : genericInput C) (o : Nat) (delta : QPointF)
    (hc : g.curves ≠ []) (hs : g.source = o) (hd : g.destination = o) (ho : o ≠ 0) :
    animate E o delta g =
      { g with
        start := g.start + delta / (2 : ℚ),
        curves :=
          modifyBack (fun c => { c with C2 := c.C2 + delta / (2 : ℚ) })
            (modifyBack (fun c => { c with end_ := c.end_ + delta / (2 : ℚ) })
              (modifyFront (fun c => { c with C1 := c.C1 + delta / (2 : ℚ) }) g.curves)) } := by
  have hlen : g.curves.length > 0 := List.length_pos.mpr hc
  simp [animate, hlen, hs, hd, ho]

/-! ### Rounding -/

/-- The rounding to `double` in terms of the power of two below the magnitude
of the number. -/
theorem roundDouble_of_binade (q : ℚ) (e : ℤ) (he : -1022 ≤ e) (h1 : (2 : ℚ) ^ e ≤ |q|)
    (h2 : |q| < (2 : ℚ) ^ (e + 1)) :
    roundDouble q = roundHalfEven (q / 2 ^ (e - 52)) * 2 ^ (e - 52) := by
  have hpos : 0 < |q| := lt_of_lt_of_le (by positivity) h1
  have hlog : Int.log 2 |q| = e := by
    apply le_antisymm
    · have := (Int.lt_zpow_iff_log_lt (by norm_num : 1 < 2) hpos).mp (by exact_mod_cast h2)
      omega
    · exact (Int.zpow_le_iff_le_log (by norm_num : 1 < 2) hpos).mp (by exact_mod_cast h1)
  unfold roundDouble
  simp only [hlog, max_eq_left he]

theorem roundHalfEven_of_lt_half (q : ℚ) (n : ℤ) (h : (n : ℚ) ≤ q) (h' : q - n < 1 / 2) :
    roundHalfEven q = n := by
  have hf : ⌊q⌋ = n := by
    rw [Int.floor_eq_iff]
    constructor
    · exact h
    · linarith
  simp only [roundHalfEven, hf, if_pos h']

theorem roundHalfEven_of_tie (q : ℚ) (n : ℤ) (h : q - n = 1 / 2) (hn : n % 2 = 0) :
    roundHalfEven q = n := by
  have hf : ⌊q⌋ = n := by
    rw [Int.floor_eq_iff]
    constructor <;> linarith
  have h1 : ¬ (q - n < 1 / 2) := by rw [h]; exact lt_irrefl _
  have h2 : ¬ (1 / 2 < q - n) := by rw [h]; exact lt_irrefl _
  simp only [roundHalfEven, hf, if_neg h1, if_neg h2, if_pos hn]

theorem roundDouble_zero : roundDouble 0 = 0 := by
  have h : roundHalfEven 0 = 0 := roundHalfEven_of_lt_half 0 0 (by norm_num) (by norm_num)
  simp [roundDouble, h]

theorem roundDouble_one : roundDouble 1 = 1 := by
  rw [roundDouble_of_binade _ 0 (by norm_num) (by norm_num) (by norm_num),
    roundHalfEven_of_lt_half _ 4503599627370496 (by norm_num) (by norm_num)]
  norm_num

theorem roundDouble_neg_one : roundDouble (-1) = -1 := by
  rw [roundDouble_of_binade _ 0 (by norm_num) (by norm_num) (by norm_num),
    roundHalfEven_of_lt_half _ (-4503599627370496) (by norm_num) (by norm_num)]
  norm_num

theorem roundDouble_two : roundDouble 2 = 2 := by
  rw [roundDouble_of_binade _ 1 (by norm_num) (by norm_num) (by norm_num),
    roundHalfEven_of_lt_half _ 4503599627370496 (by norm_num) (by norm_num)]
  norm_num

theorem roundDouble_three : roundDouble 3 = 3 := by
  rw [roundDouble_of_binade _ 1 (by norm_num) (by norm_num) (by norm_num),
    roundHalfEven_of_lt_half _ 6755399441055744 (by norm_num) (by norm_num)]
  norm_num

theorem roundDouble_five : roundDouble 5 = 5 := by
  rw [roundDouble_of_binade _ 2 (by norm_num) (by norm_num) (by norm_num),
    roundHalfEven_of_lt_half _ 5629499534213120 (by norm_num) (by norm_num)]
  norm_num

/-- The number `2 ^ 53 + 1` lies half way between two doubles and is rounded
to the even one, `2 ^ 53`. -/
theorem roundDouble_tie : roundDouble 9007199254740993 = 9007199254740992 := by
  rw [roundDouble_of_binade _ 53 (by norm_num) (by norm_num [abs_of_pos])
      (by norm_num [abs_of_pos]),
    roundHalfEven_of_tie _ 4503599627370496 (by norm_num) (by norm_num)]
  norm_num

/-- The number `2 ^ 53 + 2` is a double. -/
theorem roundDouble_next : roundDouble 9007199254740994 = 9007199254740994 := by
  rw [roundDouble_of_binade _ 53 (by norm_num) (by norm_num [abs_of_pos])
      (by norm_num [abs_of_pos]),
    roundHalfEven_of_lt_half _ 4503599627370497 (by norm_num) (by norm_num)]
  norm_num

/-- Without rounding, `animateRounded` is `animate`. -/
theorem animateRounded_id {C : Type} (E : Env C) (o : Nat) (delta : QPointF)
    (g : genericInput C) : animateRounded id E o delta g = animate E o delta g := rfl

/-- One call of `animateRounded` on a self-connection with the object itself as
the moving object: both ends move by the rounded half of `delta`, by a rounded
addition. -/
theorem animateRounded_self {C : Type} (fl : ℚ → ℚ) (E : Env C) (g : genericInput C) (o : Nat)
    (delta : QPointF) (hc : g.curves ≠ []) (hs : g.source = o) (hd : g.destination = o)
    (ho : o ≠ 0) :
    animateRounded fl E o delta g =
      { g with
        start := QPointF.plus fl g.start (QPointF.over fl delta 2),
        curves :=
          modifyBack (fun c => { c with C2 := QPointF.plus fl c.C2 (QPointF.over fl delta 2) })
            (modifyBack
              (fun c => { c with end_ := QPointF.plus fl c.end_ (QPointF.over fl delta 2) })
              (modifyFront
                (fun c => { c with C1 := QPointF.plus fl c.C1 (QPointF.over fl delta 2) })
                g.curves)) } := by
  have hlen : g.curves.length > 0 := List.length_pos.mpr hc
  simp [animateRounded, hlen, hs, hd, ho]

/-- C10, amended: a self-connection is moved by half of `delta`, twice, in the
arithmetic of `qreal`. For an input with at least one curve whose source and
destination are the same object `o`, and whatever the rounding `fl` of the
arithmetic is: each of two successive calls `animate(o, delta)` replaces
`start`, the `C1` of the first curve and the `C2` and `end` of the last curve
by the rounded sum of the point and the rounded half of `delta`, and every
other control point keeps its value. Where the halving and the two additions
are exact for a point, as they are in exact arithmetic, the two calls together
move that point by `delta`. -/
theorem animate_self_connection {C : Type} (fl : ℚ → ℚ) (E : Env C) (g : genericInput C)
    (o : Nat) (delta : QPointF) (hc : g.curves ≠ []) (hs : g.source = o)
    (hd : g.destination = o) (ho : o ≠ 0) :
    (animateRounded fl E o delta g).start
        = QPointF.plus fl g.start (QPointF.over fl delta 2)
    ∧ (animateRounded fl E o delta (animateRounded fl E o delta g)).start
        = QPointF.plus fl (QPointF.plus fl g.start (QPointF.over fl delta 2))
            (QPointF.over fl delta 2)
    ∧ (animateRounded fl E o delta (animateRounded fl E o delta g)).curves.length
        = g.curves.length
    ∧ (∀ (i : Nat) (c : bezierCurve), g.curves[i]? = some c →
        (animateRounded fl E o delta g).curves[i]? = some
          { C1 := if i = 0 then QPointF.plus fl c.C1 (QPointF.over fl delta 2) else c.C1,
            C2 := if i + 1 = g.curves.length then
                QPointF.plus fl c.C2 (QPointF.over fl delta 2) else c.C2,
            end_ := if i + 1 = g.curves.length then
                QPointF.plus fl c.end_ (QPointF.over fl delta 2) else c.end_ }
        ∧ (animateRounded fl E o delta (animateRounded fl E o delta g)).curves[i]? = some
          { C1 := if i = 0 then
                QPointF.plus fl (QPointF.plus fl c.C1 (QPointF.over fl delta 2))
                  (QPointF.over fl delta 2)
              else c.C1,
            C2 := if i + 1 = g.curves.length then
                QPointF.plus fl (QPointF.plus fl c.C2 (QPointF.over fl delta 2))
                  (QPointF.over fl delta 2)
              else c.C2,
            end_ := if i + 1 = g.curves.length then
                QPointF.plus fl (QPointF.plus fl c.end_ (QPointF.over fl delta 2))
                  (QPointF.over fl delta 2)
              else c.end_ })
    ∧ (∀ p : QPointF, QPointF.over fl delta 2 = delta / (2 : ℚ) →
        QPointF.plus fl p (delta / (2 : ℚ)) = p + delta / (2 : ℚ) →
        QPointF.plus fl (p + delta / (2 : ℚ)) (delta / (2 : ℚ))
          = p + delta / (2 : ℚ) + delta / (2 : ℚ) →
        QPointF.plus fl (QPointF.plus fl p (QPointF.over fl delta 2)) (QPointF.over fl delta 2)
          = p + delta) := by
  have h1 := animateRounded_self fl E g o delta hc hs hd ho
  have hc' : (animateRounded fl E o delta g).curves ≠ [] := by
    rw [h1]
    intro h
    have := congrArg List.length h
    simp [modifyBack_length, modifyFront_length] at this
    exact hc this
  have hs' : (animateRounded fl E o delta g).source = o := by rw [h1]; exact hs
  have hd' : (animateRounded fl E o delta g).destination = o := by rw [h1]; exact hd
  have h2 := animateRounded_self fl E (animateRounded fl E o delta g) o delta hc' hs' hd' ho
  have hlen1 : (animateRounded fl E o delta g).curves.length = g.curves.length := by
    rw [h1]; simp [modifyBack_length, modifyFront_length]
  have hget1 : ∀ (i : Nat) (c : bezierCurve), g.curves[i]? = some c →
      (animateRounded fl E o delta g).curves[i]? = some
        { C1 := if i = 0 then QPointF.plus fl c.C1 (QPointF.over fl delta 2) else c.C1,
          C2 := if i + 1 = g.curves.length then
              QPointF.plus fl c.C2 (QPointF.over fl delta 2) else c.C2,
          end_ := if i + 1 = g.curves.length then
              QPointF.plus fl c.end_ (QPointF.over fl delta 2) else c.end_ } := by
    intro i c hi
    rw [h1]
    simp only [modifyBack_getElem?, modifyFront_getElem?, modifyBack_length,
      modifyFront_length, hi]
    split_ifs <;> simp_all
  refine ⟨by rw [h1], ?_, ?_, ?_, ?_⟩
  · rw [h2, h1]
  · rw [h2]
    simp [modifyBack_length, modifyFront_length, hlen1]
  · intro i c hi
    refine ⟨hget1 i c hi, ?_⟩
    rw [h2]
    simp only [modifyBack_getElem?, modifyFront_getElem?, modifyBack_length,
      modifyFront_length, hget1 i c hi, hlen1]
    split_ifs <;> simp_all
  · intro p e1 e2 e3
    rw [e1, e2, e3]
    exact QPointF.add_half_half p delta

theorem animate_self_connection_witness :
    sampleSelfInput.curves ≠ [] ∧ (1 : Nat) ≠ 0
    ∧ (animateRounded roundDouble sampleEnv 1 ⟨2, 2⟩ sampleSelfInput).start
        = QPointF.plus roundDouble sampleSelfInput.start (QPointF.over roundDouble ⟨2, 2⟩ 2)
    ∧ (animateRounded roundDouble sampleEnv 1 ⟨2, 2⟩
          (animateRounded roundDouble sampleEnv 1 ⟨2, 2⟩ sampleSelfInput)).start
        = sampleSelfInput.start + ⟨2, 2⟩ :=
  have h := animate_self_connection roundDouble sampleEnv sampleSelfInput 1 ⟨2, 2⟩
    (by simp [sampleSelfInput]) rfl rfl (by decide)
  have e1 : QPointF.over roundDouble ⟨2, 2⟩ 2 = (⟨2, 2⟩ : QPointF) / (2 : ℚ) := by
    rw [QPointF.ext_iff']
    constructor <;>
    · show roundDouble (2 / 2) = 2 / 2
      rw [show (2 : ℚ) / 2 = 1 by norm_num, roundDouble_one]
  have e2 : QPointF.plus roundDouble sampleSelfInput.start ((⟨2, 2⟩ : QPointF) / (2 : ℚ))
      = sampleSelfInput.start + (⟨2, 2⟩ : QPointF) / (2 : ℚ) := by
    rw [QPointF.ext_iff']
    constructor <;>
    · show roundDouble (1 + 2 / 2) = 1 + 2 / 2
      rw [show (1 : ℚ) + 2 / 2 = 2 by norm_num, roundDouble_two]
  have e3 : QPointF.plus roundDouble
      (sampleSelfInput.start + (⟨2, 2⟩ : QPointF) / (2 : ℚ)) ((⟨2, 2⟩ : QPointF) / (2 : ℚ))
      = sampleSelfInput.start + (⟨2, 2⟩ : QPointF) / (2 : ℚ) + (⟨2, 2⟩ : QPointF) / (2 : ℚ) := by
    rw [QPointF.ext_iff']
    constructor <;>
    · show roundDouble (1 + 2 / 2 + 2 / 2) = 1 + 2 / 2 + 2 / 2
      rw [show (1 : ℚ) + 2 / 2 + 2 / 2 = 3 by norm_num, roundDouble_three]
  ⟨by simp [sampleSelfInput], by decide, h.1,
    h.2.1.trans (h.2.2.2.2 sampleSelfInput.start e1 e2 e3)⟩

/-- C10 as stated fails in the arithmetic of `qreal`: for a self-connection
whose start point has the x coordinate `2 ^ 53`, and `delta = (2, 0)`, each
call adds the half `(1, 0)`; the sum `2 ^ 53 + 1` is rounded back to `2 ^ 53`,
so after the two calls the start point is where it was, although the start
point moved by `delta` has coordinates that are doubles. -/
theorem animate_halves_rounded_away :
    sampleFarSelfInput.curves ≠ []
    ∧ sampleFarSelfInput.source = sampleFarSelfInput.destination
    ∧ (animateRounded roundDouble sampleEnv 1 ⟨2, 0⟩
          (animateRounded roundDouble sampleEnv 1 ⟨2, 0⟩ sampleFarSelfInput)).start
        = sampleFarSelfInput.start
    ∧ sampleFarSelfInput.start + ⟨2, 0⟩ = (⟨9007199254740994, 0⟩ : QPointF)
    ∧ roundDouble 9007199254740994 = 9007199254740994
    ∧ (animateRounded roundDouble sampleEnv 1 ⟨2, 0⟩
          (animateRounded roundDouble sampleEnv 1 ⟨2, 0⟩ sampleFarSelfInput)).start
        ≠ sampleFarSelfInput.start + ⟨2, 0⟩ := by
  have hc : sampleFarSelfInput.curves ≠ [] := by simp [sampleFarSelfInput, sampleSelfInput]
  have h1 := animateRounded_self roundDouble sampleEnv sampleFarSelfInput 1 ⟨2, 0⟩ hc rfl rfl
    (by decide)
  have hc' : (animateRounded roundDouble sampleEnv 1 ⟨2, 0⟩ sampleFarSelfInput).curves ≠ [] := by
    rw [h1]
    simp [sampleFarSelfInput, sampleSelfInput, modifyBack, modifyFront]
  have h2 := animateRounded_self roundDouble sampleEnv
    (animateRounded roundDouble sampleEnv 1 ⟨2, 0⟩ sampleFarSelfInput) 1 ⟨2, 0⟩ hc'
    (by rw [h1]; rfl) (by rw [h1]; rfl) (by decide)
  have hhalf : QPointF.over roundDouble ⟨2, 0⟩ 2 = ⟨1, 0⟩ := by
    rw [QPointF.ext_iff']
    constructor
    · show roundDouble (2 / 2) = 1
      rw [show (2 : ℚ) / 2 = 1 by norm_num, roundDouble_one]
    · show roundDouble (0 / 2) = 0
      rw [show (0 : ℚ) / 2 = 0 by norm_num, roundDouble_zero]
  have hstep : QPointF.plus roundDouble sampleFarSelfInput.start ⟨1, 0⟩
      = sampleFarSelfInput.start := by
    rw [QPointF.ext_iff']
    constructor
    · show roundDouble (9007199254740992 + 1) = 9007199254740992
      rw [show (9007199254740992 : ℚ) + 1 = 9007199254740993 by norm_num, roundDouble_tie]
    · show roundDouble (0 + 0) = 0
      rw [show (0 : ℚ) + 0 = 0 by norm_num, roundDouble_zero]
  have htwo : (animateRounded roundDouble sampleEnv 1 ⟨2, 0⟩
      (animateRounded roundDouble sampleEnv 1 ⟨2, 0⟩ sampleFarSelfInput)).start
      = sampleFarSelfInput.start := by
    rw [h2, h1]
    show QPointF.plus roundDouble
      (QPointF.plus roundDouble sampleFarSelfInput.start (QPointF.over roundDouble ⟨2, 0⟩ 2))
      (QPointF.over roundDouble ⟨2, 0⟩ 2) = sampleFarSelfInput.start
    rw [hhalf, hstep, hstep]
  have hsum : sampleFarSelfInput.start + ⟨2, 0⟩ = (⟨9007199254740994, 0⟩ : QPointF) := by
    rw [QPointF.ext_iff']
    constructor
    · show (9007199254740992 : ℚ) + 2 = 9007199254740994
      norm_num
    · show (0 : ℚ) + 0 = 0
      norm_num
  refine ⟨hc, rfl, htwo, hsum, roundDouble_next, ?_⟩
  rw [htwo, hsum, Ne, QPointF.ext_iff']
  show ¬ ((9007199254740992 : ℚ) = 9007199254740994 ∧ (0 : ℚ) = 0)
  norm_num

/-! ## The two readers -/

theorem Outcome.andThen_eq_done {α β : Type} (o : Outcome α) (next : α → Outcome β) (b : β) :
    o.andThen next = .done b ↔ ∃ a, o = .done a ∧ next a = .done b := by
  cases o with
  | done a => simp [Outcome.andThen]
  | badCast => simp [Outcome.andThen]
  | outOfRange => simp [Outcome.andThen]

theorem legacyVals_eq_readVals {C : Type} (E : Env C) (cursorPos : cursorType) :
    ∀ (vals : List QDomNode) (newCurve : bezierCurve),
      legacyVals E cursorPos vals newCurve = readVals E cursorPos vals newCurve
  | [], _ => rfl
  | v :: rest, newCurve => by
    simp only [legacyVals, readVals]
    exact legacyVals_eq_readVals E cursorPos rest _

theorem legacyEdges_eq_readEdges {C : Type} (E : Env C) (cursorPos : cursorType) :
    ∀ (edges : List QDomNode) (curves : List bezierCurve),
      legacyEdges E cursorPos edges curves = readEdges E cursorPos edges curves
  | [], _ => rfl
  | e :: rest, curves => by
    simp only [legacyEdges, readEdges, legacyVals_eq_readVals]
    exact legacyEdges_eq_readEdges E cursorPos rest _

/-- One round of the new-format loop over the children of the metadata node. -/
theorem readMetaData_cons {C : Type} (E : Env C) (cursorPos : cursorType) (n : QDomNode)
    (rest : List QDomNode) (g : genericInput C) :
    ∃ g' : genericInput C,
      readMetaData E cursorPos (n :: rest) g = readMetaData E cursorPos rest g'
      ∧ g'.start = (if n.tag = "start" then
            ⟨E.toFloat (n.attribute "x" "") + cursorPos.x,
             E.toFloat (n.attribute "y" "") + cursorPos.y⟩
          else g.start)
      ∧ g'.curves = (if n.tag = "curves" then
            readEdges E cursorPos (elementsByTagName "curve" n) g.curves
          else g.curves) := by
  refine ⟨_, rfl, ?_, ?_⟩
  · split_ifs <;> rfl
  · split_ifs <;> rfl

/-- The blocks of the old-format loop that load geometry set the start point
and the curves as a round of the new-format loop does, and nothing else that
the loop reads. -/
theorem legacyGeometry_fields {C : Type} (E : Env C) (cursorPos : cursorType) (n : QDomNode)
    (g : genericInput C) :
    (legacyGeometry E cursorPos n g).start = (if n.tag = "start" then
          ⟨E.toFloat (n.attribute "x" "") + cursorPos.x,
           E.toFloat (n.attribute "y" "") + cursorPos.y⟩
        else g.start)
    ∧ (legacyGeometry E cursorPos n g).curves = (if n.tag = "curves" then
          readEdges E cursorPos (elementsByTagName "curve" n) g.curves
        else g.curves)
    ∧ (legacyGeometry E cursorPos n g).conn = g.conn
    ∧ (legacyGeometry E cursorPos n g).source = g.source
    ∧ (legacyGeometry E cursorPos n g).destination = g.destination := by
  unfold legacyGeometry
  refine ⟨?_, ?_, ?_, ?_, ?_⟩
  · split_ifs <;> rfl
  · split_ifs <;> simp [legacyEdges_eq_readEdges]
  · split_ifs <;> rfl
  · split_ifs <;> rfl
  · split_ifs <;> rfl

/-- One round of the old-format loop over the children of the matching node:
the loop goes on unless the node makes it check the casts and one of them
fails. -/
theorem legacyMetaData_cons {C : Type} (S : Scene) (E : Env C) (cursorPos : cursorType)
    (n : QDomNode) (rest : List QDomNode) (g : genericInput C) :
    legacyMetaData S E cursorPos (n :: rest) g
      = if (decide (n.tag = "connection") && hasChildElement n && E.connIsCSV g.conn) = true
        then
          if (castsToPopulation S g.source && castsToPopulation S g.destination) = true then
            legacyMetaData S E cursorPos rest
              { legacyGeometry E cursorPos n g with
                conn := E.legacyGenerator n g.source g.destination g.conn }
          else .badCast
        else legacyMetaData S E cursorPos rest (legacyGeometry E cursorPos n g) := by
  obtain ⟨_, _, h1, h2, h3⟩ := legacyGeometry_fields E cursorPos n g
  simp only [legacyMetaData, h1, h2, h3]
  by_cases hc : n.tag = "connection" <;> by_cases hh : hasChildElement n = true <;>
    by_cases hv : E.connIsCSV g.conn = true <;>
    by_cases hs : castsToPopulation S g.source = true <;>
    by_cases hd : castsToPopulation S g.destination = true <;>
    simp [hc, hh, hv, hs, hd]

/-- How the old-format loop over the children of the matching node ends. It
ends the run at a failed cast exactly when `legacyCastFails` holds; otherwise
it returns, with the start point and the curves that the new-format loop over
the same children gives to an input with the same start point and curves. -/
theorem legacyMetaData_outcome {C : Type} (S : Scene) (E : Env C) (cursorPos : cursorType) :
    ∀ (children : List QDomNode) (g g' : genericInput C),
      g.start = g'.start → g.curves = g'.curves →
      (legacyCastFails S E g children = true →
        legacyMetaData S E cursorPos children g = .badCast)
      ∧ (legacyCastFails S E g children = false →
        ∃ r, legacyMetaData S E cursorPos children g = .done r
          ∧ r.start = (readMetaData E cursorPos children g').start
          ∧ r.curves = (readMetaData E cursorPos children g').curves)
  | [], g, g', hs, hc =>
    ⟨by simp [legacyCastFails, hasGeneratorNode], fun _ => ⟨g, rfl, hs, hc⟩⟩
  | n :: rest, g, g', hs, hc => by
    obtain ⟨f1, f2, f3, f4, f5⟩ := legacyGeometry_fields E cursorPos n g
    obtain ⟨g₁', e', s', c'⟩ := readMetaData_cons E cursorPos n rest g'
    have hs₂ : (legacyGeometry E cursorPos n g).start = g₁'.start := by rw [f1, s', hs]
    have hc₂ : (legacyGeometry E cursorPos n g).curves = g₁'.curves := by rw [f2, c', hc]
    rw [legacyMetaData_cons, e']
    by_cases hnode : (decide (n.tag = "connection") && hasChildElement n) = true
    · by_cases hv : E.connIsCSV g.conn = true
      · by_cases hcast :
            (castsToPopulation S g.source && castsToPopulation S g.destination) = true
        · have ih := legacyMetaData_outcome S E cursorPos rest
            { legacyGeometry E cursorPos n g with
              conn := E.legacyGenerator n g.source g.destination g.conn } g₁' hs₂ hc₂
          have hfalse : ∀ (c : C) (l : List QDomNode),
              legacyCastFails S E
                { legacyGeometry E cursorPos n g with conn := c } l = false := by
            intro c l
            simp only [legacyCastFails, f4, f5, hcast]
            simp
          have hfalse' : legacyCastFails S E g (n :: rest) = false := by
            simp only [legacyCastFails, hcast]
            simp
          simp only [hnode, hv, hcast, Bool.and_self, if_true, hfalse']
          exact ⟨fun h => absurd h (by simp), fun _ => ih.2 (hfalse _ _)⟩
        · have hneg := (Bool.not_eq_true _).mp hcast
          have htrue : legacyCastFails S E g (n :: rest) = true := by
            simp only [legacyCastFails, hasGeneratorNode, hnode, hv, hneg]
            rfl
          simp only [hnode, hv, hcast, Bool.and_self, if_true, if_false, htrue]
          exact ⟨fun _ => rfl, fun h => absurd h (by simp)⟩
      · have ih := legacyMetaData_outcome S E cursorPos rest (legacyGeometry E cursorPos n g)
          g₁' hs₂ hc₂
        have hf : ∀ l : List QDomNode, legacyCastFails S E g l = false := by
          intro l
          simp [legacyCastFails, hv]
        have hf₂ : legacyCastFails S E (legacyGeometry E cursorPos n g) rest = false := by
          simp [legacyCastFails, f3, hv]
        have hcond : ¬ ((decide (n.tag = "connection") && hasChildElement n
            && E.connIsCSV g.conn) = true) := by simp [hv]
        simp only [hcond, if_false, hf]
        exact ⟨fun h => absurd h (by simp), fun _ => ih.2 hf₂⟩
    · have ih := legacyMetaData_outcome S E cursorPos rest (legacyGeometry E cursorPos n g)
        g₁' hs₂ hc₂
      have hsame : legacyCastFails S E g (n :: rest)
          = legacyCastFails S E (legacyGeometry E cursorPos n g) rest := by
        simp only [legacyCastFails, hasGeneratorNode, f3, f4, f5]
        simp [hnode]
      have hcond : ¬ ((decide (n.tag = "connection") && hasChildElement n
          && E.connIsCSV g.conn) = true) := by
        intro h
        apply hnode
        simp only [Bool.and_eq_true] at h ⊢
        exact h.1
      simp only [hcond, if_false, hsame]
      exact ih

/-- The new-format loop looks at the `start` and `curves` children only, as far
as start point and curves go. -/
theorem readMetaData_filter {C : Type} (E : Env C) (cursorPos : cursorType) :
    ∀ (children : List QDomNode) (g g' : genericInput C),
      g.start = g'.start → g.curves = g'.curves →
      (readMetaData E cursorPos children g).start
          = (readMetaData E cursorPos (children.filter isGeometry) g').start
      ∧ (readMetaData E cursorPos children g).curves
          = (readMetaData E cursorPos (children.filter isGeometry) g').curves
  | [], _, _, hs, hc => ⟨hs, hc⟩
  | n :: rest, g, g', hs, hc => by
    by_cases h1 : n.tag = "start"
    · have hg : isGeometry n = true := by simp [isGeometry, h1]
      simp only [List.filter_cons, hg, if_true, readMetaData]
      apply readMetaData_filter E cursorPos rest
      · by_cases h2 : n.tag = "curves" <;> simp [h1, h2]
      · by_cases h2 : n.tag = "curves" <;> simp [h1, h2, hc]
    · by_cases h2 : n.tag = "curves"
      · have hg : isGeometry n = true := by simp [isGeometry, h2]
        simp only [List.filter_cons, hg, if_true, readMetaData]
        apply readMetaData_filter E cursorPos rest
        · simp [h1, h2, hs]
        · simp [h1, h2, hc]
      · have hg : isGeometry n = false := by simp [isGeometry, h1, h2]
        simp only [List.filter_cons, hg, readMetaData]
        apply readMetaData_filter E cursorPos rest
        · simp [h1, h2, hs]
        · simp [h1, h2, hc]

/-- The old-format loop over the nodes of the document stops at the first node
that matches: the children of that node are loaded, and when that loop
returns, the `source` attribute of the node is removed and every other node
stays as it is. -/
theorem legacyNodes_first_match {C : Type} (S : Scene) (E : Env C) (cursorPos : cursorType)
    (g : genericInput C) (m : QDomNode) (post : List QDomNode) :
    ∀ (pre : List QDomNode), (∀ n ∈ pre, legacyMatch E g n = false) →
      legacyMatch E g m = true →
      legacyNodes S E cursorPos (pre ++ m :: post) g
        = (legacyMetaData S E cursorPos m.children g).andThen
            (fun g' => .done (g', pre ++ m.removeAttribute "source" :: post))
  | [], _, hm => by simp [legacyNodes, hm]
  | p :: pre, hpre, hm => by
    have hp : legacyMatch E g p = false := hpre p (by simp)
    have ih := legacyNodes_first_match S E cursorPos g m post pre
      (fun n hn => hpre n (List.mem_cons_of_mem _ hn)) hm
    have e : legacyNodes S E cursorPos (p :: pre ++ m :: post) g
        = (legacyNodes S E cursorPos (pre ++ m :: post) g).andThen
            (fun r => .done (r.1, p :: r.2)) := by
      show legacyNodes S E cursorPos (p :: (pre ++ m :: post)) g = _
      simp only [legacyNodes, hp, Bool.false_eq_true, if_false]
    rw [e, ih]
    cases legacyMetaData S E cursorPos m.children g <;> rfl

/-- The old-format reader on a document whose first matching node is `m`, for
an input that is not projection specific. -/
theorem read_meta_data_legacy_first_match {C : Type} (S : Scene) (E : Env C)
    (cursorPos : cursorType) (g : genericInput C) (t : String) (as : List (String × String))
    (pre post : List QDomNode) (m : QDomNode) (hp : g.projInput = false)
    (hpre : ∀ n ∈ pre, legacyMatch E g n = false) (hm : legacyMatch E g m = true) :
    read_meta_data_legacy S E (.element t as (pre ++ m :: post)) cursorPos g
      = (legacyMetaData S E cursorPos m.children g).andThen
          (fun g' => .done (g', .element t as (pre ++ m.removeAttribute "source" :: post))) := by
  have hl := legacyNodes_first_match S E cursorPos g m post pre hpre hm
  simp only [read_meta_data_legacy, hp, hl, Bool.false_eq_true, if_false]
  cases legacyMetaData S E cursorPos m.children g <;> rfl

/-- With a single `SpineCreator` element below `meta`, the new-format reader
runs its loop over the children of that element, on the input with its stored
annotation extended. -/
theorem read_meta_data_single {C : Type} (E : Env C) (cursorPos : cursorType)
    (g : genericInput C) (domMeta sc : QDomNode) (hp : g.projInput = false)
    (hsc : elementsByTagName "SpineCreator" domMeta = [sc]) :
    ∃ a : String, (read_meta_data E domMeta cursorPos g).1
      = readMetaData E cursorPos sc.children { g with annotation := a } := by
  simp only [read_meta_data, hp, hsc, List.length_singleton, if_true, List.head?_cons,
    Option.toList_some, Bool.false_eq_true, if_false]
  exact ⟨_, rfl⟩

/-- C6, amended: the migration from the old format keeps the geometry where
the old-format reader returns. For a document whose first node matching the
input has the same `start` and `curves` children as the only `SpineCreator`
element of an annotation, and for the same cursor offset: the old-format
reader ends the run at a failed `CHECK_CAST` when the input is not projection
specific, its connection is of type `CSV`, the matching node has a
`connection` child with a child element, and `source` or `destination` is
null or not a population; in every other case it returns and leaves the input
with the start point and the curves that the new-format reader, which has no
such check, leaves it with on the annotation. -/
theorem legacy_reader_same_geometry {C : Type} (S : Scene) (E : Env C)
    (cursorPos : cursorType) (g : genericInput C) (t : String) (as : List (String × String))
    (pre post : List QDomNode) (m domMeta sc : QDomNode)
    (hpre : ∀ n ∈ pre, legacyMatch E g n = false) (hm : legacyMatch E g m = true)
    (hsc : elementsByTagName "SpineCreator" domMeta = [sc])
    (hsame : m.children.filter isGeometry = sc.children.filter isGeometry) :
    (g.projInput = false → legacyCastFails S E g m.children = true →
      read_meta_data_legacy S E (.element t as (pre ++ m :: post)) cursorPos g = .badCast)
    ∧ (g.projInput = true ∨ legacyCastFails S E g m.children = false →
      ∃ r, read_meta_data_legacy S E (.element t as (pre ++ m :: post)) cursorPos g = .done r
        ∧ r.1.start = (read_meta_data E domMeta cursorPos g).1.start
        ∧ r.1.curves = (read_meta_data E domMeta cursorPos g).1.curves) := by
  have ho := legacyMetaData_outcome S E cursorPos m.children g g rfl rfl
  constructor
  · intro hp hfail
    rw [read_meta_data_legacy_first_match S E cursorPos g t as pre post m hp hpre hm,
      ho.1 hfail]
    rfl
  · intro h
    by_cases hp : g.projInput = true
    · exact ⟨(g, .element t as (pre ++ m :: post)), by simp [read_meta_data_legacy, hp],
        by simp [read_meta_data, hp], by simp [read_meta_data, hp]⟩
    · have hp' : g.projInput = false := by simpa using hp
      have hok : legacyCastFails S E g m.children = false := h.resolve_left hp
      obtain ⟨r, hr, hs, hc⟩ := ho.2 hok
      obtain ⟨a, hn⟩ := read_meta_data_single E cursorPos g domMeta sc hp' hsc
      have a2 := readMetaData_filter E cursorPos m.children g g rfl rfl
      have a3 := readMetaData_filter E cursorPos sc.children { g with annotation := a } g rfl rfl
      rw [hsame] at a2
      refine ⟨(r, .element t as (pre ++ m.removeAttribute "source" :: post)), ?_, ?_, ?_⟩
      · rw [read_meta_data_legacy_first_match S E cursorPos g t as pre post m hp' hpre hm, hr]
        rfl
      · rw [hn]
        exact hs.trans (a2.1.trans a3.1.symm)
      · rw [hn]
        exact hc.trans (a2.2.trans a3.2.symm)

theorem legacy_reader_same_geometry_witness :
    legacyMatch sampleCsvEnv (sampleInput false) sampleGeneratorNode = true
    ∧ legacyCastFails sampleScene sampleCsvEnv (sampleInput false) sampleGeneratorNode.children
        = false
    ∧ ∃ r, read_meta_data_legacy sampleScene sampleCsvEnv
          (.element "inputs" [] ([sampleOtherNode] ++ sampleGeneratorNode :: [])) ⟨1, 1⟩
          (sampleInput false) = .done r
        ∧ r.1.start
          = (read_meta_data sampleCsvEnv sampleAnnotationNode ⟨1, 1⟩ (sampleInput false)).1.start
        ∧ r.1.curves
          = (read_meta_data sampleCsvEnv sampleAnnotationNode ⟨1, 1⟩ (sampleInput false)).1.curves :=
  ⟨by decide, by decide,
    (legacy_reader_same_geometry sampleScene sampleCsvEnv ⟨1, 1⟩ (sampleInput false) "inputs" []
      [sampleOtherNode] [] sampleGeneratorNode sampleAnnotationNode
      (.element "SpineCreator" [] sampleGeometry)
      (by intro n hn; rw [List.mem_singleton] at hn; subst hn; decide)
      (by decide) rfl rfl).2 (Or.inr (by decide))⟩

/-- C6 as stated fails where the old-format reader checks its casts: for an
input with a connection of type `CSV` whose destination is a projection, and a
matching node that carries the data of a connection generator, the old-format
reader ends the run at `CHECK_CAST(popdst)` and sets nothing, while the
new-format reader on an annotation with the same children returns with the
start point set and the curve appended. -/
theorem legacy_reader_stops_at_cast :
    legacyMatch sampleCsvEnv (sampleInput false) sampleGeneratorNode = true
    ∧ castsToPopulation sampleSceneProjection (sampleInput false).destination = false
    ∧ read_meta_data_legacy sampleSceneProjection sampleCsvEnv
        (.element "inputs" [] [sampleGeneratorNode]) ⟨0, 0⟩ (sampleInput false) = .badCast
    ∧ elementsByTagName "SpineCreator"
          (.element "LL:Annotation" [] [.element "SpineCreator" [] sampleGeneratorNode.children])
        = [.element "SpineCreator" [] sampleGeneratorNode.children]
    ∧ (read_meta_data sampleCsvEnv
          (.element "LL:Annotation" [] [.element "SpineCreator" [] sampleGeneratorNode.children])
          ⟨0, 0⟩ (sampleInput false)).1.curves.length = 2
    ∧ (read_meta_data sampleCsvEnv
          (.element "LL:Annotation" [] [.element "SpineCreator" [] sampleGeneratorNode.children])
          ⟨0, 0⟩ (sampleInput false)).1.start
        ≠ (sampleInput false).start := by
  refine ⟨by decide, by decide, rfl, rfl, rfl, ?_⟩
  simp [read_meta_data, sampleGeneratorNode, sampleGeometry, sampleInput, sampleCsvEnv,
    sampleEnv, elementsByTagName, elementsIn, QDomNode.tag, QDomNode.children, readMetaData,
    readEdges, readVals, QDomNode.attribute, lookupAttr]

/-! ## Consuming an old-format node -/

theorem lookupAttr_filter_self (name : String) :
    ∀ as : List (String × String),
      lookupAttr name "" (as.filter (fun kv => !decide (kv.1 = name))) = ""
  | [] => rfl
  | (k, v) :: rest => by
    by_cases hk : k = name
    · simp [List.filter_cons, hk, lookupAttr_filter_self name rest]
    · simp [List.filter_cons, hk, lookupAttr, lookupAttr_filter_self name rest]

/-- After `removeAttribute("source")` the attribute reads as the empty string. -/
theorem removeAttribute_source (n : QDomNode) :
    (n.removeAttribute "source").attribute "source" "" = "" := by
  cases n with
  | element t as cs => simp [QDomNode.removeAttribute, QDomNode.attribute, lookupAttr_filter_self]
  | text d => simp [QDomNode.removeAttribute, QDomNode.attribute]

/-- A node whose `source` attribute reads as the empty string matches no input
whose source component has a non-empty XML name. -/
theorem legacyMatch_of_no_source {C : Type} (E : Env C) (h : genericInput C) (n : QDomNode)
    (hn : n.attribute "source" "" = "") (hname : E.getXMLName h.srcCmpt ≠ "") :
    legacyMatch E h n = false := by
  have : ¬ ("" = E.getXMLName h.srcCmpt) := fun e => hname e.symm
  simp [legacyMatch, hn, this]

/-- The old-format loop, when it returns, leaves the `source` attribute of a
node empty where it was empty, and keeps every node at its index. -/
theorem legacyNodes_keeps_no_source {C : Type} (S : Scene) (E : Env C)
    (cursorPos : cursorType) (h : genericInput C) :
    ∀ (nodes : List QDomNode) (i : Nat) (n : QDomNode) (r : genericInput C × List QDomNode),
      legacyNodes S E cursorPos nodes h = .done r → nodes[i]? = some n →
      n.attribute "source" "" = "" →
      ∃ n', r.2[i]? = some n' ∧ n'.attribute "source" "" = ""
  | [], i, n, _, _, hi, _ => by simp at hi
  | p :: rest, i, n, r, hr, hi, hn => by
    by_cases hm : legacyMatch E h p = true
    · simp only [legacyNodes, hm, if_true] at hr
      obtain ⟨g', _, hg⟩ := (Outcome.andThen_eq_done _ _ _).mp hr
      simp only [Outcome.done.injEq] at hg
      subst hg
      cases i with
      | zero =>
        simp only [List.getElem?_cons_zero, Option.some.injEq] at hi
        exact ⟨p.removeAttribute "source", by simp, removeAttribute_source p⟩
      | succ j =>
        simp only [List.getElem?_cons_succ] at hi
        exact ⟨n, by simp [hi], hn⟩
    · simp only [legacyNodes, hm, Bool.false_eq_true, if_false] at hr
      obtain ⟨r', hr', hg⟩ := (Outcome.andThen_eq_done _ _ _).mp hr
      simp only [Outcome.done.injEq] at hg
      subst hg
      cases i with
      | zero =>
        simp only [List.getElem?_cons_zero, Option.some.injEq] at hi
        subst hi
        exact ⟨p, by simp, hn⟩
      | succ j =>
        simp only [List.getElem?_cons_succ] at hi
        obtain ⟨n', h1, h2⟩ := legacyNodes_keeps_no_source S E cursorPos h rest j n r' hr' hi hn
        exact ⟨n', by simp [h1], h2⟩

theorem read_meta_data_legacy_keeps_no_source {C : Type} (S : Scene) (E : Env C)
    (cursorPos : cursorType) (h : genericInput C) (doc : QDomNode) (i : Nat) (n : QDomNode)
    (r : genericInput C × QDomNode)
    (hr : read_meta_data_legacy S E doc cursorPos h = .done r)
    (hi : doc.children[i]? = some n) (hn : n.attribute "source" "" = "") :
    ∃ n', r.2.children[i]? = some n' ∧ n'.attribute "source" "" = "" := by
  by_cases hp : h.projInput = true
  · simp only [read_meta_data_legacy, hp, if_true, Outcome.done.injEq] at hr
    subst hr
    exact ⟨n, hi, hn⟩
  · cases doc with
    | element t as cs =>
      simp only [read_meta_data_legacy, hp, Bool.false_eq_true, if_false] at hr
      obtain ⟨r', hr', hg⟩ := (Outcome.andThen_eq_done _ _ _).mp hr
      simp only [Outcome.done.injEq] at hg
      subst hg
      obtain ⟨n', h1, h2⟩ := legacyNodes_keeps_no_source S E cursorPos h cs i n r' hr' hi hn
      exact ⟨n', by simpa [QDomNode.children] using h1, h2⟩
    | text d => simp [QDomNode.children] at hi

theorem legacyReadAll_keeps_no_source {C : Type} (S : Scene) (E : Env C) :
    ∀ (later : List (cursorType × genericInput C)) (doc doc' : QDomNode) (i : Nat)
      (n : QDomNode), legacyReadAll S E later doc = .done doc' →
      doc.children[i]? = some n → n.attribute "source" "" = "" →
      ∃ n', doc'.children[i]? = some n' ∧ n'.attribute "source" "" = ""
  | [], doc, doc', _, n, hr, hi, hn => by
    simp only [legacyReadAll, Outcome.done.injEq] at hr
    subst hr
    exact ⟨n, hi, hn⟩
  | (cursorPos, h) :: rest, doc, doc', i, n, hr, hi, hn => by
    simp only [legacyReadAll] at hr
    obtain ⟨r, hr₁, hr₂⟩ := (Outcome.andThen_eq_done _ _ _).mp hr
    obtain ⟨n₁, h1, h2⟩ :=
      read_meta_data_legacy_keeps_no_source S E cursorPos h doc i n r hr₁ hi hn
    exact legacyReadAll_keeps_no_source S E rest r.2 doc' i n₁ hr₂ h1 h2

/-- An old-format metadata node is consumed for every input with a named
source. A call of the old-format reader loads the first node in document order
that matches the input and no other, and when it returns it has removed the
`source` attribute of that node only; after any sequence of later calls on the
document that return, the node matches no input whose source component has a
non-empty XML name, whatever its other identifiers are. -/
theorem legacy_node_consumed {C : Type} (S : Scene) (E : Env C) (cursorPos : cursorType)
    (g : genericInput C) (t : String) (as : List (String × String))
    (pre post : List QDomNode) (m : QDomNode) (hp : g.projInput = false)
    (hpre : ∀ n ∈ pre, legacyMatch E g n = false) (hm : legacyMatch E g m = true) :
    read_meta_data_legacy S E (.element t as (pre ++ m :: post)) cursorPos g
        = (legacyMetaData S E cursorPos m.children g).andThen
            (fun g' => .done (g', .element t as (pre ++ m.removeAttribute "source" :: post)))
    ∧ ∀ (later : List (cursorType × genericInput C)) (h : genericInput C) (doc' : QDomNode),
        E.getXMLName h.srcCmpt ≠ "" →
        legacyReadAll S E later (.element t as (pre ++ m.removeAttribute "source" :: post))
          = .done doc' →
        ∃ n, doc'.children[pre.length]? = some n ∧ legacyMatch E h n = false := by
  refine ⟨read_meta_data_legacy_first_match S E cursorPos g t as pre post m hp hpre hm, ?_⟩
  intro later h doc' hname hr
  obtain ⟨n, h3, h4⟩ := legacyReadAll_keeps_no_source S E later
    (.element t as (pre ++ m.removeAttribute "source" :: post)) doc' pre.length
    (m.removeAttribute "source") hr
    (by simp only [QDomNode.children]
        rw [List.getElem?_append_right (le_refl _)]
        simp)
    (removeAttribute_source m)
  exact ⟨n, h3, legacyMatch_of_no_source E h n h4 hname⟩

theorem legacy_node_consumed_example :
    (sampleInput false).projInput = false
    ∧ legacyMatch sampleEnv (sampleInput false) sampleLegacyNode = true
    ∧ ∃ g', read_meta_data_legacy sampleScene sampleEnv
          (.element "inputs" [] ([sampleOtherNode] ++ sampleLegacyNode :: [])) ⟨0, 0⟩
          (sampleInput false)
        = .done (g', .element "inputs" []
            ([sampleOtherNode] ++ sampleLegacyNode.removeAttribute "source" :: [])) :=
  ⟨rfl, by decide, _,
    ((legacy_node_consumed sampleScene sampleEnv ⟨0, 0⟩ (sampleInput false) "inputs" []
      [sampleOtherNode] [] sampleLegacyNode rfl
      (by intro n hn; rw [List.mem_singleton] at hn; subst hn; decide)
      (by decide)).1).trans rfl⟩

/-- C7: evaluation of the old-format reader for an input whose source component
has the empty XML name. The first call matches the node, loads its curve and
removes the `source` attribute of the node; the attribute then reads as the
empty string again, so the node still matches the input, and a second call
for the same input loads the curve a second time. -/
theorem legacy_node_matched_again :
    ∃ r₁ r₂ : genericInput Unit × QDomNode,
      read_meta_data_legacy sampleScene sampleEnv sampleUnnamedDocument ⟨0, 0⟩
          sampleUnnamedInput = .done r₁
      ∧ r₁.1.curves.length = 1
      ∧ (∃ n, r₁.2.children[0]? = some n ∧ n.attribute "source" "none" = "none"
          ∧ legacyMatch sampleEnv sampleUnnamedInput n = true)
      ∧ read_meta_data_legacy sampleScene sampleEnv r₁.2 ⟨0, 0⟩ r₁.1 = .done r₂
      ∧ r₂.1.curves.length = 2 := by
  refine ⟨_, _, rfl, by decide, ⟨_, rfl, by decide, by decide⟩, rfl, by decide⟩

/-! ## Writing and reading back -/

mutual
/-- Building the document from the tokens of a node adds the node to the
innermost open element. -/
theorem buildDom_flatten :
    ∀ (n : QDomNode) (rest : List XmlToken) (cur : Frame) (outer : List Frame),
      buildDom (flatten n ++ rest) cur outer = buildDom rest (cur.push n) outer
  | .element t as cs, rest, cur, outer => by
    have h := buildDom_flattenAll cs (.endElement :: rest) ⟨t, as, []⟩ (cur :: outer)
    have e : flatten (.element t as cs) ++ rest
        = .startElement t as :: (flattenAll cs ++ .endElement :: rest) := by
      simp [flatten]
    rw [e, buildDom, h]
    simp [buildDom]
  | .text d, rest, cur, outer => by
    simp [flatten, buildDom]
/-- Building the document from the tokens of sibling nodes adds the nodes to
the innermost open element. -/
theorem buildDom_flattenAll :
    ∀ (ns : List QDomNode) (rest : List XmlToken) (cur : Frame) (outer : List Frame),
      buildDom (flattenAll ns ++ rest) cur outer
        = buildDom rest { cur with childNodes := cur.childNodes ++ ns } outer
  | [], rest, cur, outer => by simp [flattenAll]
  | n :: ns, rest, cur, outer => by
    have h1 := buildDom_flatten n (flattenAll ns ++ rest) cur outer
    have h2 := buildDom_flattenAll ns rest (cur.push n) outer
    simp only [flattenAll, List.append_assoc]
    rw [h1, h2]
    simp [Frame.push]
end

theorem flattenAll_append :
    ∀ (a b : List QDomNode), flattenAll (a ++ b) = flattenAll a ++ flattenAll b
  | [], b => by simp [flattenAll]
  | n :: a, b => by simp [flattenAll, flattenAll_append a b]

theorem curvesTokens_eq_flattenAll {C : Type} (E : Env C) :
    ∀ cs : List bezierCurve, curvesTokens E cs = flattenAll (cs.map (curveNode E))
  | [] => by simp [curvesTokens, flattenAll]
  | c :: cs => by
    simp [curvesTokens, flattenAll, curvesTokens_eq_flattenAll E cs, curveTokens, curveNode,
      flatten]

theorem elementsIn_append (tag : String) :
    ∀ (a b : List QDomNode), elementsIn tag (a ++ b) = elementsIn tag a ++ elementsIn tag b
  | [], b => by simp [elementsIn]
  | n :: a, b => by simp [elementsIn, elementsIn_append tag a b]

theorem elementsIn_curveNodes_SpineCreator {C : Type} (E : Env C) :
    ∀ cs : List bezierCurve, elementsIn "SpineCreator" (cs.map (curveNode E)) = []
  | [] => by simp [elementsIn]
  | c :: cs => by
    simp [elementsIn, elementsByTagName, curveNode, QDomNode.tag,
      elementsIn_curveNodes_SpineCreator E cs]

theorem elementsIn_curveNodes_curve {C : Type} (E : Env C) :
    ∀ cs : List bezierCurve, elementsIn "curve" (cs.map (curveNode E)) = cs.map (curveNode E)
  | [] => by simp [elementsIn]
  | c :: cs => by
    have ih := elementsIn_curveNodes_curve E cs
    simp only [List.map_cons, elementsIn, ih]
    simp [elementsIn, elementsByTagName, curveNode, QDomNode.tag]

/-- Reading back the `curve` elements written for a list of curves appends
these curves, when each of their coordinates is read back as it was written. -/
theorem readEdges_curveNodes {C : Type} (E : Env C) :
    ∀ (cs acc : List bezierCurve),
      (∀ q ∈ curvesCoordinates cs, E.toFloat (E.number q) = q) →
      readEdges E ⟨0, 0⟩ (cs.map (curveNode E)) acc = acc ++ cs
  | [], acc, _ => by simp [readEdges]
  | c :: cs, acc, h => by
    have hc : ∀ q ∈ c.coordinates, E.toFloat (E.number q) = q := fun q hq =>
      h q (by simp [curvesCoordinates, hq])
    have hcs : ∀ q ∈ curvesCoordinates cs, E.toFloat (E.number q) = q := fun q hq =>
      h q (by simp [curvesCoordinates, hq])
    have hread : readVals E ⟨0, 0⟩ (curveNode E c).children {} = c := by
      have e1 := hc c.C1.x (by simp [bezierCurve.coordinates])
      have e2 := hc c.C1.y (by simp [bezierCurve.coordinates])
      have e3 := hc c.C2.x (by simp [bezierCurve.coordinates])
      have e4 := hc c.C2.y (by simp [bezierCurve.coordinates])
      have e5 := hc c.end_.x (by simp [bezierCurve.coordinates])
      have e6 := hc c.end_.y (by simp [bezierCurve.coordinates])
      simp [curveNode, QDomNode.children, readVals, QDomNode.tag, QDomNode.attribute,
        lookupAttr, e1, e2, e3, e4, e5, e6]
    simp only [List.map_cons, readEdges, hread]
    rw [readEdges_curveNodes E cs (acc ++ [c]) hcs]
    simp

/-- The tokens written for an input that is not projection specific are the
tokens of one `LL:Annotation` element, when the preserved annotation and the
metadata of the connection are the tokens of whole nodes. -/
theorem write_model_meta_xml_tokens {C : Type} (E : Env C) (g : genericInput C)
    (annNodes connNodes : List QDomNode) (hg : g.projInput = false)
    (hann : E.xmlTokens (stripWrapper (genericInput.annotation g)) = flattenAll annNodes)
    (hconn : E.connMetadata g.conn = flattenAll connNodes) :
    (write_model_meta_xml E g).2 = flatten (annotationNode E g annNodes connNodes) := by
  simp [write_model_meta_xml, hg, hann, hconn, annotationNode, spineCreatorNode, flatten,
    flattenAll, flattenAll_append, curvesTokens_eq_flattenAll]

theorem domOfTokens_flatten (n : QDomNode) : domOfTokens (flatten n) = some [n] := by
  have h := buildDom_flatten n [] ⟨"", [], []⟩ []
  rw [List.append_nil] at h
  rw [domOfTokens, h]
  simp [buildDom, Frame.push]

theorem elementsByTagName_annotationNode {C : Type} (E : Env C) (g : genericInput C)
    (annNodes connNodes : List QDomNode)
    (hannSC : elementsIn "SpineCreator" annNodes = [])
    (hconnSC : elementsIn "SpineCreator" connNodes = []) :
    elementsByTagName "SpineCreator" (annotationNode E g annNodes connNodes)
      = [spineCreatorNode E g connNodes] := by
  simp [annotationNode, elementsByTagName, elementsIn_append, hannSC, elementsIn,
    spineCreatorNode, QDomNode.tag, hconnSC, elementsIn_curveNodes_SpineCreator]

/-- The new-format loop over nodes that are neither `start` nor `curves`
elements keeps start point and curves. -/
theorem readMetaData_no_geometry {C : Type} (E : Env C) (cursorPos : cursorType)
    (nodes : List QDomNode) (g : genericInput C) (h : nodes.filter isGeometry = []) :
    (readMetaData E cursorPos nodes g).start = g.start
    ∧ (readMetaData E cursorPos nodes g).curves = g.curves := by
  have a := readMetaData_filter E cursorPos nodes g g rfl rfl
  rw [h] at a
  exact a

theorem readMetaData_start {C : Type} (E : Env C) (cursorPos : cursorType)
    (as : List (String × String)) (cs rest : List QDomNode) (g : genericInput C) :
    readMetaData E cursorPos (.element "start" as cs :: rest) g
      = readMetaData E cursorPos rest
          { g with
            start := ⟨E.toFloat (lookupAttr "x" "" as) + cursorPos.x,
                      E.toFloat (lookupAttr "y" "" as) + cursorPos.y⟩,
            conn := E.csvGenerator g.source g.destination g.conn } := by
  simp [readMetaData, QDomNode.tag, QDomNode.attribute]

theorem readMetaData_curves {C : Type} (E : Env C) (cursorPos : cursorType)
    (as : List (String × String)) (cs rest : List QDomNode) (g : genericInput C) :
    readMetaData E cursorPos (.element "curves" as cs :: rest) g
      = readMetaData E cursorPos rest
          { g with
            curves := readEdges E cursorPos (elementsIn "curve" cs) g.curves,
            conn := E.csvGenerator g.source g.destination g.conn } := by
  simp [readMetaData, QDomNode.tag, elementsByTagName]

/-- C5, amended: the XML metadata round trip. For an input that is not
projection specific, whose preserved annotation and whose connection metadata
are whole nodes without a `SpineCreator` element, the connection metadata
having no `start` or `curves` element at its top either, and whose coordinates
are read back by `toFloat` as `number` wrote them: the tokens written make up
one `LL:Annotation` element, and reading that element with cursor offset
`(0,0)` into an input without curves that is not projection specific gives the
start point and the curves of the written input. -/
theorem metadata_round_trip {C : Type} (E : Env C) (g target : genericInput C)
    (annNodes connNodes : List QDomNode)
    (hg : g.projInput = false) (ht : target.projInput = false) (htc : target.curves = [])
    (hann : E.xmlTokens (stripWrapper (genericInput.annotation g)) = flattenAll annNodes)
    (hannSC : elementsIn "SpineCreator" annNodes = [])
    (hconn : E.connMetadata g.conn = flattenAll connNodes)
    (hconnSC : elementsIn "SpineCreator" connNodes = [])
    (hconnGeo : connNodes.filter isGeometry = [])
    (hcodec : ∀ q ∈ g.coordinates, E.toFloat (E.number q) = q) :
    ∃ ann : QDomNode,
      domOfTokens (write_model_meta_xml E g).2 = some [ann]
      ∧ ann.tag = "LL:Annotation"
      ∧ (read_meta_data E ann ⟨0, 0⟩ target).1.start = g.start
      ∧ (read_meta_data E ann ⟨0, 0⟩ target).1.curves = g.curves := by
  refine ⟨annotationNode E g annNodes connNodes, ?_, rfl, ?_⟩
  · rw [write_model_meta_xml_tokens E g annNodes connNodes hg hann hconn, domOfTokens_flatten]
  · obtain ⟨a, hr⟩ := read_meta_data_single E ⟨0, 0⟩ target _ _ ht
      (elementsByTagName_annotationNode E g annNodes connNodes hannSC hconnSC)
    have hx := hcodec g.start.x (by simp [genericInput.coordinates])
    have hy := hcodec g.start.y (by simp [genericInput.coordinates])
    have hcs : ∀ q ∈ curvesCoordinates g.curves, E.toFloat (E.number q) = q := fun q hq =>
      hcodec q (by simp [genericInput.coordinates, hq])
    have hedges := readEdges_curveNodes E g.curves [] hcs
    have hchildren : (spineCreatorNode E g connNodes).children
        = .element "start" [("x", E.number g.start.x), ("y", E.number g.start.y)] []
          :: .element "curves" [] (g.curves.map (curveNode E)) :: connNodes := rfl
    rw [hr, hchildren, readMetaData_start, readMetaData_curves]
    constructor
    · rw [(readMetaData_no_geometry E ⟨0, 0⟩ connNodes _ hconnGeo).1]
      simp [lookupAttr, hx, hy]
    · rw [(readMetaData_no_geometry E ⟨0, 0⟩ connNodes _ hconnGeo).2]
      simp [elementsIn_curveNodes_curve, htc, hedges]

theorem metadata_round_trip_witness :
    sampleAnnotatedInput.projInput = false
    ∧ sampleEnv.xmlTokens (stripWrapper (genericInput.annotation sampleAnnotatedInput))
        = flattenAll [.element "note" [] []]
    ∧ ∃ ann : QDomNode,
        domOfTokens (write_model_meta_xml sampleEnv sampleAnnotatedInput).2 = some [ann]
        ∧ ann.tag = "LL:Annotation"
        ∧ (read_meta_data sampleEnv ann ⟨0, 0⟩ (genericInput.default sampleEnv false)).1.start
            = sampleAnnotatedInput.start
        ∧ (read_meta_data sampleEnv ann ⟨0, 0⟩ (genericInput.default sampleEnv false)).1.curves
            = sampleAnnotatedInput.curves :=
  ⟨rfl, by decide,
    metadata_round_trip sampleEnv sampleAnnotatedInput (genericInput.default sampleEnv false)
      [.element "note" [] []] [] rfl rfl rfl (by decide) rfl rfl rfl rfl
      (by
        intro q hq
        simp only [genericInput.coordinates, sampleAnnotatedInput, sampleInput,
          curvesCoordinates, bezierCurve.coordinates, List.cons_append, List.nil_append,
          List.append_nil, List.mem_cons, List.mem_singleton, List.not_mem_nil, or_false] at hq
        rcases hq with h | h | h | h | h | h | h | h <;> subst h <;> simp [sampleEnv])⟩

/-- C5 as stated fails for an input whose preserved annotation is a
`SpineCreator` element: the element written then holds two `SpineCreator`
elements, the reader takes neither, and the input read into keeps the start
point `(0,0)` and no curves instead of the start point `(1,1)` and the curve
that were written. -/
theorem metadata_round_trip_fails :
    sampleDoubleInput.projInput = false
    ∧ ∃ ann : QDomNode,
        domOfTokens (write_model_meta_xml sampleEnv sampleDoubleInput).2 = some [ann]
        ∧ (elementsByTagName "SpineCreator" ann).length = 2
        ∧ (read_meta_data sampleEnv ann ⟨0, 0⟩ (genericInput.default sampleEnv false)).1.start
            ≠ sampleDoubleInput.start
        ∧ (read_meta_data sampleEnv ann ⟨0, 0⟩ (genericInput.default sampleEnv false)).1.curves
            ≠ sampleDoubleInput.curves := by
  refine ⟨rfl, _, rfl, rfl, ?_, ?_⟩
  · show (⟨0, 0⟩ : QPointF) ≠ ⟨1, 1⟩
    simp
  · show ([] : List bezierCurve) ≠ _
    simp [sampleDoubleInput, sampleInput]

/-! ## The connection-list invariant -/

theorem count_append_self_of_not_mem (g : Nat) (l : List Nat) (h : g ∉ l) :
    (l ++ [g]).count g = 1 := by
  rw [List.count_append, List.count_eq_zero.mpr h]
  simp

theorem connInvariant_connect {P : Type} (matchPorts : List Nat → P → P) (g : Nat)
    (s : ConnState P) (h : connInvariant g s) : connInvariant g (connect matchPorts g g s) := by
  by_cases h1 : alreadyThere g s.inputs = true
  · simpa [connect, h1] using h
  · by_cases h2 : alreadyThere g s.outputs = true
    · simpa [connect, h1, h2] using h
    · have hi : g ∉ s.inputs := fun hm => h1 ((alreadyThere_iff g _).mpr hm)
      have ho : g ∉ s.outputs := fun hm => h2 ((alreadyThere_iff g _).mpr hm)
      simp [connect, h1, h2, connInvariant, count_append_self_of_not_mem, hi, ho,
        List.count_eq_zero.mpr hi, List.count_eq_zero.mpr ho]

theorem connInvariant_disconnect {P : Type} (g : Nat) (s : ConnState P)
    (h : connInvariant g s) : connInvariant g (disconnect g s) := by
  obtain ⟨hi, ho, _⟩ := h
  have h1 := skipErase_not_mem g s.inputs hi
  have h2 := skipErase_not_mem g s.outputs ho
  rw [connInvariant, (disconnect_lists g s).1, (disconnect_lists g s).2]
  refine ⟨?_, ?_, ?_⟩
  · rw [List.count_eq_zero.mpr h1]; exact Nat.zero_le _
  · rw [List.count_eq_zero.mpr h2]; exact Nat.zero_le _
  · exact ⟨fun hm => absurd hm h1, fun hm => absurd hm h2⟩

/-- C18: the connection-list invariant. That `g` occurs at most once in
`dstCmpt->inputs`, at most once in `srcCmpt->outputs`, and in `inputs` exactly
when in `outputs`, is preserved by `g.connect(p)` with `p` pointing to `g` and
by `g.disconnect()`, and holds in every state reached from a constructed,
unconnected input by these two operations. -/
theorem connection_invariant {P : Type} (matchPorts : List Nat → P → P) (g : Nat) :
    (∀ s : ConnState P, connInvariant g s → connInvariant g (connect matchPorts g g s))
    ∧ (∀ s : ConnState P, connInvariant g s → connInvariant g (disconnect g s))
    ∧ (∀ s : ConnState P, Reachable matchPorts g s → connInvariant g s) := by
  refine ⟨connInvariant_connect matchPorts g, connInvariant_disconnect g, ?_⟩
  intro s hs
  induction hs with
  | constructed s hi ho =>
    refine ⟨?_, ?_, ?_⟩
    · rw [List.count_eq_zero.mpr hi]; exact Nat.zero_le _
    · rw [List.count_eq_zero.mpr ho]; exact Nat.zero_le _
    · exact ⟨fun hm => absurd hm hi, fun hm => absurd hm ho⟩
  | connect s _ ih => exact connInvariant_connect matchPorts g s ih
  | disconnect s _ ih => exact connInvariant_disconnect g s ih

theorem connection_invariant_witness :
    connInvariant 2 (ConnState.mk [5, 2, 3] [2, 4] (-1) (-1) ())
    ∧ connInvariant 2 (disconnect 2 (ConnState.mk [5, 2, 3] [2, 4] (-1) (-1) ()))
    ∧ connInvariant 2
        (connect (fun _ p => p) 2 2
          (disconnect 2 (connect (fun _ p => p) 2 2 (ConnState.mk [5, 3] [4] (-1) (-1) ())))) :=
  ⟨by decide,
    (connection_invariant (fun _ p => p) 2).2.1 (ConnState.mk [5, 2, 3] [2, 4] (-1) (-1) ())
      (by decide),
    (connection_invariant (fun _ p => p) 2).2.2 _
      (Reachable.connect _ (Reachable.disconnect _ (Reachable.connect _
        (Reachable.constructed (ConnState.mk [5, 3] [4] (-1) (-1) ())
          (by decide) (by decide)))))⟩

/-! ## Removing the references to an input -/

/-- An erase loop removes every occurrence of `this` from a list in which no
two occurrences are neighbours. -/
theorem skipErase_not_mem_of_apart (this : Nat) :
    ∀ (n : Nat) (l : List Nat), l.length ≤ n → twiceInARow this l = false →
      this ∉ skipErase this l
  | _, [], _, _ => by simp [skipErase]
  | _, [x], _, _ => by
    by_cases hx : x = this
    · simp [skipErase, hx]
    · have hx' : ¬ this = x := fun e => hx e.symm
      simp [skipErase, hx, hx']
  | 0, _ :: _ :: _, h, _ => by simp at h
  | n + 1, x :: y :: rest, h, ht => by
    simp only [twiceInARow, Bool.or_eq_false_iff, Bool.and_eq_false_iff, decide_eq_false_iff_not]
      at ht
    by_cases hx : x = this
    · have hy : ¬ y = this := by
        rcases ht.1 with h1 | h1
        · exact absurd hx h1
        · exact h1
      have hy' : ¬ this = y := fun e => hy e.symm
      have hrest : twiceInARow this rest = false := by
        cases rest with
        | nil => rfl
        | cons z rest' =>
          have := ht.2
          simp only [twiceInARow, Bool.or_eq_false_iff] at this
          exact this.2
      have ih := skipErase_not_mem_of_apart this n rest (by simp at h; omega) hrest
      simp only [skipErase, hx, if_true, List.mem_cons, not_or]
      exact ⟨hy', ih⟩
    · have hx' : ¬ this = x := fun e => hx e.symm
      have ih := skipErase_not_mem_of_apart this n (y :: rest) (by simp at h ⊢; omega) ht.2
      simp only [skipErase, hx, if_false, List.mem_cons, not_or]
      exact ⟨hx', by simpa using ih⟩

/-- An address that occurs at most once in a list does not occur twice in a
row. -/
theorem twiceInARow_of_count_le_one (this : Nat) :
    ∀ l : List Nat, l.count this ≤ 1 → twiceInARow this l = false
  | [], _ => rfl
  | [_], _ => rfl
  | x :: y :: rest, h => by
    have hc : (y :: rest).count this ≤ 1 := by
      have : (y :: rest).count this ≤ (x :: y :: rest).count this :=
        List.count_le_count_cons this x (y :: rest)
      omega
    have ih := twiceInARow_of_count_le_one this (y :: rest) hc
    simp only [twiceInARow, ih, Bool.or_false, Bool.and_eq_false_iff, decide_eq_false_iff_not]
    by_cases hx : x = this
    · right
      intro hy
      subst hx hy
      simp at h
    · exact Or.inl hx

/-- What is left of a list by an erase loop that removes every occurrence of
`this`: the other elements, in their order. -/
theorem skipErase_eq_filter (this : Nat) (l : List Nat) (h : this ∉ skipErase this l) :
    skipErase this l = l.filter (fun x => !decide (x = this)) := by
  rw [← skipErase_filter this l.length l (le_refl _)]
  symm
  rw [List.filter_eq_self]
  intro a ha
  have : a ≠ this := fun e => h (e ▸ ha)
  simp [this]

/-- In a state reached from a constructed, unconnected input by `connect` and
`disconnect` the input occurs at most once in each list. -/
theorem reachable_count_le_one {P : Type} (matchPorts : List Nat → P → P) (g : Nat)
    (s : ConnState P) (hs : Reachable matchPorts g s) :
    s.inputs.count g ≤ 1 ∧ s.outputs.count g ≤ 1 := by
  have h : connInvariant g s := by
    induction hs with
    | constructed s hi ho =>
      refine ⟨?_, ?_, ?_⟩
      · rw [List.count_eq_zero.mpr hi]; exact Nat.zero_le _
      · rw [List.count_eq_zero.mpr ho]; exact Nat.zero_le _
      · exact ⟨fun hm => absurd hm hi, fun hm => absurd hm ho⟩
    | connect s _ ih => exact connInvariant_connect matchPorts g s ih
    | disconnect s _ ih => exact connInvariant_disconnect g s ih
  exact ⟨h.1, h.2.1⟩

/-- C4, amended: `disconnect`, and therefore `delAll`, removes every reference
to the input from lists in which the input does not stand twice in a row. In
every state in which `g` occupies no two neighbouring places of
`dstCmpt->inputs` and none of `srcCmpt->outputs`, and so in every state that
`connect` and `disconnect` lead to from a constructed, unconnected input, no
element of either list refers to `g` after `g.disconnect()`, and each list
holds the elements that do not refer to `g` in their original order.
`delAll` does the same. -/
theorem disconnect_removes_references {P : Type} (matchPorts : List Nat → P → P) (g : Nat)
    (s : ConnState P)
    (h : (twiceInARow g s.inputs = false ∧ twiceInARow g s.outputs = false)
      ∨ Reachable matchPorts g s) :
    g ∉ (disconnect g s).inputs ∧ g ∉ (disconnect g s).outputs
    ∧ (disconnect g s).inputs = s.inputs.filter (fun x => !decide (x = g))
    ∧ (disconnect g s).outputs = s.outputs.filter (fun x => !decide (x = g))
    ∧ delAll g s = disconnect g s := by
  have ht : twiceInARow g s.inputs = false ∧ twiceInARow g s.outputs = false := by
    rcases h with h | h
    · exact h
    · have hc := reachable_count_le_one matchPorts g s h
      exact ⟨twiceInARow_of_count_le_one g _ hc.1, twiceInARow_of_count_le_one g _ hc.2⟩
  have h1 := skipErase_not_mem_of_apart g s.inputs.length s.inputs (le_refl _) ht.1
  have h2 := skipErase_not_mem_of_apart g s.outputs.length s.outputs (le_refl _) ht.2
  rw [(disconnect_lists g s).1, (disconnect_lists g s).2]
  exact ⟨h1, h2, skipErase_eq_filter g _ h1, skipErase_eq_filter g _ h2, rfl⟩

theorem disconnect_removes_references_witness :
    twiceInARow 5 (ConnState.mk [5, 8, 5, 3] [4, 5] (-1) (-1) ()).inputs = false
    ∧ (disconnect 5 (ConnState.mk [5, 8, 5, 3] [4, 5] (-1) (-1) ())).inputs = [8, 3]
    ∧ (disconnect 5 (ConnState.mk [5, 8, 5, 3] [4, 5] (-1) (-1) ())).outputs = [4]
    ∧ (5 : Nat) ∉ (delAll 5 (ConnState.mk [5, 8, 5, 3] [4, 5] (-1) (-1) ())).inputs :=
  have h := disconnect_removes_references (fun _ p => p) 5
    (ConnState.mk [5, 8, 5, 3] [4, 5] (-1) (-1) ()) (Or.inl ⟨by decide, by decide⟩)
  ⟨by decide, h.2.2.1, h.2.2.2.1, h.2.2.2.2 ▸ h.1⟩

/-! ## Moving one end of an edge -/

theorem modifyBack_modifyBack (f h : bezierCurve → bezierCurve) :
    ∀ l : List bezierCurve, modifyBack f (modifyBack h l) = modifyBack (fun c => f (h c)) l
  | [] => rfl
  | [_] => rfl
  | c :: d :: rest => by
    have ih := modifyBack_modifyBack f h (d :: rest)
    cases rest with
    | nil => simp [modifyBack]
    | cons e rest' =>
      simp only [modifyBack] at ih ⊢
      rw [ih]

/-- C11, amended: `animate` moves only the anchors of the moving end point. For
an input with at least one curve whose source and destination have different
names, `animate(source, delta)` adds `delta` to `start` and to the `C1` of the
first curve and changes nothing else; `animate(destination, delta)` adds
`delta` to the `end` and the `C2` of the last curve and changes nothing else;
`animate` of an object whose name is neither the name of the source nor the
name of the destination changes nothing; and on an input with no curves
`animate` changes nothing. -/
theorem animate_moves_one_end {C : Type} (E : Env C) (g : genericInput C) (delta : QPointF) :
    (g.curves ≠ [] → E.getName g.source ≠ E.getName g.destination →
      animate E g.source delta g
          = { g with start := g.start + delta,
                     curves := modifyFront (fun c => { c with C1 := c.C1 + delta }) g.curves }
      ∧ (g.destination ≠ 0 →
          animate E g.destination delta g
            = { g with curves :=
                  (modifyBack (fun c => { c with C2 := c.C2 + delta, end_ := c.end_ + delta })
                    g.curves) })
      ∧ ∀ o : Nat, E.getName o ≠ E.getName g.source → E.getName o ≠ E.getName g.destination →
          animate E o delta g = g)
    ∧ (g.curves = [] → ∀ o : Nat, animate E o delta g = g) := by
  refine ⟨fun hc hne => ⟨?_, ?_, ?_⟩, ?_⟩
  · have hlen : g.curves.length > 0 := List.length_pos.mpr hc
    by_cases hd : g.destination = 0
    · simp [animate, hlen, hd]
    · simp [animate, hlen, hd, hne]
  · intro hd
    have hlen : g.curves.length > 0 := List.length_pos.mpr hc
    have hne' : ¬ E.getName g.destination = E.getName g.source := fun e => hne e.symm
    simp [animate, hlen, hd, hne, hne', modifyBack_modifyBack]
  · intro o h1 h2
    by_cases hlen : g.curves.length > 0
    · by_cases hd : g.destination = 0
      · simp [animate, hlen, hd, h1]
      · simp [animate, hlen, hd, h1, h2]
    · simp [animate, hlen]
  · intro hc o
    simp [animate, hc]

theorem animate_moves_one_end_witness :
    (sampleInput false).curves ≠ []
    ∧ sampleEnv.getName (sampleInput false).source
        ≠ sampleEnv.getName (sampleInput false).destination
    ∧ animate sampleEnv (sampleInput false).source ⟨2, 1⟩ (sampleInput false)
        = { sampleInput false with
            start := (sampleInput false).start + ⟨2, 1⟩,
            curves := (modifyFront (fun c => { c with C1 := c.C1 + ⟨2, 1⟩ })
              (sampleInput false).curves) } :=
  ⟨by simp [sampleInput], by decide,
    ((animate_moves_one_end sampleEnv (sampleInput false) ⟨2, 1⟩).1
      (by simp [sampleInput]) (by decide)).1⟩

/-- C11 as stated fails for a third object that shares its name with an end
point: the object at address 3 is neither the source (address 1) nor the
destination (address 2) of the input, but has the name of the destination, so
`animate` moves the `end` and the `C2` of the last curve. -/
theorem animate_moves_for_namesake :
    (3 : Nat) ≠ (sampleInput false).source ∧ (3 : Nat) ≠ (sampleInput false).destination
    ∧ sampleEnv.getName 3 = sampleEnv.getName (sampleInput false).destination
    ∧ (animate sampleEnv 3 ⟨1, 1⟩ (sampleInput false)).curves
        = [{ C1 := ⟨1, 2⟩, C2 := ⟨3, 2⟩, end_ := ⟨3, 3⟩ }]
    ∧ (animate sampleEnv 3 ⟨1, 1⟩ (sampleInput false)).curves ≠ (sampleInput false).curves := by
  have h : (animate sampleEnv 3 ⟨1, 1⟩ (sampleInput false)).curves
      = [{ C1 := ⟨1, 2⟩, C2 := ⟨3, 2⟩, end_ := ⟨3, 3⟩ }] := by
    simp [animate, sampleInput, sampleEnv, modifyBack]
    constructor <;> rw [QPointF.ext_iff'] <;> constructor <;>
      first
      | (show (2 : ℚ) + 1 = 3; norm_num)
      | (show (1 : ℚ) + 1 = 2; norm_num)
  refine ⟨by decide, by decide, by decide, h, ?_⟩
  rw [h]
  simp [sampleInput]

/-- The anchors of the moving end point in the arithmetic of `qreal`: what
`animate` does for an input whose source and destination have different names
holds with every rounding `fl` of the additions. -/
theorem animateRounded_moves_one_end {C : Type} (fl : ℚ → ℚ) (E : Env C)
    (g : genericInput C) (delta : QPointF) :
    (g.curves ≠ [] → E.getName g.source ≠ E.getName g.destination →
      animateRounded fl E g.source delta g
          = { g with start := QPointF.plus fl g.start delta,
                     curves := modifyFront
                       (fun c => { c with C1 := QPointF.plus fl c.C1 delta }) g.curves }
      ∧ (g.destination ≠ 0 →
          animateRounded fl E g.destination delta g
            = { g with curves :=
                  (modifyBack (fun c => { c with C2 := QPointF.plus fl c.C2 delta,
                                                 end_ := QPointF.plus fl c.end_ delta })
                    g.curves) })
      ∧ ∀ o : Nat, E.getName o ≠ E.getName g.source → E.getName o ≠ E.getName g.destination →
          animateRounded fl E o delta g = g)
    ∧ (g.curves = [] → ∀ o : Nat, animateRounded fl E o delta g = g) := by
  refine ⟨fun hc hne => ⟨?_, ?_, ?_⟩, ?_⟩
  · have hlen : g.curves.length > 0 := List.length_pos.mpr hc
    by_cases hd : g.destination = 0
    · simp [animateRounded, hlen, hd]
    · simp [animateRounded, hlen, hd, hne]
  · intro hd
    have hlen : g.curves.length > 0 := List.length_pos.mpr hc
    have hne' : ¬ E.getName g.destination = E.getName g.source := fun e => hne e.symm
    simp [animateRounded, hlen, hd, hne, hne', modifyBack_modifyBack]
  · intro o h1 h2
    by_cases hlen : g.curves.length > 0
    · by_cases hd : g.destination = 0
      · simp [animateRounded, hlen, hd, h1]
      · simp [animateRounded, hlen, hd, h1, h2]
    · simp [animateRounded, hlen]
  · intro hc o
    simp [animateRounded, hc]

/-! ## Dragging a control point -/

theorem curveAt_natCast (curves : List bezierCurve) (i : Nat) :
    curveAt curves (i : Int) = curves[i]? := by
  by_cases h : i < curves.length
  · have h' : (0 : Int) ≤ (i : Int) ∧ (i : Int) < (curves.length : Int) :=
      ⟨Int.natCast_nonneg i, by exact_mod_cast h⟩
    simp [curveAt, h']
  · have h' : ¬ ((0 : Int) ≤ (i : Int) ∧ (i : Int) < (curves.length : Int)) := by
      intro hh
      exact h (by exact_mod_cast hh.2)
    have hnone : curves[i]? = none := List.getElem?_eq_none (by omega)
    simp [curveAt, h', hnone]

theorem assignAt_natCast (curves : List bezierCurve) (i : Nat) (f : bezierCurve → bezierCurve)
    (c : bezierCurve) (h : curves[i]? = some c) :
    assignAt curves (i : Int) f = some (curves.set i (f c)) := by
  simp [assignAt, curveAt_natCast, h]

/-- The three assignments of the `p_end` case on a join inside the list. -/
theorem moveJoin_inside (cursor : QPointF) (i : Nat) (curves : List bezierCurve)
    (a b : bezierCurve) (ha : curves[i]? = some a) (hb : curves[i + 1]? = some b) :
    moveJoin cursor (i : Int) curves
      = some ((curves.set (i + 1) { b with C1 := cursor - (a.end_ - b.C1) }).set i
          { a with C2 := cursor - (a.end_ - a.C2), end_ := cursor }) := by
  have hcast : ((i : Int) + 1) = ((i + 1 : Nat) : Int) := by push_cast; rfl
  have hi : i < curves.length := by
    by_contra hn
    rw [List.getElem?_eq_none (by omega)] at ha
    exact Option.noConfusion ha
  have ha₁ : (curves.set (i + 1) { b with C1 := cursor - (a.end_ - b.C1) })[i]? = some a := by
    rw [List.getElem?_set_ne (by omega)]
    exact ha
  have ha₂ : ((curves.set (i + 1) { b with C1 := cursor - (a.end_ - b.C1) }).set i
      { a with C2 := cursor - (a.end_ - a.C2) })[i]?
      = some { a with C2 := cursor - (a.end_ - a.C2) } := by
    exact List.getElem?_set_self (by rw [List.length_set]; exact hi)
  simp only [moveJoin, hcast, curveAt_natCast, ha, hb, Option.bind_eq_bind, Option.some_bind,
    assignAt_natCast _ _ _ _ hb, ha₁, assignAt_natCast _ _ _ _ ha₁,
    assignAt_natCast _ _ _ _ ha₂, List.set_set]

theorem QPointF.sub_sub_cancel_left' (p q r : QPointF) : p - (q - r) - p = r - q := by
  rw [QPointF.ext_iff']
  constructor
  · show p.x - (q.x - r.x) - p.x = r.x - q.x
    ring
  · show p.y - (q.y - r.y) - p.y = r.y - q.y
    ring

/-- Without rounding, `moveSelectedControlPointRounded` is
`moveSelectedControlPoint`. -/
theorem moveSelectedControlPointRounded_id {C : Type} (S : Scene) (xGL yGL : ℚ)
    (g : genericInput C) :
    moveSelectedControlPointRounded id S xGL yGL g = moveSelectedControlPoint S xGL yGL g := rfl

/-- The three assignments of the `p_end` case on a join inside the list, in the
arithmetic of `qreal`. -/
theorem moveJoinRounded_inside (fl : ℚ → ℚ) (cursor : QPointF) (i : Nat)
    (curves : List bezierCurve) (a b : bezierCurve) (ha : curves[i]? = some a)
    (hb : curves[i + 1]? = some b) :
    moveJoinRounded fl cursor (i : Int) curves
      = some ((curves.set (i + 1)
            { b with C1 := QPointF.minus fl cursor (QPointF.minus fl a.end_ b.C1) }).set i
          { a with C2 := QPointF.minus fl cursor (QPointF.minus fl a.end_ a.C2),
                   end_ := cursor }) := by
  have hcast : ((i : Int) + 1) = ((i + 1 : Nat) : Int) := by push_cast; rfl
  have hi : i < curves.length := by
    by_contra hn
    rw [List.getElem?_eq_none (by omega)] at ha
    exact Option.noConfusion ha
  have ha₁ : (curves.set (i + 1)
      { b with C1 := QPointF.minus fl cursor (QPointF.minus fl a.end_ b.C1) })[i]? = some a := by
    rw [List.getElem?_set_ne (by omega)]
    exact ha
  have ha₂ : ((curves.set (i + 1)
      { b with C1 := QPointF.minus fl cursor (QPointF.minus fl a.end_ b.C1) }).set i
      { a with C2 := QPointF.minus fl cursor (QPointF.minus fl a.end_ a.C2) })[i]?
      = some { a with C2 := QPointF.minus fl cursor (QPointF.minus fl a.end_ a.C2) } := by
    exact List.getElem?_set_self (by rw [List.length_set]; exact hi)
  simp only [moveJoinRounded, hcast, curveAt_natCast, ha, hb, Option.bind_eq_bind,
    Option.some_bind, assignAt_natCast _ _ _ _ hb, ha₁, assignAt_natCast _ _ _ _ ha₁,
    assignAt_natCast _ _ _ _ ha₂, List.set_set]

/-- Dragging a join inside the list, in the arithmetic of `qreal`: the call
returns with the two curves at the join replaced. -/
theorem moveSelectedControlPointRounded_join {C : Type} (fl : ℚ → ℚ) (S : Scene)
    (xGL yGL : ℚ) (g : genericInput C) (i : Nat) (a b : bezierCurve)
    (hstart : g.selectedControlPoint.start = false)
    (htype : g.selectedControlPoint.type = .p_end)
    (hind : g.selectedControlPoint.ind = (i : Int))
    (ha : g.curves[i]? = some a) (hb : g.curves[i + 1]? = some b) (a' b' : bezierCurve)
    (ha' : a' = { a with C2 := QPointF.minus fl ⟨xGL, yGL⟩ (QPointF.minus fl a.end_ a.C2),
                         end_ := ⟨xGL, yGL⟩ })
    (hb' : b' = { b with C1 := QPointF.minus fl ⟨xGL, yGL⟩ (QPointF.minus fl a.end_ b.C1) }) :
    moveSelectedControlPointRounded fl S xGL yGL g
      = .done { g with curves := (g.curves.set (i + 1) b').set i a' } := by
  subst ha' hb'
  have hlen : i + 1 < g.curves.length := by
    by_contra hn
    rw [List.getElem?_eq_none (by omega)] at hb
    exact Option.noConfusion hb
  have hne1 : ¬ ((i : Int) = -1) := by omega
  have hnlast : ¬ ((i : Int) = (g.curves.length : Int) - 1) := by omega
  have hj := moveJoinRounded_inside fl ⟨xGL, yGL⟩ i g.curves a b ha hb
  simp [moveSelectedControlPointRounded, hstart, hind, hne1, hnlast, moveOtherRounded, htype, hj]

/-- C13, amended: dragging an interior join moves it to the cursor and sets its
two handles from their old offsets, in the arithmetic of `qreal`. With the
start flag false and the selected control point of type `p_end` at an index
`i` that has a curve after it, and whatever the rounding `fl` of the
arithmetic is, `moveSelectedControlPoint(x, y)` returns; `curves[i].end` is
the cursor; `curves[i].C2` is the rounded difference of the cursor and the
rounded difference of the old `curves[i].end` and the old `curves[i].C2`, and
`curves[i+1].C1` likewise; `start` and every other control point are
unchanged. Where the two subtractions for a handle are exact, as they are in
exact arithmetic, the offset of that handle from `curves[i].end` is what it
was. -/
theorem drag_interior_join {C : Type} (fl : ℚ → ℚ) (S : Scene) (xGL yGL : ℚ)
    (g : genericInput C) (i : Nat) (a b : bezierCurve)
    (hstart : g.selectedControlPoint.start = false)
    (htype : g.selectedControlPoint.type = .p_end)
    (hind : g.selectedControlPoint.ind = (i : Int))
    (ha : g.curves[i]? = some a) (hb : g.curves[i + 1]? = some b) :
    ∃ a' b' : bezierCurve,
      moveSelectedControlPointRounded fl S xGL yGL g
        = .done { g with curves := (g.curves.set (i + 1) b').set i a' }
      ∧ a'.end_ = ⟨xGL, yGL⟩
      ∧ a'.C2 = QPointF.minus fl ⟨xGL, yGL⟩ (QPointF.minus fl a.end_ a.C2)
      ∧ b'.C1 = QPointF.minus fl ⟨xGL, yGL⟩ (QPointF.minus fl a.end_ b.C1)
      ∧ a'.C1 = a.C1 ∧ b'.C2 = b.C2 ∧ b'.end_ = b.end_
      ∧ (QPointF.minus fl a.end_ a.C2 = a.end_ - a.C2 →
          QPointF.minus fl ⟨xGL, yGL⟩ (a.end_ - a.C2) = (⟨xGL, yGL⟩ : QPointF) - (a.end_ - a.C2) →
          a'.C2 - a'.end_ = a.C2 - a.end_)
      ∧ (QPointF.minus fl a.end_ b.C1 = a.end_ - b.C1 →
          QPointF.minus fl ⟨xGL, yGL⟩ (a.end_ - b.C1) = (⟨xGL, yGL⟩ : QPointF) - (a.end_ - b.C1) →
          b'.C1 - a'.end_ = b.C1 - a.end_) := by
  refine ⟨{ a with C2 := QPointF.minus fl ⟨xGL, yGL⟩ (QPointF.minus fl a.end_ a.C2),
                   end_ := ⟨xGL, yGL⟩ },
    { b with C1 := QPointF.minus fl ⟨xGL, yGL⟩ (QPointF.minus fl a.end_ b.C1) },
    moveSelectedControlPointRounded_join fl S xGL yGL g i a b hstart htype hind ha hb _ _
      rfl rfl,
    rfl, rfl, rfl, rfl, rfl, rfl, ?_, ?_⟩
  · intro e1 e2
    show QPointF.minus fl ⟨xGL, yGL⟩ (QPointF.minus fl a.end_ a.C2) - (⟨xGL, yGL⟩ : QPointF)
      = a.C2 - a.end_
    rw [e1, e2]
    exact QPointF.sub_sub_cancel_left' _ _ _
  · intro e1 e2
    show QPointF.minus fl ⟨xGL, yGL⟩ (QPointF.minus fl a.end_ b.C1) - (⟨xGL, yGL⟩ : QPointF)
      = b.C1 - a.end_
    rw [e1, e2]
    exact QPointF.sub_sub_cancel_left' _ _ _

theorem drag_interior_join_witness :
    (sampleDragInput 1 2 { ind := 0, start := false, type := .p_end }).curves[0 + 1]?
      = some { C1 := ⟨2, 1⟩, C2 := ⟨3, 2⟩, end_ := ⟨3, 1⟩ }
    ∧ ∃ a' b' : bezierCurve,
        moveSelectedControlPointRounded roundDouble sampleScene 5 4
            (sampleDragInput 1 2 { ind := 0, start := false, type := .p_end })
          = .done { sampleDragInput 1 2 { ind := 0, start := false, type := .p_end } with
              curves :=
                ((sampleDragInput 1 2 { ind := 0, start := false, type := .p_end }).curves.set
                  (0 + 1) b').set 0 a' }
        ∧ a'.end_ = ⟨5, 4⟩
        ∧ a'.C2 = QPointF.minus roundDouble ⟨5, 4⟩ (QPointF.minus roundDouble ⟨2, 2⟩ ⟨2, 3⟩)
        ∧ b'.C1 = QPointF.minus roundDouble ⟨5, 4⟩ (QPointF.minus roundDouble ⟨2, 2⟩ ⟨2, 1⟩)
        ∧ a'.C1 = ⟨1, 2⟩ ∧ b'.C2 = ⟨3, 2⟩ ∧ b'.end_ = ⟨3, 1⟩
        ∧ a'.C2 - a'.end_ = (⟨2, 3⟩ : QPointF) - ⟨2, 2⟩ :=
  have ⟨a', b', h1, h2, h3, h4, h5, h6, h7, h8, _⟩ :=
    drag_interior_join roundDouble sampleScene 5 4
      (sampleDragInput 1 2 { ind := 0, start := false, type := .p_end }) 0
      { C1 := ⟨1, 2⟩, C2 := ⟨2, 3⟩, end_ := ⟨2, 2⟩ }
      { C1 := ⟨2, 1⟩, C2 := ⟨3, 2⟩, end_ := ⟨3, 1⟩ } rfl rfl rfl rfl rfl
  have e1 : QPointF.minus roundDouble ⟨2, 2⟩ ⟨2, 3⟩ = (⟨2, 2⟩ : QPointF) - ⟨2, 3⟩ := by
    rw [QPointF.ext_iff']
    constructor
    · show roundDouble (2 - 2) = 2 - 2
      rw [show (2 : ℚ) - 2 = 0 by norm_num, roundDouble_zero]
    · show roundDouble (2 - 3) = 2 - 3
      rw [show (2 : ℚ) - 3 = -1 by norm_num, roundDouble_neg_one]
  have e2 : QPointF.minus roundDouble ⟨5, 4⟩ ((⟨2, 2⟩ : QPointF) - ⟨2, 3⟩)
      = (⟨5, 4⟩ : QPointF) - ((⟨2, 2⟩ : QPointF) - ⟨2, 3⟩) := by
    rw [QPointF.ext_iff']
    constructor
    · show roundDouble (5 - (2 - 2)) = 5 - (2 - 2)
      rw [show (5 : ℚ) - (2 - 2) = 5 by norm_num, roundDouble_five]
    · show roundDouble (4 - (2 - 3)) = 4 - (2 - 3)
      rw [show (4 : ℚ) - (2 - 3) = 5 by norm_num, roundDouble_five]
  ⟨rfl, a', b', h1, h2, h3, h4, h5, h6, h7, h8 e1 e2⟩

/-- C13 as stated fails in the arithmetic of `qreal`: the join at `(0,0)` of
`sampleJoinInput`, whose handle `C2` lies at `(1,0)`, is dragged to the cursor
`(2 ^ 53, 0)`. The new handle is the rounded difference of the cursor and
`(-1, 0)`; `2 ^ 53 + 1` is rounded to `2 ^ 53`, so the handle lands on the
join: its offset from the join is `(0,0)` and not the `(1,0)` it was. -/
theorem drag_join_offset_rounded_away :
    sampleJoinInput.selectedControlPoint = { ind := 0, start := false, type := .p_end }
    ∧ sampleJoinInput.curves[0]? = some { C1 := ⟨1, 2⟩, C2 := ⟨1, 0⟩, end_ := ⟨0, 0⟩ }
    ∧ ∃ g' : genericInput Unit, ∃ a' : bezierCurve,
        moveSelectedControlPointRounded roundDouble sampleScene 9007199254740992 0
          sampleJoinInput = .done g'
        ∧ g'.curves[0]? = some a'
        ∧ a'.end_ = ⟨9007199254740992, 0⟩
        ∧ a'.C2 = ⟨9007199254740992, 0⟩
        ∧ a'.C2 - a'.end_ = ⟨0, 0⟩
        ∧ (⟨1, 0⟩ : QPointF) - ⟨0, 0⟩ = ⟨1, 0⟩
        ∧ a'.C2 - a'.end_ ≠ (⟨1, 0⟩ : QPointF) - ⟨0, 0⟩ := by
  have hj := moveSelectedControlPointRounded_join roundDouble sampleScene 9007199254740992 0
    sampleJoinInput 0 { C1 := ⟨1, 2⟩, C2 := ⟨1, 0⟩, end_ := ⟨0, 0⟩ }
    { C1 := ⟨-1, 0⟩, C2 := ⟨3, 2⟩, end_ := ⟨3, 1⟩ } rfl rfl rfl rfl rfl _ _ rfl rfl
  have hinner : QPointF.minus roundDouble ⟨0, 0⟩ ⟨1, 0⟩ = ⟨-1, 0⟩ := by
    rw [QPointF.ext_iff']
    constructor
    · show roundDouble (0 - 1) = -1
      rw [show (0 : ℚ) - 1 = -1 by norm_num, roundDouble_neg_one]
    · show roundDouble (0 - 0) = 0
      rw [show (0 : ℚ) - 0 = 0 by norm_num, roundDouble_zero]
  have houter : QPointF.minus roundDouble ⟨9007199254740992, 0⟩ ⟨-1, 0⟩
      = ⟨9007199254740992, 0⟩ := by
    rw [QPointF.ext_iff']
    constructor
    · show roundDouble (9007199254740992 - -1) = 9007199254740992
      rw [show (9007199254740992 : ℚ) - -1 = 9007199254740993 by norm_num, roundDouble_tie]
    · show roundDouble (0 - 0) = 0
      rw [show (0 : ℚ) - 0 = 0 by norm_num, roundDouble_zero]
  have hzero : (⟨9007199254740992, 0⟩ : QPointF) - ⟨9007199254740992, 0⟩ = ⟨0, 0⟩ := by
    rw [QPointF.ext_iff']
    constructor
    · show (9007199254740992 : ℚ) - 9007199254740992 = 0
      norm_num
    · show (0 : ℚ) - 0 = 0
      norm_num
  have hone : (⟨1, 0⟩ : QPointF) - ⟨0, 0⟩ = ⟨1, 0⟩ := by
    rw [QPointF.ext_iff']
    constructor
    · show (1 : ℚ) - 0 = 1
      norm_num
    · show (0 : ℚ) - 0 = 0
      norm_num
  have hC2 : QPointF.minus roundDouble ⟨9007199254740992, 0⟩
      (QPointF.minus roundDouble ⟨0, 0⟩ ⟨1, 0⟩) = ⟨9007199254740992, 0⟩ := by
    rw [hinner, houter]
  refine ⟨rfl, rfl, _,
    { C1 := ⟨1, 2⟩, C2 := ⟨9007199254740992, 0⟩, end_ := ⟨9007199254740992, 0⟩ },
    hj, ?_, rfl, rfl, hzero, hone, ?_⟩
  · show ((sampleJoinInput.curves.set (0 + 1) _).set 0 _)[0]? = some _
    rw [List.getElem?_set_self (by simp [sampleJoinInput])]
    refine congrArg some ?_
    rw [bezierCurve.mk.injEq]
    exact ⟨rfl, hC2, rfl⟩
  · rw [hzero, hone, Ne, QPointF.ext_iff']
    show ¬ ((0 : ℚ) = 1 ∧ (0 : ℚ) = 0)
    norm_num

theorem assignAt_isSome (curves : List bezierCurve) (i : Int) (f : bezierCurve → bezierCurve)
    (h0 : 0 ≤ i) (h1 : i < (curves.length : Int)) :
    ∃ curves', assignAt curves i f = some curves' := by
  obtain ⟨n, rfl⟩ := Int.eq_ofNat_of_zero_le h0
  have hn : n < curves.length := by exact_mod_cast h1
  exact ⟨_, assignAt_natCast curves n f curves[n] (List.getElem?_eq_getElem hn)⟩

theorem moveOther_isSome (cursor : QPointF) (sel : controlPoint) (curves : List bezierCurve)
    (h0 : 0 ≤ sel.ind) (h1 : sel.ind < (curves.length : Int))
    (hlast : ¬ (sel.ind = (curves.length : Int) - 1 ∧ sel.type = .p_end)) :
    ∃ curves', moveOther cursor sel curves = some curves' := by
  cases ht : sel.type with
  | C1 => simpa [moveOther, ht] using assignAt_isSome curves sel.ind _ h0 h1
  | C2 => simpa [moveOther, ht] using assignAt_isSome curves sel.ind _ h0 h1
  | p_end =>
    obtain ⟨n, hn⟩ := Int.eq_ofNat_of_zero_le h0
    have hne : sel.ind ≠ (curves.length : Int) - 1 := fun e => hlast ⟨e, ht⟩
    have hn1 : n + 1 < curves.length := by
      rw [hn] at h1 hne
      have : n < curves.length := by exact_mod_cast h1
      omega
    have hj := moveJoin_inside cursor n curves curves[n] curves[n + 1]
      (List.getElem?_eq_getElem (by omega)) (List.getElem?_eq_getElem hn1)
    exact ⟨_, by simpa [moveOther, ht, hn] using hj⟩

/-- C20: control-point indexing stays in bounds. With the start flag false and
`0 <= selectedControlPoint.ind < curves.size()`, no access `curves[ind]`,
`curves[ind+1]`, `curves.front()` or `curves.back()` of
`moveSelectedControlPoint` falls outside the curve list; and the `p_end` case
of the switch, which touches `curves[ind+1]`, is entered only with
`ind + 1 < curves.size()`. -/
theorem control_point_in_range {C : Type} (S : Scene) (xGL yGL : ℚ) (g : genericInput C)
    (hstart : g.selectedControlPoint.start = false)
    (h0 : 0 ≤ g.selectedControlPoint.ind)
    (h1 : g.selectedControlPoint.ind < (g.curves.length : Int)) :
    moveSelectedControlPoint S xGL yGL g ≠ .outOfRange
    ∧ (g.selectedControlPoint.type = .p_end →
        ¬ (g.selectedControlPoint.ind = (g.curves.length : Int) - 1
            ∧ g.selectedControlPoint.type = .p_end) →
        g.selectedControlPoint.ind + 1 < (g.curves.length : Int)) := by
  refine ⟨?_, fun ht hlast => ?_⟩
  · have hne1 : g.selectedControlPoint.ind ≠ -1 := by omega
    by_cases hlast : g.selectedControlPoint.ind = (g.curves.length : Int) - 1
        ∧ g.selectedControlPoint.type = .p_end
    · have hpos : g.curves ≠ [] := by
        intro he
        rw [he] at h1
        simp at h1
        omega
      obtain ⟨c, hc⟩ : ∃ c, g.curves.getLast? = some c :=
        ⟨g.curves.getLast hpos, List.getLast?_eq_getLast _ hpos⟩
      simp only [moveSelectedControlPoint, hstart, hne1, hlast, hc]
      simp only [Bool.false_eq_true, if_false, ne_eq, not_false_eq_true, if_true, and_self]
      split_ifs <;> simp
    · obtain ⟨curves', hm⟩ := moveOther_isSome ⟨xGL, yGL⟩ g.selectedControlPoint g.curves
        h0 h1 hlast
      simp [moveSelectedControlPoint, hstart, hne1, hlast, hm]
  · have hne : g.selectedControlPoint.ind ≠ (g.curves.length : Int) - 1 :=
      fun e => hlast ⟨e, ht⟩
    omega

theorem control_point_in_range_witness :
    (0 : Int) ≤ (sampleDragInput 1 2 { ind := 0, start := false, type := .p_end }
        ).selectedControlPoint.ind
    ∧ moveSelectedControlPoint sampleScene 5 4
        (sampleDragInput 1 2 { ind := 0, start := false, type := .p_end }) ≠ .outOfRange :=
  ⟨by decide,
    (control_point_in_range sampleScene 5 4
      (sampleDragInput 1 2 { ind := 0, start := false, type := .p_end }) rfl (by decide)
      (by decide)).1⟩

/-- Dragging the end of the last curve when the source is a population and the
destination is a population: the end is put on the box edge of the destination
towards the point 1000 units from its centre in the direction of the cursor,
and the `C2` handle is re-aimed along that direction. -/
theorem drag_end_population_source {C : Type} (S : Scene) (xGL yGL : ℚ) (g : genericInput C)
    (hstart : g.selectedControlPoint.start = false)
    (htype : g.selectedControlPoint.type = .p_end)
    (hind : g.selectedControlPoint.ind = (g.curves.length : Int) - 1)
    (hc : g.curves ≠ [])
    (hsrc : S.type g.source = .populationObject)
    (hdst : S.type g.destination = .populationObject) :
    moveSelectedControlPoint S xGL yGL g
      = .done { g with curves :=
          (modifyBack
            (fun c =>
              { c with
                C2 := (S.setAngle ⟨S.centre g.destination, (g.curves.getLast hc).C2⟩
                        (S.angle (S.setLength
                          (S.unitVector ⟨S.centre g.destination, ⟨xGL, yGL⟩⟩) 1000))).p2,
                end_ := S.findBoxEdge g.destination
                  (S.setLength (S.unitVector ⟨S.centre g.destination, ⟨xGL, yGL⟩⟩) 1000).p2.x
                  (S.setLength (S.unitVector ⟨S.centre g.destination, ⟨xGL, yGL⟩⟩) 1000).p2.y })
            g.curves) } := by
  have hlen : 0 < g.curves.length := List.length_pos.mpr hc
  have hne1 : ¬ ((g.curves.length : Int) - 1 = -1) := by omega
  have hlast : g.curves.getLast? = some (g.curves.getLast hc) := List.getLast?_eq_getLast _ hc
  simp [moveSelectedControlPoint, hstart, htype, hind, hne1, hsrc, hdst, hlast,
    modifyBack_modifyBack]

/-- C12: evaluation of `moveSelectedControlPoint` on an input from a projection
(address 5) to a population (address 2) whose selected control point is the
end of its last curve: the call returns with the input as it was, the end of
the last curve has not been moved to the box edge of the destination. -/
theorem drag_end_projection_source_unchanged :
    sampleScene.type 5 = .projectionObject ∧ sampleScene.type 2 = .populationObject
    ∧ (sampleDragInput 5 2 { ind := 1, start := false, type := .p_end }).curves.length = 2
    ∧ moveSelectedControlPoint sampleScene 5 1
        (sampleDragInput 5 2 { ind := 1, start := false, type := .p_end })
      = .done (sampleDragInput 5 2 { ind := 1, start := false, type := .p_end }) := by
  refine ⟨by decide, by decide, rfl, ?_⟩
  simp [moveSelectedControlPoint, sampleDragInput, sampleScene]

/-! ## Laying out a new edge -/

theorem modifyBack_append_singleton (f : bezierCurve → bezierCurve) (c : bezierCurve) :
    ∀ l : List bezierCurve, modifyBack f (l ++ [c]) = l ++ [f c]
  | [] => rfl
  | [a] => rfl
  | a :: b :: rest => by
    have ih := modifyBack_append_singleton f c (b :: rest)
    simp only [List.cons_append] at ih ⊢
    rw [modifyBack, ih]

/-- Each of the four adjusting blocks of `add_curves` leaves the end points and
the components of the input alone. -/
theorem layout_blocks_frame {C : Type} (S : Scene) (g : genericInput C) :
    ((layoutFromPopulation S g).source = g.source
      ∧ (layoutFromPopulation S g).destination = g.destination
      ∧ (layoutFromPopulation S g).srcCmpt = g.srcCmpt
      ∧ (layoutFromPopulation S g).dstCmpt = g.dstCmpt)
    ∧ ((layoutToPopulation S g).source = g.source
      ∧ (layoutToPopulation S g).destination = g.destination
      ∧ (layoutToPopulation S g).srcCmpt = g.srcCmpt
      ∧ (layoutToPopulation S g).dstCmpt = g.dstCmpt
      ∧ (layoutToPopulation S g).start = g.start)
    ∧ ((layoutSelfPopulation S g).source = g.source
      ∧ (layoutSelfPopulation S g).destination = g.destination)
    ∧ ((layoutSelfProjection S g).source = g.source
      ∧ (layoutSelfProjection S g).destination = g.destination
      ∧ (layoutSelfProjection S g).start = g.start) := by
  refine ⟨?_, ?_, ?_, ?_⟩
  · unfold layoutFromPopulation
    split_ifs <;> simp
  · unfold layoutToPopulation
    split_ifs <;> simp
  · unfold layoutSelfPopulation
    split_ifs <;> simp
  · unfold layoutSelfProjection
    split_ifs <;> simp

/-- Each of the four adjusting blocks of `add_curves` changes at most the last
curve of the list. -/
theorem layout_blocks_curves {C : Type} (S : Scene) (g : genericInput C)
    (l : List bezierCurve) (c : bezierCurve) (h : g.curves = l ++ [c]) :
    (∃ c', (layoutFromPopulation S g).curves = l ++ [c'])
    ∧ (∃ c', (layoutToPopulation S g).curves = l ++ [c'])
    ∧ (∃ c', (layoutSelfPopulation S g).curves = l ++ [c'])
    ∧ (∃ c', (layoutSelfProjection S g).curves = l ++ [c']) := by
  refine ⟨?_, ?_, ?_, ?_⟩
  · unfold layoutFromPopulation
    split_ifs <;> simp [h, modifyBack_append_singleton]
  · unfold layoutToPopulation
    split_ifs <;> simp [h, modifyBack_append_singleton]
  · unfold layoutSelfPopulation
    split_ifs <;> simp [h, modifyBack_append_singleton]
  · unfold layoutSelfProjection
    split_ifs <;> simp [h, modifyBack_append_singleton]

/-- C14: `add_curves` changes the curve list only by appending one curve. If
the owner of `srcCmpt` or of `dstCmpt` is null, the input is left as it is,
`start` and `curves` included; otherwise the curve list afterwards is the list
before followed by one new curve. -/
theorem add_curves_appends_one {C : Type} (S : Scene) (g : genericInput C) :
    (S.owner g.dstCmpt = 0 ∨ S.owner g.srcCmpt = 0 → add_curves S g = g)
    ∧ (¬ (S.owner g.dstCmpt = 0 ∨ S.owner g.srcCmpt = 0) →
        ∃ c : bezierCurve, (add_curves S g).curves = g.curves ++ [c]) := by
  refine ⟨fun h => by simp [add_curves, h], fun h => ?_⟩
  simp only [add_curves, h, if_false]
  obtain ⟨c₁, h₁⟩ := (layout_blocks_curves S (pushNewCurve S g) g.curves _ rfl).1
  obtain ⟨c₂, h₂⟩ := (layout_blocks_curves S _ g.curves c₁ h₁).2.1
  obtain ⟨c₃, h₃⟩ := (layout_blocks_curves S _ g.curves c₂ h₂).2.2.1
  exact (layout_blocks_curves S _ g.curves c₃ h₃).2.2.2

theorem add_curves_appends_one_witness :
    ¬ (sampleScene.owner (sampleInput false).dstCmpt = 0
        ∨ sampleScene.owner (sampleInput false).srcCmpt = 0)
    ∧ ∃ c : bezierCurve,
        (add_curves sampleScene (sampleInput false)).curves = (sampleInput false).curves ++ [c] :=
  ⟨by decide, (add_curves_appends_one sampleScene (sampleInput false)).2 (by decide)⟩

theorem QPointF.half_add_comm (p q : QPointF) :
    (1 / 2 : ℚ) * (p + q) = (1 / 2 : ℚ) * (q + p) := by
  rw [QPointF.ext_iff']
  constructor
  · show 1 / 2 * (p.x + q.x) = 1 / 2 * (q.x + p.x)
    ring
  · show 1 / 2 * (p.y + q.y) = 1 / 2 * (q.y + p.y)
    ring

theorem layoutSelf_of_ne {C : Type} (S : Scene) (g : genericInput C)
    (h : g.destination ≠ g.source) :
    layoutSelfPopulation S g = g ∧ layoutSelfProjection S g = g := by
  simp [layoutSelfPopulation, layoutSelfProjection, h]

/-- C15: the default layout of a new edge. For an input whose components have
owners, whose source and destination are distinct objects and whose
destination is not a projection that ends in the source, `add_curves` appends
a curve with both `C1` and `C2` at the midpoint of the source location and the
destination location (the locations of the owners of `srcCmpt` and `dstCmpt`,
which the constructor makes source and destination); `start` is the source
location for a source projection and the box edge of the source towards the
destination location for a source population; the `end` of the curve is the
destination location for a destination projection and the box edge of the
destination towards the source location for a destination population. -/
theorem default_layout {C : Type} (S : Scene) (g : genericInput C)
    (hown : ¬ (S.owner g.dstCmpt = 0 ∨ S.owner g.srcCmpt = 0))
    (hdist : g.source ≠ g.destination)
    (hnot : ¬ (S.type g.destination = .projectionObject
                ∧ S.projDestination g.destination = g.source)) :
    ∃ c : bezierCurve,
      (add_curves S g).curves = g.curves ++ [c]
      ∧ c.C1 = (1 / 2 : ℚ) * (S.currentLocation (S.owner g.srcCmpt)
                                + S.currentLocation (S.owner g.dstCmpt))
      ∧ c.C2 = (1 / 2 : ℚ) * (S.currentLocation (S.owner g.srcCmpt)
                                + S.currentLocation (S.owner g.dstCmpt))
      ∧ (S.type g.source = .projectionObject →
          (add_curves S g).start = S.currentLocation (S.owner g.srcCmpt))
      ∧ (S.type g.source = .populationObject →
          (add_curves S g).start
            = S.findBoxEdge g.source (S.currentLocation (S.owner g.dstCmpt)).x
                (S.currentLocation (S.owner g.dstCmpt)).y)
      ∧ (S.type g.destination = .projectionObject →
          c.end_ = S.currentLocation (S.owner g.dstCmpt))
      ∧ (S.type g.destination = .populationObject →
          c.end_
            = S.findBoxEdge g.destination (S.currentLocation (S.owner g.srcCmpt)).x
                (S.currentLocation (S.owner g.srcCmpt)).y) := by
  have hcomm := QPointF.half_add_comm (S.currentLocation (S.owner g.dstCmpt))
    (S.currentLocation (S.owner g.srcCmpt))
  have hfr := @layout_blocks_frame C S
  have hd₂ : (layoutToPopulation S (layoutFromPopulation S (pushNewCurve S g))).destination
      ≠ (layoutToPopulation S (layoutFromPopulation S (pushNewCurve S g))).source := by
    rw [(hfr _).2.1.1, (hfr _).2.1.2.1, (hfr _).1.1, (hfr _).1.2.1]
    exact fun e => hdist e.symm
  simp only [add_curves, hown, if_false, (layoutSelf_of_ne S _ hd₂).1,
    (layoutSelf_of_ne S _ hd₂).2]
  refine ⟨{ C1 := (1 / 2 : ℚ) * (S.currentLocation (S.owner g.dstCmpt)
                                  + S.currentLocation (S.owner g.srcCmpt)),
            C2 := (1 / 2 : ℚ) * (S.currentLocation (S.owner g.dstCmpt)
                                  + S.currentLocation (S.owner g.srcCmpt)),
            end_ := if S.type g.destination = .populationObject then
                S.findBoxEdge g.destination (S.currentLocation (S.owner g.srcCmpt)).x
                  (S.currentLocation (S.owner g.srcCmpt)).y
              else S.currentLocation (S.owner g.dstCmpt) }, ?_, hcomm, hcomm, ?_, ?_, ?_, ?_⟩
  · by_cases hs : S.type g.source = .populationObject <;>
      by_cases hd : S.type g.destination = .populationObject <;>
      simp [layoutToPopulation, layoutFromPopulation, pushNewCurve, hs, hd, hnot,
        modifyBack_append_singleton]
  · intro hs
    have hs' : ¬ S.type g.source = .populationObject := by rw [hs]; decide
    by_cases hd : S.type g.destination = .populationObject <;>
      simp [layoutToPopulation, layoutFromPopulation, pushNewCurve, hs', hd]
  · intro hs
    by_cases hd : S.type g.destination = .populationObject <;>
      simp [layoutToPopulation, layoutFromPopulation, pushNewCurve, hs, hd, hnot]
  · intro hd
    have hd' : ¬ S.type g.destination = .populationObject := by rw [hd]; decide
    simp [hd']
  · intro hd
    simp [hd]

theorem default_layout_witness :
    (sampleInput false).source ≠ (sampleInput false).destination
    ∧ sampleScene.type (sampleInput false).source = .populationObject
    ∧ (add_curves sampleScene (sampleInput false)).start
        = sampleScene.findBoxEdge (sampleInput false).source
            (sampleScene.currentLocation (sampleScene.owner (sampleInput false).dstCmpt)).x
            (sampleScene.currentLocation (sampleScene.owner (sampleInput false).dstCmpt)).y :=
  ⟨by decide, by decide,
    (default_layout sampleScene (sampleInput false) (by decide) (by decide) (by decide)).elim
      (fun _ h => h.2.2.2.2.1 (by decide))⟩

/-! ## The cursor offset -/

/-- One round of the loop over the children of a `curve` element. -/
theorem readVals_cons {C : Type} (E : Env C) (cursorPos : cursorType) (v : QDomNode)
    (rest : List QDomNode) (k : bezierCurve) :
    ∃ k' : bezierCurve,
      readVals E cursorPos (v :: rest) k = readVals E cursorPos rest k'
      ∧ k'.C1 = (if v.tag = "C1" then
            ⟨E.toFloat (v.attribute "xpos" "") + cursorPos.x,
             E.toFloat (v.attribute "ypos" "") + cursorPos.y⟩
          else k.C1)
      ∧ k'.C2 = (if v.tag = "C2" then
            ⟨E.toFloat (v.attribute "xpos" "") + cursorPos.x,
             E.toFloat (v.attribute "ypos" "") + cursorPos.y⟩
          else k.C2)
      ∧ k'.end_ = (if v.tag = "end" then
            ⟨E.toFloat (v.attribute "xpos" "") + cursorPos.x,
             E.toFloat (v.attribute "ypos" "") + cursorPos.y⟩
          else k.end_) := by
  refine ⟨_, rfl, ?_, ?_, ?_⟩
  · split_ifs <;> rfl
  · split_ifs <;> rfl
  · split_ifs <;> rfl

theorem translateIf_step (b : Bool) (tagged : Prop) [Decidable tagged] (cursorPos : cursorType)
    (t u : ℚ) (pc p0 : QPointF) (h : pc = translateIf b cursorPos p0) :
    (if tagged then (⟨t + cursorPos.x, u + cursorPos.y⟩ : QPointF) else pc)
      = translateIf (b || decide tagged) cursorPos
          (if tagged then (⟨t + (0 : ℚ), u + (0 : ℚ)⟩ : QPointF) else p0) := by
  by_cases ht : tagged
  · simp [ht, translateIf]
  · simp [ht, h]

/-- The loop over the children of a `curve` element, with a cursor offset and
without: a point is the one read without offset, moved by the offset if a
child sets it. -/
theorem readVals_translate {C : Type} (E : Env C) (cursorPos : cursorType) :
    ∀ (vals : List QDomNode) (kc k0 : bezierCurve) (b1 b2 b3 : Bool),
      kc.C1 = translateIf b1 cursorPos k0.C1 → kc.C2 = translateIf b2 cursorPos k0.C2 →
      kc.end_ = translateIf b3 cursorPos k0.end_ →
      (readVals E cursorPos vals kc).C1
          = translateIf (b1 || hasChild "C1" vals) cursorPos (readVals E ⟨0, 0⟩ vals k0).C1
      ∧ (readVals E cursorPos vals kc).C2
          = translateIf (b2 || hasChild "C2" vals) cursorPos (readVals E ⟨0, 0⟩ vals k0).C2
      ∧ (readVals E cursorPos vals kc).end_
          = translateIf (b3 || hasChild "end" vals) cursorPos (readVals E ⟨0, 0⟩ vals k0).end_
  | [], kc, k0, b1, b2, b3, h1, h2, h3 => by
    simpa [readVals, hasChild] using ⟨h1, h2, h3⟩
  | v :: rest, kc, k0, b1, b2, b3, h1, h2, h3 => by
    obtain ⟨kc', ec, c1, c2, c3⟩ := readVals_cons E cursorPos v rest kc
    obtain ⟨k0', e0, z1, z2, z3⟩ := readVals_cons E ⟨0, 0⟩ v rest k0
    have ih := readVals_translate E cursorPos rest kc' k0'
      (b1 || decide (v.tag = "C1")) (b2 || decide (v.tag = "C2")) (b3 || decide (v.tag = "end"))
      (by rw [c1, z1]; exact translateIf_step b1 _ cursorPos _ _ _ _ h1)
      (by rw [c2, z2]; exact translateIf_step b2 _ cursorPos _ _ _ _ h2)
      (by rw [c3, z3]; exact translateIf_step b3 _ cursorPos _ _ _ _ h3)
    rw [ec, e0]
    simpa only [hasChild, Bool.or_assoc] using ih

theorem readEdges_eq_append {C : Type} (E : Env C) (cursorPos : cursorType) :
    ∀ (edges : List QDomNode) (acc : List bezierCurve),
      readEdges E cursorPos edges acc
        = acc ++ edges.map (fun e => readVals E cursorPos e.children {})
  | [], acc => by simp [readEdges]
  | e :: rest, acc => by
    simp [readEdges, readEdges_eq_append E cursorPos rest]

/-- The curves after the new-format loop: those before, followed by one curve
for every `curve` element below a `curves` child. -/
theorem readMetaData_curves_eq {C : Type} (E : Env C) (cursorPos : cursorType) :
    ∀ (children : List QDomNode) (g : genericInput C),
      (readMetaData E cursorPos children g).curves
        = g.curves ++ (loadedEdges children).map (fun e => readVals E cursorPos e.children {})
  | [], g => by simp [readMetaData, loadedEdges]
  | n :: rest, g => by
    obtain ⟨g', e, _, hc⟩ := readMetaData_cons E cursorPos n rest g
    rw [e, readMetaData_curves_eq E cursorPos rest g', hc]
    by_cases ht : n.tag = "curves"
    · simp [ht, loadedEdges, readEdges_eq_append]
    · simp [ht, loadedEdges]

/-- The start point after the new-format loop, with a cursor offset and
without. -/
theorem readMetaData_start_translate {C : Type} (E : Env C) (cursorPos : cursorType) :
    ∀ (children : List QDomNode) (gc g0 : genericInput C) (b : Bool),
      gc.start = translateIf b cursorPos g0.start →
      (readMetaData E cursorPos children gc).start
        = translateIf (b || hasChild "start" children) cursorPos
            (readMetaData E ⟨0, 0⟩ children g0).start
  | [], gc, g0, b, h => by simpa [readMetaData, hasChild] using h
  | n :: rest, gc, g0, b, h => by
    obtain ⟨gc', ec, sc, _⟩ := readMetaData_cons E cursorPos n rest gc
    obtain ⟨g0', e0, s0, _⟩ := readMetaData_cons E ⟨0, 0⟩ n rest g0
    have ih := readMetaData_start_translate E cursorPos rest gc' g0'
      (b || decide (n.tag = "start"))
      (by rw [sc, s0]; exact translateIf_step b _ cursorPos _ _ _ _ h)
    rw [ec, e0]
    simpa only [hasChild, Bool.or_assoc] using ih

theorem translateCurve_readVals {C : Type} (E : Env C) (cursorPos : cursorType)
    (e : QDomNode) :
    readVals E cursorPos e.children {}
      = translateCurve cursorPos e (readVals E ⟨0, 0⟩ e.children {}) := by
  obtain ⟨h1, h2, h3⟩ := readVals_translate E cursorPos e.children {} {} false false false
    (by simp [translateIf]) (by simp [translateIf]) (by simp [translateIf])
  simp only [Bool.false_or] at h1 h2 h3
  cases hr : readVals E cursorPos e.children {} with
  | mk a1 a2 a3 =>
    rw [hr] at h1 h2 h3
    simp only at h1 h2 h3
    simp [translateCurve, h1, h2, h3]

theorem zipWith_same {α β : Type} (f : α → α → β) :
    ∀ l : List α, List.zipWith f l l = l.map (fun a => f a a)
  | [] => rfl
  | a :: l => by simp [zipWith_same f l]

/-- The geometry after the new-format loop with a cursor offset, in terms of
the geometry after the loop without offset. -/
theorem readMetaData_translate {C : Type} (E : Env C) (cursorPos : cursorType)
    (children : List QDomNode) (g : genericInput C) :
    (readMetaData E cursorPos children g).start
        = translateIf (hasChild "start" children) cursorPos
            (readMetaData E ⟨0, 0⟩ children g).start
    ∧ (readMetaData E cursorPos children g).curves
        = g.curves ++ List.zipWith (translateCurve cursorPos) (loadedEdges children)
            ((readMetaData E ⟨0, 0⟩ children g).curves.drop g.curves.length) := by
  constructor
  · have h := readMetaData_start_translate E cursorPos children g g false
      (by simp [translateIf])
    simpa using h
  · rw [readMetaData_curves_eq E cursorPos, readMetaData_curves_eq E ⟨0, 0⟩]
    simp only [List.drop_left, List.zipWith_map_right, zipWith_same]
    congr 1
    apply List.map_congr_left
    intro e _
    exact translateCurve_readVals E cursorPos e

/-- The new-format reader runs its loop over `loadedChildren`, on the input
with its stored annotation extended. -/
theorem read_meta_data_loaded {C : Type} (E : Env C) (cursorPos : cursorType)
    (g : genericInput C) (domMeta : QDomNode) (hp : g.projInput = false) :
    ∃ a : String, (read_meta_data E domMeta cursorPos g).1
      = readMetaData E cursorPos (loadedChildren domMeta) { g with annotation := a } := by
  cases hsc : elementsByTagName "SpineCreator" domMeta with
  | nil =>
    simp only [read_meta_data, hp, hsc, loadedChildren]
    exact ⟨_, rfl⟩
  | cons sc rest =>
    cases rest with
    | nil =>
      simp only [read_meta_data, hp, hsc, loadedChildren, List.length_singleton, if_true,
        List.head?_cons, Option.toList_some, Bool.false_eq_true, if_false]
      exact ⟨_, rfl⟩
    | cons sc' rest' =>
      have hlen : ¬ ((sc :: sc' :: rest').length = 1) := by simp
      simp only [read_meta_data, hp, hsc, loadedChildren, hlen, Bool.false_eq_true, if_false]
      exact ⟨_, rfl⟩

/-- The old-format loop over the nodes of the document runs the loop over the
children of the first matching node. -/
theorem legacyNodes_loaded {C : Type} (S : Scene) (E : Env C) (cursorPos : cursorType)
    (g : genericInput C) :
    ∀ nodes : List QDomNode,
      (legacyNodes S E cursorPos nodes g).andThen (fun r => .done r.1)
        = legacyMetaData S E cursorPos (legacyLoadedChildren E g nodes) g
  | [] => by simp [legacyNodes, legacyLoadedChildren, legacyMetaData, Outcome.andThen]
  | n :: rest => by
    by_cases hm : legacyMatch E g n = true
    · simp only [legacyNodes, legacyLoadedChildren, hm, if_true]
      cases legacyMetaData S E cursorPos n.children g <;> rfl
    · have ih := legacyNodes_loaded S E cursorPos g rest
      simp only [legacyNodes, legacyLoadedChildren, hm, Bool.false_eq_true, if_false, ← ih]
      cases legacyNodes S E cursorPos rest g <;> rfl

theorem read_meta_data_legacy_loaded {C : Type} (S : Scene) (E : Env C)
    (cursorPos : cursorType) (g : genericInput C) (doc : QDomNode) (hp : g.projInput = false) :
    (read_meta_data_legacy S E doc cursorPos g).andThen (fun r => .done r.1)
      = legacyMetaData S E cursorPos (legacyLoadedChildren E g doc.children) g := by
  cases doc with
  | element t as cs =>
    have h := legacyNodes_loaded S E cursorPos g cs
    simp only [read_meta_data_legacy, hp, QDomNode.children, Bool.false_eq_true, if_false, ← h]
    cases legacyNodes S E cursorPos cs g <;> rfl
  | text d =>
    simp [read_meta_data_legacy, hp, QDomNode.children, legacyLoadedChildren, legacyMetaData,
      Outcome.andThen]

/-- C16, amended: loading applies the cursor offset to every loaded
coordinate. For an input that is not projection specific, every metadata
element and every cursor offset `c`, and for either reader: the start point
after reading with offset `c` is the start point after reading with offset
`(0,0)`, moved by `c` if the metadata has a `start` element and the same if it
has none; the curves the input had stay in front, and every curve appended
with offset `c` is the curve appended with offset `(0,0)` with each of `C1`,
`C2` and `end` moved by `c` if its `curve` element has the child of that name,
and the same if it has not. The old-format reader ends the run at a failed
cast with offset `c` exactly when it does so with offset `(0,0)`, and this
holds of it when it returns. -/
theorem cursor_offset_translates {C : Type} (E : Env C) (cursorPos : cursorType)
    (g : genericInput C) (hp : g.projInput = false) :
    (∀ domMeta : QDomNode,
      (read_meta_data E domMeta cursorPos g).1.start
          = translateIf (hasChild "start" (loadedChildren domMeta)) cursorPos
              (read_meta_data E domMeta ⟨0, 0⟩ g).1.start
      ∧ (read_meta_data E domMeta cursorPos g).1.curves
          = g.curves ++ List.zipWith (translateCurve cursorPos)
              (loadedEdges (loadedChildren domMeta))
              ((read_meta_data E domMeta ⟨0, 0⟩ g).1.curves.drop g.curves.length))
    ∧ (∀ (S : Scene) (doc : QDomNode),
      (read_meta_data_legacy S E doc cursorPos g = .badCast
        ∧ read_meta_data_legacy S E doc ⟨0, 0⟩ g = .badCast)
      ∨ ∃ r r₀ : genericInput C × QDomNode,
        read_meta_data_legacy S E doc cursorPos g = .done r
        ∧ read_meta_data_legacy S E doc ⟨0, 0⟩ g = .done r₀
        ∧ r.1.start
          = translateIf (hasChild "start" (legacyLoadedChildren E g doc.children)) cursorPos
              r₀.1.start
        ∧ r.1.curves
          = g.curves ++ List.zipWith (translateCurve cursorPos)
              (loadedEdges (legacyLoadedChildren E g doc.children))
              (r₀.1.curves.drop g.curves.length)) := by
  constructor
  · intro domMeta
    obtain ⟨a, hc⟩ := read_meta_data_loaded E cursorPos g domMeta hp
    obtain ⟨a0, h0⟩ := read_meta_data_loaded E ⟨0, 0⟩ g domMeta hp
    have t := readMetaData_translate E cursorPos (loadedChildren domMeta) g
    have fc := readMetaData_filter E cursorPos (loadedChildren domMeta)
      { g with annotation := a } g rfl rfl
    have fg := readMetaData_filter E cursorPos (loadedChildren domMeta) g g rfl rfl
    have f0 := readMetaData_filter E ⟨0, 0⟩ (loadedChildren domMeta)
      { g with annotation := a0 } g rfl rfl
    have g0 := readMetaData_filter E ⟨0, 0⟩ (loadedChildren domMeta) g g rfl rfl
    rw [hc, h0, fc.1, fc.2, f0.1, f0.2, ← fg.1, ← fg.2, ← g0.1, ← g0.2]
    exact t
  · intro S doc
    have t := readMetaData_translate E cursorPos (legacyLoadedChildren E g doc.children) g
    have oc := legacyMetaData_outcome S E cursorPos (legacyLoadedChildren E g doc.children)
      g g rfl rfl
    have o0 := legacyMetaData_outcome S E ⟨0, 0⟩ (legacyLoadedChildren E g doc.children)
      g g rfl rfl
    have lc := read_meta_data_legacy_loaded S E cursorPos g doc hp
    have l0 := read_meta_data_legacy_loaded S E ⟨0, 0⟩ g doc hp
    by_cases hf : legacyCastFails S E g (legacyLoadedChildren E g doc.children) = true
    · left
      rw [oc.1 hf] at lc
      rw [o0.1 hf] at l0
      constructor
      · cases hr : read_meta_data_legacy S E doc cursorPos g with
        | done r => rw [hr] at lc; exact Outcome.noConfusion lc
        | badCast => rfl
        | outOfRange => rw [hr] at lc; exact Outcome.noConfusion lc
      · cases hr : read_meta_data_legacy S E doc ⟨0, 0⟩ g with
        | done r => rw [hr] at l0; exact Outcome.noConfusion l0
        | badCast => rfl
        | outOfRange => rw [hr] at l0; exact Outcome.noConfusion l0
    · right
      have hf' := (Bool.not_eq_true _).mp hf
      obtain ⟨x, hx, xs, xc⟩ := oc.2 hf'
      obtain ⟨x₀, hx₀, xs₀, xc₀⟩ := o0.2 hf'
      rw [hx] at lc
      rw [hx₀] at l0
      obtain ⟨r, hr, er⟩ := (Outcome.andThen_eq_done _ _ _).mp lc
      obtain ⟨r₀, hr₀, er₀⟩ := (Outcome.andThen_eq_done _ _ _).mp l0
      simp only [Outcome.done.injEq] at er er₀
      refine ⟨r, r₀, hr, hr₀, ?_, ?_⟩
      · rw [er, er₀, xs, xs₀]
        exact t.1
      · rw [er, er₀, xc, xc₀]
        exact t.2

theorem cursor_offset_translates_witness :
    (sampleInput false).projInput = false
    ∧ (read_meta_data sampleEnv sampleAnnotationNode ⟨1, 1⟩ (sampleInput false)).1.start
        = translateIf (hasChild "start" (loadedChildren sampleAnnotationNode)) ⟨1, 1⟩
            (read_meta_data sampleEnv sampleAnnotationNode ⟨0, 0⟩ (sampleInput false)).1.start
    ∧ hasChild "start" (loadedChildren sampleAnnotationNode) = true :=
  ⟨rfl, ((cursor_offset_translates sampleEnv ⟨1, 1⟩ (sampleInput false) rfl).1
      sampleAnnotationNode).1, by decide⟩

/-- C16 as stated fails for metadata that does not set every point: the
annotation read here has no `start` element and its only curve has a `C1`
child and nothing else. With cursor offset `(1,1)` the start point and the
`C2` and `end` of the appended curve are what they are with offset `(0,0)`,
not these values moved by `(1,1)`; only `C1` is moved. -/
theorem cursor_offset_not_applied :
    (read_meta_data sampleEnv samplePartialNode ⟨0, 0⟩ (sampleInput false)).1.start = ⟨1, 1⟩
    ∧ (read_meta_data sampleEnv samplePartialNode ⟨1, 1⟩ (sampleInput false)).1.start = ⟨1, 1⟩
    ∧ (read_meta_data sampleEnv samplePartialNode ⟨0, 0⟩ (sampleInput false)).1.curves
        = [{ C1 := ⟨1, 2⟩, C2 := ⟨2, 1⟩, end_ := ⟨2, 2⟩ },
           { C1 := ⟨1, 2⟩, C2 := ⟨0, 0⟩, end_ := ⟨0, 0⟩ }]
    ∧ (read_meta_data sampleEnv samplePartialNode ⟨1, 1⟩ (sampleInput false)).1.curves
        = [{ C1 := ⟨1, 2⟩, C2 := ⟨2, 1⟩, end_ := ⟨2, 2⟩ },
           { C1 := ⟨2, 3⟩, C2 := ⟨0, 0⟩, end_ := ⟨0, 0⟩ }]
    ∧ (read_meta_data sampleEnv samplePartialNode ⟨1, 1⟩ (sampleInput false)).1.start
        ≠ (read_meta_data sampleEnv samplePartialNode ⟨0, 0⟩ (sampleInput false)).1.start
            + ⟨1, 1⟩ := by
  have h0 : (read_meta_data sampleEnv samplePartialNode ⟨0, 0⟩ (sampleInput false)).1.start
      = ⟨1, 1⟩ := rfl
  have h1 : (read_meta_data sampleEnv samplePartialNode ⟨1, 1⟩ (sampleInput false)).1.start
      = ⟨1, 1⟩ := rfl
  refine ⟨h0, h1, ?_, ?_, ?_⟩
  · simp [read_meta_data, samplePartialNode, sampleInput, sampleEnv, elementsByTagName,
      elementsIn, QDomNode.tag, QDomNode.children, readMetaData, readEdges, readVals,
      QDomNode.attribute, lookupAttr]
  · simp [read_meta_data, samplePartialNode, sampleInput, sampleEnv, elementsByTagName,
      elementsIn, QDomNode.tag, QDomNode.children, readMetaData, readEdges, readVals,
      QDomNode.attribute, lookupAttr]
    norm_num
  · rw [h0, h1, Ne, QPointF.ext_iff']
    show ¬ ((1 : ℚ) = 1 + 1 ∧ (1 : ℚ) = 1 + 1)
    norm_num

/-! ## Drawing -/

/-- C17: `draw` leaves the pen of the painter as it found it. For every draw
style, every `GLscale` and every curve list, the pen after `draw` is the pen on
entry; and with an empty curve list or with `layersDrawStyle` no path or fill
operation is issued. -/
theorem draw_restores_pen {C Col : Type} (S : Scene) (K : Canvas C Col)
    (painter : QPainter Col) (GLscale viewX viewY : ℚ) (width height : Int)
    (style : drawStyle) (g : genericInput C) :
    (draw S K painter GLscale viewX viewY width height style g).pen = painter.pen
    ∧ (g.curves = [] ∨ style = .layersDrawStyle →
        (draw S K painter GLscale viewX viewY width height style g).ops = painter.ops) := by
  constructor
  · by_cases hlen : g.curves.length > 0
    · cases style <;> simp [draw, hlen, QPainter.setPen, QPainter.drawPath, QPainter.fillPath]
    · simp [draw, hlen]
  · rintro (h | h)
    · simp [draw, h]
    · subst h
      by_cases hlen : g.curves.length > 0
      · simp [draw, hlen]
      · simp [draw, hlen]

theorem draw_restores_pen_witness :
    (draw sampleScene sampleCanvas samplePainter 100 0 0 640 480 .standardDrawStyle
        (sampleInput false)).pen = samplePainter.pen
    ∧ (draw sampleScene sampleCanvas samplePainter 100 0 0 640 480 .layersDrawStyle
        (sampleInput false)).ops = samplePainter.ops :=
  ⟨(draw_restores_pen sampleScene sampleCanvas samplePainter 100 0 0 640 480
      .standardDrawStyle (sampleInput false)).1,
    (draw_restores_pen sampleScene sampleCanvas samplePainter 100 0 0 640 480
      .layersDrawStyle (sampleInput false)).2 (Or.inr rfl)⟩

theorem drawnPathStart_append_draw {Col : Type} (ops : List (PaintOp Col)) (p : QPointF)
    (path : List PathElement) (pen : QPen Col) :
    drawnPathStart (ops ++ [.drawPath (.moveTo p :: path) pen]) = some p := by
  induction ops with
  | nil => simp [drawnPathStart]
  | cons op rest ih => simp [drawnPathStart, ih]

theorem drawnPathStart_append_two {Col : Type} (ops : List (PaintOp Col)) (op : PaintOp Col)
    (p : QPointF) (path : List PathElement) (pen : QPen Col) :
    drawnPathStart (ops ++ [op, .drawPath (.moveTo p :: path) pen]) = some p := by
  have h := drawnPathStart_append_draw (ops ++ [op]) p path pen
  simpa using h

/-- The path of the spike-source and microcircuit styles starts at the
transformed local `start` as the destination block leaves it. -/
theorem draw_spike_start {C Col : Type} (S : Scene) (K : Canvas C Col)
    (painter : QPainter Col) (GLscale viewX viewY : ℚ) (width height : Int)
    (style : drawStyle) (g : genericInput C) (hc : g.curves ≠ [])
    (hs : style = .spikeSourceDrawStyle ∨ style = .microcircuitDrawStyle) :
    drawnPathStart (draw S K painter GLscale viewX viewY width height style g).ops
      = some (K.transformPoint GLscale viewX viewY width height
          (spikeEnds S g (spikeStart S g)).1) := by
  have hlen : g.curves.length > 0 := List.length_pos.mpr hc
  rcases hs with h | h <;> subst h <;>
    simp [draw, hlen, QPainter.setPen, QPainter.drawPath, QPainter.fillPath,
      drawnPathStart_append_two]

/-- C19: evaluation of `draw` in `spikeSourceDrawStyle` on one input in two
scenes that differ in the destination object only, a population in the first
and a projection without curves in the second: the path starts at the
transformed point `(1, 8/5)` near the source in the first scene and at the
transformed point `(0,0)` in the second. -/
theorem draw_start_depends_on_destination :
    spikeStart sampleScene (sampleDragInput 1 2 {}) = ⟨1, 8 / 5⟩
    ∧ spikeStart sampleSceneProjection (sampleDragInput 1 2 {}) = ⟨1, 8 / 5⟩
    ∧ drawnPathStart (draw sampleScene sampleCanvas samplePainter 100 0 0 640 480
          .spikeSourceDrawStyle (sampleDragInput 1 2 {})).ops
        = some (sampleCanvas.transformPoint 100 0 0 640 480 ⟨1, 8 / 5⟩)
    ∧ drawnPathStart (draw sampleSceneProjection sampleCanvas samplePainter 100 0 0 640 480
          .spikeSourceDrawStyle (sampleDragInput 1 2 {})).ops
        = some (sampleCanvas.transformPoint 100 0 0 640 480 ⟨0, 0⟩)
    ∧ sampleCanvas.transformPoint 100 0 0 640 480 ⟨1, 8 / 5⟩
        ≠ sampleCanvas.transformPoint 100 0 0 640 480 ⟨0, 0⟩ := by
  have hc : (sampleDragInput 1 2 {}).curves ≠ [] := by simp [sampleDragInput]
  have s1 : spikeStart sampleScene (sampleDragInput 1 2 {}) = ⟨1, 8 / 5⟩ := by
    simp [spikeStart, sampleDragInput, sampleScene, frontC1]
    norm_num
  have s2 : spikeStart sampleSceneProjection (sampleDragInput 1 2 {}) = ⟨1, 8 / 5⟩ := by
    simp [spikeStart, sampleDragInput, sampleSceneProjection, sampleScene, frontC1]
    norm_num
  have e1 : (spikeEnds sampleScene (sampleDragInput 1 2 {}) ⟨1, 8 / 5⟩).1 = ⟨1, 8 / 5⟩ := by
    simp [spikeEnds, sampleDragInput, sampleScene]
  have e2 : (spikeEnds sampleSceneProjection (sampleDragInput 1 2 {}) ⟨1, 8 / 5⟩).1
      = ⟨0, 0⟩ := by
    simp [spikeEnds, sampleDragInput, sampleSceneProjection, sampleScene]
  refine ⟨s1, s2, ?_, ?_, ?_⟩
  · rw [draw_spike_start _ _ _ _ _ _ _ _ _ _ hc (Or.inl rfl), s1, e1]
  · rw [draw_spike_start _ _ _ _ _ _ _ _ _ _ hc (Or.inl rfl), s2, e2]
  · simp [sampleCanvas]

/-! ## Stripping the old wrapper -/

/-- Taking out a single character is filtering it out. -/
theorem removeAll_singleton (c : Char) :
    ∀ s : List Char, removeAll [c] 0 s = s.filter (fun x => !decide (x = c))
  | [] => rfl
  | x :: xs => by
    by_cases h : x = c
    · subst h
      simp [removeAll, List.isPrefixOf, removeAll_singleton x xs]
    · have h' : ¬ c = x := fun e => h e.symm
      simp [removeAll, List.isPrefixOf, h, h', removeAll_singleton c xs]

/-- Characters that are still to be dropped are dropped. -/
theorem removeAll_skip (before : List Char) :
    ∀ (xs rest : List Char), removeAll before xs.length (xs ++ rest) = removeAll before 0 rest
  | [], rest => by simp
  | x :: xs, rest => by
    simp only [List.length_cons, List.cons_append, removeAll]
    exact removeAll_skip before xs rest

/-- A text without an opening bracket is passed over when a tag is taken out. -/
theorem removeAll_tag_text (b : List Char) :
    ∀ (cs rest : List Char), '<' ∉ cs →
      removeAll ('<' :: (b ++ ['>'])) 0 (cs ++ rest)
        = cs ++ removeAll ('<' :: (b ++ ['>'])) 0 rest
  | [], rest, _ => by simp
  | c :: cs, rest, h => by
    have hc : ¬ '<' = c := fun e => h (List.mem_cons.mpr (Or.inl e))
    have hcs : '<' ∉ cs := fun hm => h (List.mem_cons_of_mem _ hm)
    simp [removeAll, List.isPrefixOf, hc, removeAll_tag_text b cs rest hcs]

/-- A body followed by a closing bracket begins a text that begins with a tag
exactly if it is the body of that tag. -/
theorem isPrefixOf_body (rest : List Char) :
    ∀ (b body : List Char), '>' ∉ b → '>' ∉ body →
      (b ++ ['>']).isPrefixOf (body ++ '>' :: rest) = decide (body = b)
  | [], [], _, _ => by simp [List.isPrefixOf]
  | [], y :: body, _, hy => by
    have h : ¬ '>' = y := fun e => hy (List.mem_cons.mpr (Or.inl e))
    simp [List.isPrefixOf, h]
  | x :: b, [], hx, _ => by
    have h : ¬ x = '>' := fun e => hx (by simp [e])
    simp [List.isPrefixOf, h]
  | x :: b, y :: body, hx, hy => by
    have ih := isPrefixOf_body rest b body (fun hm => hx (List.mem_cons_of_mem _ hm))
      (fun hm => hy (List.mem_cons_of_mem _ hm))
    have e : ((x :: b) ++ ['>']).isPrefixOf ((y :: body) ++ '>' :: rest)
        = (x == y && (b ++ ['>']).isPrefixOf (body ++ '>' :: rest)) := rfl
    rw [e, ih]
    by_cases hxy : x = y
    · subst hxy
      by_cases hb : body = b <;> simp [hb]
    · have hyx : ¬ y = x := fun e => hxy e.symm
      simp [hxy, hyx]

/-- Taking out a tag from a text of paired stretches takes out the stretches
that are this tag and leaves the others. -/
theorem removeAll_renderAll (b : List Char) (hb : '>' ∉ b) :
    ∀ ps : List Piece, (∀ p ∈ ps, p.plain) →
      removeAll ('<' :: (b ++ ['>'])) 0 (renderAll ps)
        = renderAll (ps.filter (fun p => !decide (p = Piece.tag b)))
  | [], _ => by simp [renderAll, removeAll]
  | .text cs :: ps, h => by
    have hp : (Piece.text cs).plain := h _ (List.mem_cons_self _ _)
    have ih := removeAll_renderAll b hb ps (fun p hm => h p (List.mem_cons_of_mem _ hm))
    simp only [renderAll, Piece.render, List.filter_cons]
    rw [removeAll_tag_text b cs _ hp.1, ih]
  | .tag body :: ps, h => by
    have hp : (Piece.tag body).plain := h _ (List.mem_cons_self _ _)
    have ih := removeAll_renderAll b hb ps (fun p hm => h p (List.mem_cons_of_mem _ hm))
    have hpre : ('<' :: (b ++ ['>'])).isPrefixOf ('<' :: (body ++ '>' :: renderAll ps))
        = decide (body = b) := by
      have e : ('<' :: (b ++ ['>'])).isPrefixOf ('<' :: (body ++ '>' :: renderAll ps))
          = ('<' == '<' && (b ++ ['>']).isPrefixOf (body ++ '>' :: renderAll ps)) := rfl
      rw [e, isPrefixOf_body _ b body hb hp.2]
      simp
    have hshape : renderAll (Piece.tag body :: ps) = '<' :: (body ++ '>' :: renderAll ps) := by
      simp [renderAll, Piece.render]
    rw [hshape, removeAll, hpre]
    by_cases hbody : body = b
    · subst hbody
      have hlen : ('<' :: (body ++ ['>'])).length - 1 = (body ++ ['>']).length := by simp
      have hsplit : body ++ '>' :: renderAll ps = (body ++ ['>']) ++ renderAll ps := by simp
      rw [hlen, hsplit, removeAll_skip, ih]
      simp
    · have hnl : '<' ∉ body ++ ['>'] := by
        simp only [List.mem_append, List.mem_singleton, not_or]
        exact ⟨hp.1, by decide⟩
      have hsplit : body ++ '>' :: renderAll ps = (body ++ ['>']) ++ renderAll ps := by simp
      have hne : ¬ Piece.tag body = Piece.tag b := fun e => hbody (Piece.tag.inj e)
      rw [hsplit, removeAll_tag_text b _ _ hnl, ih]
      simp [hbody, hne, renderAll, Piece.render]

/-- Filtering the newline characters out of a text of paired stretches filters
them out of every stretch. -/
theorem filter_renderAll :
    ∀ ps : List Piece,
      (renderAll ps).filter (fun x => !decide (x = '\n'))
        = renderAll (ps.map Piece.withoutNewlines)
  | [] => rfl
  | .text cs :: ps => by
    simp [renderAll, Piece.render, Piece.withoutNewlines, filter_renderAll ps]
  | .tag body :: ps => by
    simp [renderAll, Piece.render, Piece.withoutNewlines, filter_renderAll ps]

theorem plain_withoutNewlines (p : Piece) (h : p.plain) : p.withoutNewlines.plain := by
  cases p with
  | text cs =>
    exact ⟨fun hm => h.1 (List.mem_of_mem_filter hm), fun hm => h.2 (List.mem_of_mem_filter hm)⟩
  | tag body =>
    exact ⟨fun hm => h.1 (List.mem_of_mem_filter hm), fun hm => h.2 (List.mem_of_mem_filter hm)⟩

/-- The characters of the stored annotation after the three `replace` calls. -/
theorem stripWrapper_toList (a : String) :
    (stripWrapper a).toList
      = removeAll "</LL:Annotation>".toList 0
          (removeAll "<LL:Annotation>".toList 0 (removeAll "\n".toList 0 a.toList)) := rfl

/-- The three `replace` calls on a text of paired stretches: the newline
characters go, and so do the stretches that are the opening or the closing
wrapper tag. -/
theorem stripWrapper_pieces (a : String) (ps : List Piece) (hps : ∀ p ∈ ps, p.plain)
    (ha : a.toList = renderAll ps) :
    ∃ qs : List Piece, (∀ q ∈ qs, q.plain)
      ∧ Piece.tag "LL:Annotation".toList ∉ qs ∧ Piece.tag "/LL:Annotation".toList ∉ qs
      ∧ (stripWrapper a).toList = renderAll qs := by
  have h1 : "\n".toList = ['\n'] := rfl
  have h2 : "<LL:Annotation>".toList = '<' :: ("LL:Annotation".toList ++ ['>']) := rfl
  have h3 : "</LL:Annotation>".toList = '<' :: ("/LL:Annotation".toList ++ ['>']) := rfl
  have hb2 : '>' ∉ "LL:Annotation".toList := by decide
  have hb3 : '>' ∉ "/LL:Annotation".toList := by decide
  have p1 : ∀ q ∈ ps.map Piece.withoutNewlines, q.plain := by
    intro q hq
    obtain ⟨p, hp, rfl⟩ := List.mem_map.mp hq
    exact plain_withoutNewlines p (hps p hp)
  have p2 : ∀ q ∈ (ps.map Piece.withoutNewlines).filter
      (fun p => !decide (p = Piece.tag "LL:Annotation".toList)), q.plain :=
    fun q hq => p1 q (List.mem_of_mem_filter hq)
  refine ⟨((ps.map Piece.withoutNewlines).filter
      (fun p => !decide (p = Piece.tag "LL:Annotation".toList))).filter
      (fun p => !decide (p = Piece.tag "/LL:Annotation".toList)), ?_, ?_, ?_, ?_⟩
  · exact fun q hq => p2 q (List.mem_of_mem_filter hq)
  · intro hm
    have := (List.mem_filter.mp (List.mem_of_mem_filter hm)).2
    simp at this
  · intro hm
    have := (List.mem_filter.mp hm).2
    simp at this
  · rw [stripWrapper_toList, ha, h1, removeAll_singleton, filter_renderAll, h2,
      removeAll_renderAll _ hb2 _ p1, h3, removeAll_renderAll _ hb3 _ p2]

mutual
/-- A node whose token stream has no start token for an element called `t` is
not such an element and has none below it. -/
theorem elementsByTagName_of_no_token (t : String) (ht : t ≠ "") :
    ∀ n : QDomNode, (∀ as, XmlToken.startElement t as ∉ flatten n) →
      n.tag ≠ t ∧ elementsByTagName t n = []
  | .element t' as cs, h => by
    have hne : t' ≠ t := by
      intro e
      apply h as
      simp [flatten, e]
    have hcs : ∀ bs, XmlToken.startElement t bs ∉ flattenAll cs := by
      intro bs hm
      apply h bs
      simp [flatten, hm]
    exact ⟨hne, by simpa [elementsByTagName] using elementsIn_of_no_token t ht cs hcs⟩
  | .text d, _ => ⟨fun e => ht e.symm, rfl⟩
/-- Nodes whose token stream has no start token for an element called `t` hold
no such element. -/
theorem elementsIn_of_no_token (t : String) (ht : t ≠ "") :
    ∀ ns : List QDomNode, (∀ as, XmlToken.startElement t as ∉ flattenAll ns) →
      elementsIn t ns = []
  | [], _ => by simp [elementsIn]
  | n :: ns, h => by
    have h1 := elementsByTagName_of_no_token t ht n
      (fun as hm => h as (by simp [flattenAll, hm]))
    have h2 := elementsIn_of_no_token t ht ns
      (fun as hm => h as (by simp [flattenAll, hm]))
    simp [elementsIn, h1.1, h1.2, h2]
end

end SpineCreator
